import Mathlib

/-!
# mdencoder: a shallow embedding of the Markdown encoder

The Go package walks a value by reflection and writes Markdown to an `io.Writer`.
The embedding keeps the three mutually recursive renderers of `encode.go`
(`structToMarkdown`, `mapToMarkdown`, `sliceToMarkdown`), the helpers they use and
the entry points of `encoder.go`.

* A reflected value is a tree (`Value`).  Kinds other than pointer, struct, slice and
  map are all handled by the `default` branches of the source and are represented by
  `Value.scalar`, which carries the text `fmt` prints for `%v`.
* The observable behaviour is a trace of events: every call of `Write` on the sink
  (with the error the sink answered) and every call of `MarshalMarkdown`.
* A sink is any function that decides, from the events so far and the bytes offered,
  whether the write is rejected.  `bytes.Buffer` never rejects.
* A run-time panic (for instance `NumField` on a non-struct) is an explicit status.
* A value reached through an unexported struct field is read-only (`Flag`): `Interface()`
  panics on it, as in the package `reflect`.
-/

namespace MdEncoder

/-- An `error` value. -/
abbrev Err := String

/-- What `MarshalMarkdown` returns: `([]byte, error)`. -/
inductive MarshalResult where
  | bytes (bs : String)
  | fail (e : Err)
  deriving DecidableEq, Repr

/-- The constants of `StructMarkdownStyle`. -/
inductive StructMarkdownStyle where
  | StructMdTitleStyle
  | StructMdListStyle
  | StructMdInListStyle
  deriving DecidableEq, Repr

open StructMarkdownStyle

/-- The parts of a `reflect.StructField` the encoder and the package `reflect` read: the
declared name, the results of `Tag.Get("json")` and `Tag.Get("jsonschema")`, the embedded
flag, and `IsExported()` (the name starts with an upper-case letter). -/
structure StructField where
  Name : String
  jsonTag : String
  jsonSchemaTag : String
  Anonymous : Bool
  Exported : Bool
  deriving DecidableEq, Repr

/-- The read-only bits of the flag of a `reflect.Value`: none (`readable`), `flagStickyRO`
(the value was reached through an unexported field that is not embedded) or `flagEmbedRO`
alone (the value of an unexported embedded field).  The value of `reflect.ValueOf` is
readable, and `v.Elem()` of a pointer `v` keeps the bits of `v`. -/
inductive Flag where
  | readable
  | stickyRO
  | embedRO
  deriving DecidableEq, Repr

namespace Flag

/-- The test `v.flag&flagRO != 0`, under which `v.Interface()` panics. -/
def isRO : Flag → Bool
  | readable => false
  | stickyRO => true
  | embedRO => true

/-- The flag of `v.Field(i)` for a value `v` with flag `fl`: `flagStickyRO` is inherited,
`flagEmbedRO` is cleared, and an unexported field adds `flagEmbedRO` when it is embedded and
`flagStickyRO` otherwise. -/
def field (fl : Flag) (f : StructField) : Flag :=
  match fl with
  | stickyRO => stickyRO
  | _ => if f.Exported then readable else if f.Anonymous then embedRO else stickyRO

/-- The flag of `v.Index(i)`, of the keys of `v.MapKeys()` and of `v.MapIndex(key)` for such a
key: `v.flag.ro()`. -/
def ro : Flag → Flag
  | readable => readable
  | _ => stickyRO

end Flag

/-- A reflected value.  `marshaler` is `some r` exactly when the type of the value
implements `Marshaler`, and `r` is what its `MarshalMarkdown` returns.
* `scalar`: any kind other than pointer, struct, slice and map; `text` is what `fmt` prints
  for it with `%v` and `zero` is `IsZero`.
* `ptr`: a pointer; `elem = none` is the nil pointer; `text` is what `fmt` prints for it.
* `struct`: the fields in declaration order.
* `slice`: `isNil` tells the nil slice (which has no elements) from an empty one.
* `map`: the entries in the order `MapKeys` returns them, each key by its `%v` form. -/
inductive Value where
  | scalar (marshaler : Option MarshalResult) (text : String) (zero : Bool)
  | ptr (marshaler : Option MarshalResult) (text : String) (elem : Option Value)
  | struct (marshaler : Option MarshalResult) (fields : List (StructField × Value))
  | slice (marshaler : Option MarshalResult) (isNil : Bool) (elems : List Value)
  | map (marshaler : Option MarshalResult) (isNil : Bool) (entries : List (String × Value))

/-- How a call of a renderer ends: normally with a nil error, with an error, or in a panic. -/
inductive Status where
  | ok
  | error (e : Err)
  | panic (msg : String)
  deriving DecidableEq, Repr

/-- An observable step of a run. -/
inductive Event where
  | write (p : String) (err : Option Err)
  | marshal (r : MarshalResult)
  deriving DecidableEq, Repr

abbrev Trace := List Event

/-- An `io.Writer`: from the events so far and the bytes offered, the error of the write. -/
abbrev Writer := Trace → String → Option Err

/-- The sink `bytes.Buffer`: every write is accepted. -/
def bufferWriter : Writer := fun _ _ => none

/-- The bytes the sink holds after a trace: the accepted writes, in order. -/
def written : Trace → String
  | [] => ""
  | Event.write p none :: t => p ++ written t
  | _ :: t => written t

/-- One call `w.Write(p)`. -/
def Write (w : Writer) (t : Trace) (p : String) : Trace × Option Err :=
  (t ++ [Event.write p (w t p)], w t p)

/-- A write whose error the source drops: `w.Write(p)` or `fmt.Fprintf(w, ...)` as a statement. -/
def put (w : Writer) (t : Trace) (p : String) : Trace :=
  (Write w t p).1

/-- The result `(int, error)` of a renderer together with the trace after the call. -/
abbrev Result := Trace × Nat × Status

namespace Value

/-- The override of a value, `typ.Implements(marshalerType)`. -/
def marshaler? : Value → Option MarshalResult
  | scalar m _ _ => m
  | ptr m _ _ => m
  | struct m _ => m
  | slice m _ _ => m
  | map m _ _ => m

end Value

mutual
/-- The method `reflect.Value.IsZero`. -/
def IsZero : Value → Bool
  | .scalar _ _ zero => zero
  | .ptr _ _ none => true
  | .ptr _ _ (some _) => false
  | .struct _ fields => fieldsZero fields
  | .slice _ isNil _ => isNil
  | .map _ isNil _ => isNil
/-- All fields of a struct are zero. -/
def fieldsZero : List (StructField × Value) → Bool
  | [] => true
  | (_, v) :: rest => IsZero v && fieldsZero rest
end

/-- The Go function `strings.Contains`. -/
def stringsContains (s substr : String) : Bool :=
  decide (substr.data <:+: s.data)

/-- Splitting at every occurrence of a separator character, as `strings.Split(s, ",")`. -/
def splitChars (sep : Char) : List Char → List (List Char)
  | [] => [[]]
  | c :: cs =>
    if c = sep then [] :: splitChars sep cs
    else
      match splitChars sep cs with
      | [] => [[c]]
      | p :: ps => (c :: p) :: ps

/-- The Go function `strings.Split(s, ",")`. -/
def stringsSplitComma (s : String) : List String :=
  (splitChars ',' s.data).map String.mk

/-- The Go function `strings.HasPrefix`. -/
def stringsHasPrefix (s pre : String) : Bool :=
  decide (pre.data <+: s.data)

/-- The Go function `strings.TrimPrefix`. -/
def stringsTrimPrefix (s pre : String) : String :=
  if stringsHasPrefix s pre then String.mk (s.data.drop pre.data.length) else s

/-- The loop of `parseJSONSchemaTag` over the parts of the tag. -/
def parseJSONSchemaParts : List String → String × String → String × String
  | [], acc => acc
  | part :: rest, (title, description) =>
    if stringsHasPrefix part "title=" then
      parseJSONSchemaParts rest (stringsTrimPrefix part "title=", description)
    else if stringsHasPrefix part "description=" then
      parseJSONSchemaParts rest (title, stringsTrimPrefix part "description=")
    else parseJSONSchemaParts rest (title, description)

/-- The function `parseJSONSchemaTag`: title and description of a jsonschema tag. -/
def parseJSONSchemaTag (tag : String) : String × String :=
  parseJSONSchemaParts (stringsSplitComma tag) ("", "")

/-- The function `parseJSONTag`: the part of the json tag before the first comma. -/
def parseJSONTag (tag : String) : String :=
  match stringsSplitComma tag with
  | p :: _ => p
  | [] => ""

/-- The function `shouldOmitField`. -/
def shouldOmitField (field : StructField) (fieldValue : Value) : Bool :=
  if !stringsContains field.jsonTag "omitempty" then false
  else if IsZero fieldValue then true
  else false

/-- The title of a field: the fallback chain of `structToMarkdown`. -/
def mdTitle (field : StructField) : String :=
  let title := (parseJSONSchemaTag field.jsonSchemaTag).1
  let t1 := if title = "" then parseJSONTag field.jsonTag else title
  if t1 = "" then field.Name else t1

/-- The description of a field. -/
def fieldDesc (field : StructField) : String :=
  (parseJSONSchemaTag field.jsonSchemaTag).2

/-- The value `bytes.Repeat([]byte{' '}, n)` as text. -/
def spaces (n : Nat) : String :=
  String.mk (List.replicate n ' ')

/-- The override branch shared by the three renderers and `Encode`: call
`MarshalMarkdown`, return its error, else write its bytes and return the error of that
write. -/
def marshalNode (w : Writer) (t : Trace) (r : MarshalResult) : Trace × Status :=
  match r with
  | .fail e => (t ++ [Event.marshal r], Status.error e)
  | .bytes bs =>
    match Write w (t ++ [Event.marshal r]) bs with
    | (t1, some e) => (t1, Status.error e)
    | (t1, none) => (t1, Status.ok)

/-- The line prefix chosen by the `switch style` of the struct and map renderers. -/
def stylePrefix (style : StructMarkdownStyle) (idx : Nat) : String :=
  match style with
  | StructMdTitleStyle => "# "
  | StructMdListStyle => "- "
  | StructMdInListStyle => if idx > 0 then "" else "- "

/-- The indentation of the title line chosen by the `switch style`. -/
def styleIndent (style : StructMarkdownStyle) (indentLevel idx : Nat) : String :=
  match style with
  | StructMdInListStyle =>
    if idx > 0 then spaces (indentLevel * 2) ++ "  " else spaces (indentLevel * 2)
  | _ => spaces (indentLevel * 2)

/-- The variable `subIndentLevel` after the `switch style`. -/
def subIndentLevel (style : StructMarkdownStyle) (indentLevel : Nat) : Nat :=
  match style with
  | StructMdTitleStyle => indentLevel
  | _ => indentLevel + 1

/-- The variable `subIndent` after the `switch style`. -/
def subIndent (style : StructMarkdownStyle) (indentLevel : Nat) : String :=
  match style with
  | StructMdTitleStyle => spaces (indentLevel * 2)
  | _ => spaces (indentLevel * 2) ++ "  "

/-- The writes that open a composite field: indent, prefix and title, the description in
parentheses when there is one, and a newline. -/
def putTitle (w : Writer) (t : Trace) (indent pre title desc : String) : Trace :=
  let t1 := put w t indent
  let t2 := put w t1 (pre ++ title)
  if desc ≠ "" then put w t2 (" (" ++ desc ++ ")") else t2

/-- The step `idx++` that ends an iteration of the field loop, with the newline written when
`idx < total`. -/
def fieldDone (w : Writer) (total idx : Nat) (t : Trace) : Result :=
  if idx + 1 < total then (put w t "\n", idx + 1, Status.ok) else (t, idx + 1, Status.ok)

/-- The idiom `if _, err := f(...); err != nil { return idx, err }`: after the nested call
`r`, return `idx` and the error when there is one, and go on with `next` otherwise. -/
def checked (r : Result) (idx : Nat) (next : Trace → Result) : Result :=
  match r with
  | (t, _, Status.ok) => next t
  | (t, _, st) => (t, idx, st)

/-- The branch `if field.Anonymous`: after the nested call `r`, return `idx` and the error
when there is one, and add the count of the nested call to `idx` otherwise. -/
def embedded (r : Result) (idx : Nat) : Result :=
  match r with
  | (t, v, Status.ok) => (t, idx + v, Status.ok)
  | (t, _, st) => (t, idx, st)

/-- The panic of `Interface()` on a read-only value. -/
def interfacePanic : Status :=
  Status.panic
    "reflect.Value.Interface: cannot return value obtained from unexported field or method"

/-- One iteration of the field loop of `structToMarkdown`, from the test `field.Anonymous`
on, for the field value `fieldValue` (already dereferenced) whose flag is `fl`.  The three
renderers applied to `fieldValue` are passed as `rStruct`, `rSlice` and `rMap`.  A status
other than `Status.ok` is the `return idx, err` of the source, or a panic: in the `default`
branch `fieldValue.Interface()` is evaluated after the title has been written. -/
def structFieldBody (w : Writer) (fl : Flag) (total : Nat) (style : StructMarkdownStyle)
    (indentLevel : Nat) (field : StructField) (fieldValue : Value)
    (rStruct : StructMarkdownStyle → Nat → Trace → Result)
    (rSlice : Nat → Trace → Result)
    (rMap : StructMarkdownStyle → Nat → Trace → Result)
    (idx : Nat) (t : Trace) : Result :=
  if field.Anonymous then
    embedded (rStruct style indentLevel t) idx
  else
    let t0 := if idx > 0 then put w t "\n" else t
    let indent := styleIndent style indentLevel idx
    let pre := stylePrefix style idx
    let sub := subIndentLevel style indentLevel
    match fieldValue with
    | .struct _ _ =>
      let t1 := put w (putTitle w t0 indent pre (mdTitle field) (fieldDesc field)) "\n"
      checked (rStruct StructMdListStyle sub t1) idx (fieldDone w total idx)
    | .slice _ _ _ =>
      let t1 := put w (putTitle w t0 indent pre (mdTitle field) (fieldDesc field)) "\n"
      checked (rSlice sub t1) idx (fieldDone w total idx)
    | .map _ _ _ =>
      let t1 := put w (putTitle w t0 indent pre (mdTitle field) (fieldDesc field)) "\n"
      checked (rMap StructMdListStyle sub t1) idx (fieldDone w total idx)
    | .scalar _ text _ | .ptr _ text _ =>
      let t1 := putTitle w t0 indent pre (mdTitle field) (fieldDesc field)
      if fl.isRO then (t1, idx, interfacePanic)
      else if style = StructMdTitleStyle then
        fieldDone w total idx (put w t1 ("\n" ++ subIndent style indentLevel ++ text))
      else
        fieldDone w total idx (put w t1 (": " ++ text))

/-- One iteration of the entry loop of `mapToMarkdown` for the key text `key` and the entry
value `fieldValue` (already dereferenced), in a map whose flag is `fl`.  The key and the
entry value are read-only exactly when the map is, so `key.Interface()`, evaluated before
anything is written, is the call that panics on a read-only map, and
`fieldValue.Interface()` in the `default` branch is reached on a readable map only. -/
def mapEntryBody (w : Writer) (fl : Flag) (style : StructMarkdownStyle) (indentLevel : Nat)
    (key : String) (fieldValue : Value)
    (rStruct : StructMarkdownStyle → Nat → Trace → Result)
    (rSlice : Nat → Trace → Result)
    (rMap : StructMarkdownStyle → Nat → Trace → Result)
    (idx : Nat) (t : Trace) : Result :=
  if fl.isRO then (t, idx, interfacePanic)
  else
    let indent := styleIndent style indentLevel idx
    let pre := stylePrefix style idx
    let sub := subIndentLevel style indentLevel
    let t0 := if idx > 0 then put w t "\n" else t
    match fieldValue with
    | .struct _ _ =>
      let t1 := put w (put w (put w t0 indent) (pre ++ key)) "\n"
      checked (rStruct StructMdListStyle sub t1) idx (fun t2 => (t2, idx + 1, Status.ok))
    | .slice _ _ _ =>
      let t1 := put w (put w (put w t0 indent) (pre ++ key)) "\n"
      checked (rSlice sub t1) idx (fun t2 => (t2, idx + 1, Status.ok))
    | .map _ _ _ =>
      let t1 := put w (put w (put w t0 indent) (pre ++ key)) "\n"
      checked (rMap StructMdListStyle sub t1) idx (fun t2 => (t2, idx + 1, Status.ok))
    | .scalar _ text _ | .ptr _ text _ =>
      (put w (put w t0 indent) (pre ++ key ++ ": " ++ text), idx + 1, Status.ok)

/-- One iteration of the element loop of `sliceToMarkdown` for the element `value`
(already dereferenced).  The `default` branch passes the `reflect.Value` itself to `fmt`,
which prints a read-only value without a panic. -/
def sliceElemBody (w : Writer) (indentLevel : Nat) (value : Value)
    (rStruct : StructMarkdownStyle → Nat → Trace → Result)
    (rSlice : Nat → Trace → Result)
    (rMap : StructMarkdownStyle → Nat → Trace → Result)
    (idx : Nat) (t : Trace) : Result :=
  let t0 := if idx > 0 then put w t "\n" else t
  match value with
  | .struct _ _ =>
    checked (rStruct StructMdInListStyle indentLevel t0) idx
      (fun t1 => (t1, idx + 1, Status.ok))
  | .map _ _ _ =>
    checked (rMap StructMdInListStyle indentLevel t0) idx (fun t1 => (t1, idx + 1, Status.ok))
  | .slice _ _ _ =>
    checked (rSlice (indentLevel + 1) t0) idx (fun t1 => (t1, idx + 1, Status.ok))
  | .scalar _ text _ | .ptr _ text _ =>
    (put w t0 (spaces (indentLevel * 2) ++ "- " ++ text), idx + 1, Status.ok)

/-- The override branch as a renderer result: the count is 0. -/
def marshalResult (w : Writer) (t : Trace) (r : MarshalResult) : Result :=
  ((marshalNode w t r).1, 0, (marshalNode w t r).2)

/-- The override branch of a renderer on a value with flag `fl`: `val.Interface()` panics on
a read-only value, before `MarshalMarkdown` is called. -/
def overrideResult (w : Writer) (fl : Flag) (t : Trace) (r : MarshalResult) : Result :=
  if fl.isRO then (t, 0, interfacePanic) else marshalResult w t r

/-- What follows an iteration: the loop goes on when the iteration ended normally and the
function returns otherwise. -/
def andThen (r : Result) (next : Nat → Trace → Result) : Result :=
  match r with
  | (t, idx, Status.ok) => next idx t
  | r => r

mutual
/-- The function `structToMarkdown`, on a value whose flag is `fl`. -/
def structToMarkdown (w : Writer) (fl : Flag) (val : Value) (style : StructMarkdownStyle)
    (indentLevel : Nat) (t : Trace) : Result :=
  match val with
  | .struct (some r) _ => overrideResult w fl t r
  | .struct none fields => structFields w fl fields.length style indentLevel fields 0 t
  | .ptr (some r) _ _ => overrideResult w fl t r
  | .ptr none _ none => (t, 0, Status.ok)
  | .ptr none _ (some (.struct _ fields)) =>
    structFields w fl fields.length style indentLevel fields 0 t
  | .ptr none _ (some _) => (t, 0, Status.panic "reflect: NumField of non-struct type")
  | .scalar (some r) _ _ => overrideResult w fl t r
  | .slice (some r) _ _ => overrideResult w fl t r
  | .map (some r) _ _ => overrideResult w fl t r
  | .scalar none _ _ => (t, 0, Status.panic "reflect: NumField of non-struct type")
  | .slice none _ _ => (t, 0, Status.panic "reflect: NumField of non-struct type")
  | .map none _ _ => (t, 0, Status.panic "reflect: NumField of non-struct type")
/-- The loop `for i := range total` of `structToMarkdown` over the fields not yet visited,
with the running `idx`; `fl` is the flag of the struct, and the value of a field (also
behind its pointer) has the flag `fl.field field`. -/
def structFields (w : Writer) (fl : Flag) (total : Nat) (style : StructMarkdownStyle)
    (indentLevel : Nat)
    (fields : List (StructField × Value)) (idx : Nat) (t : Trace) : Result :=
  match fields with
  | [] => (t, idx, Status.ok)
  | (field, fieldValue) :: rest =>
    if shouldOmitField field fieldValue then
      structFields w fl total style indentLevel rest idx t
    else
      match fieldValue with
      | .ptr _ _ none => structFields w fl total style indentLevel rest idx t
      | .ptr _ _ (some elem) =>
        andThen
          (structFieldBody w (fl.field field) total style indentLevel field elem
            (fun s d t1 => structToMarkdown w (fl.field field) elem s d t1)
            (fun d t1 => sliceToMarkdown w (fl.field field) elem d t1)
            (fun s d t1 => mapToMarkdown w (fl.field field) elem s d t1) idx t)
          (fun idx1 t1 => structFields w fl total style indentLevel rest idx1 t1)
      | fieldValue =>
        andThen
          (structFieldBody w (fl.field field) total style indentLevel field fieldValue
            (fun s d t1 => structToMarkdown w (fl.field field) fieldValue s d t1)
            (fun d t1 => sliceToMarkdown w (fl.field field) fieldValue d t1)
            (fun s d t1 => mapToMarkdown w (fl.field field) fieldValue s d t1) idx t)
          (fun idx1 t1 => structFields w fl total style indentLevel rest idx1 t1)
/-- The function `mapToMarkdown`, on a value whose flag is `fl`. -/
def mapToMarkdown (w : Writer) (fl : Flag) (val : Value) (style : StructMarkdownStyle)
    (indentLevel : Nat) (t : Trace) : Result :=
  match val with
  | .map (some r) _ _ => overrideResult w fl t r
  | .map none _ entries => mapEntries w fl style indentLevel entries 0 t
  | .ptr (some r) _ _ => overrideResult w fl t r
  | .ptr none _ none => (t, 0, Status.ok)
  | .ptr none _ (some (.map _ _ entries)) => mapEntries w fl style indentLevel entries 0 t
  | .ptr none _ (some _) => (t, 0, Status.panic "reflect: call of MapKeys on non-map Value")
  | .scalar (some r) _ _ => overrideResult w fl t r
  | .struct (some r) _ => overrideResult w fl t r
  | .slice (some r) _ _ => overrideResult w fl t r
  | .scalar none _ _ => (t, 0, Status.panic "reflect: call of MapKeys on non-map Value")
  | .struct none _ => (t, 0, Status.panic "reflect: call of MapKeys on non-map Value")
  | .slice none _ _ => (t, 0, Status.panic "reflect: call of MapKeys on non-map Value")
/-- The loop `for _, key := range keys` of `mapToMarkdown`; the entry values have the flag
`fl.ro`. -/
def mapEntries (w : Writer) (fl : Flag) (style : StructMarkdownStyle) (indentLevel : Nat)
    (entries : List (String × Value)) (idx : Nat) (t : Trace) : Result :=
  match entries with
  | [] => (t, idx, Status.ok)
  | (key, fieldValue) :: rest =>
    match fieldValue with
    | .ptr _ _ none => mapEntries w fl style indentLevel rest idx t
    | .ptr _ _ (some elem) =>
      andThen
        (mapEntryBody w fl style indentLevel key elem
          (fun s d t1 => structToMarkdown w fl.ro elem s d t1)
          (fun d t1 => sliceToMarkdown w fl.ro elem d t1)
          (fun s d t1 => mapToMarkdown w fl.ro elem s d t1) idx t)
        (fun idx1 t1 => mapEntries w fl style indentLevel rest idx1 t1)
    | fieldValue =>
      andThen
        (mapEntryBody w fl style indentLevel key fieldValue
          (fun s d t1 => structToMarkdown w fl.ro fieldValue s d t1)
          (fun d t1 => sliceToMarkdown w fl.ro fieldValue d t1)
          (fun s d t1 => mapToMarkdown w fl.ro fieldValue s d t1) idx t)
        (fun idx1 t1 => mapEntries w fl style indentLevel rest idx1 t1)
/-- The function `sliceToMarkdown`.  Its callers pass slices only; every other kind is
given the panic of `Len` on a value that is not a slice. -/
def sliceToMarkdown (w : Writer) (fl : Flag) (val : Value) (indentLevel : Nat)
    (t : Trace) : Result :=
  match val with
  | .slice (some r) _ _ => overrideResult w fl t r
  | .slice none _ elems => sliceElems w fl indentLevel elems 0 t
  | .ptr (some r) _ _ => overrideResult w fl t r
  | .ptr none _ none => (t, 0, Status.ok)
  | .ptr none _ (some (.slice _ _ elems)) => sliceElems w fl indentLevel elems 0 t
  | .ptr none _ (some _) =>
    (t, 0, Status.panic "reflect: call of reflect.Value.Len on non-slice Value")
  | .scalar (some r) _ _ => overrideResult w fl t r
  | .struct (some r) _ => overrideResult w fl t r
  | .map (some r) _ _ => overrideResult w fl t r
  | .scalar none _ _ => (t, 0, Status.panic "reflect: call of reflect.Value.Len on non-slice Value")
  | .struct none _ => (t, 0, Status.panic "reflect: call of reflect.Value.Len on non-slice Value")
  | .map none _ _ => (t, 0, Status.panic "reflect: call of reflect.Value.Len on non-slice Value")
/-- The loop `for i := range total` of `sliceToMarkdown`; the elements have the flag `fl.ro`. -/
def sliceElems (w : Writer) (fl : Flag) (indentLevel : Nat) (elems : List Value) (idx : Nat)
    (t : Trace) : Result :=
  match elems with
  | [] => (t, idx, Status.ok)
  | value :: rest =>
    match value with
    | .ptr _ _ none => sliceElems w fl indentLevel rest idx t
    | .ptr _ _ (some elem) =>
      andThen
        (sliceElemBody w indentLevel elem
          (fun s d t1 => structToMarkdown w fl.ro elem s d t1)
          (fun d t1 => sliceToMarkdown w fl.ro elem d t1)
          (fun s d t1 => mapToMarkdown w fl.ro elem s d t1) idx t)
        (fun idx1 t1 => sliceElems w fl indentLevel rest idx1 t1)
    | value =>
      andThen
        (sliceElemBody w indentLevel value
          (fun s d t1 => structToMarkdown w fl.ro value s d t1)
          (fun d t1 => sliceToMarkdown w fl.ro value d t1)
          (fun s d t1 => mapToMarkdown w fl.ro value s d t1) idx t)
        (fun idx1 t1 => sliceElems w fl indentLevel rest idx1 t1)
end

/-- The `switch val.Kind()` of `Encode`, for the value after the pointer test.  The value
comes from `reflect.ValueOf(obj)` and is readable. -/
def encodeKind (w : Writer) (val : Value) (t : Trace) : Trace × Status :=
  match val with
  | .slice _ _ _ =>
    ((sliceToMarkdown w Flag.readable val 0 t).1, (sliceToMarkdown w Flag.readable val 0 t).2.2)
  | .map _ _ _ =>
    ((mapToMarkdown w Flag.readable val StructMdTitleStyle 0 t).1,
      (mapToMarkdown w Flag.readable val StructMdTitleStyle 0 t).2.2)
  | .struct _ _ =>
    ((structToMarkdown w Flag.readable val StructMdTitleStyle 0 t).1,
      (structToMarkdown w Flag.readable val StructMdTitleStyle 0 t).2.2)
  | .scalar _ text _ | .ptr _ text _ => (put w t text, Status.ok)

/-- The method `Encoder.Encode`, for an encoder on the sink `w`. -/
def Encode (w : Writer) (obj : Value) (t : Trace) : Trace × Status :=
  match obj.marshaler? with
  | some r => marshalNode w t r
  | none =>
    match obj with
    | .ptr _ _ none => (t, Status.ok)
    | .ptr _ _ (some val) => encodeKind w val t
    | val => encodeKind w val t

/-- The function `Marshal`: `Encode` into a fresh buffer; the error of `Encode` is dropped and
the bytes of the buffer are returned with a nil error.  A panic of `Encode` is a panic of
`Marshal` (`none`). -/
def Marshal (obj : Value) : Option (String × Option Err) :=
  match Encode bufferWriter obj [] with
  | (_, Status.panic _) => none
  | (t, _) => some (written t, none)

/-! ## Names used in the statements -/

/-- The field value after `if fieldValue.Kind() == reflect.Ptr`: `none` for the nil pointer
(the iteration is skipped), the pointed value for a pointer, the value itself otherwise. -/
def derefValue : Value → Option Value
  | .ptr _ _ none => none
  | .ptr _ _ (some elem) => some elem
  | v => some v

/-- The kinds with a case of their own in the `switch`: struct, slice and map. -/
def composite : Value → Bool
  | .struct _ _ => true
  | .slice _ _ _ => true
  | .map _ _ _ => true
  | _ => false

/-- A nil pointer. -/
def isNilPtr : Value → Bool
  | .ptr _ _ none => true
  | _ => false

/-- One iteration of the field loop of `structToMarkdown` on a dereferenced field value, in
a struct whose flag is `fl`. -/
def structField (w : Writer) (fl : Flag) (total : Nat) (style : StructMarkdownStyle)
    (indentLevel : Nat) (field : StructField) (x : Value) (idx : Nat) (t : Trace) : Result :=
  structFieldBody w (fl.field field) total style indentLevel field x
    (fun s d t1 => structToMarkdown w (fl.field field) x s d t1)
    (fun d t1 => sliceToMarkdown w (fl.field field) x d t1)
    (fun s d t1 => mapToMarkdown w (fl.field field) x s d t1) idx t

/-- One iteration of the entry loop of `mapToMarkdown` on a dereferenced entry value, in a
map whose flag is `fl`. -/
def mapEntry (w : Writer) (fl : Flag) (style : StructMarkdownStyle) (indentLevel : Nat)
    (key : String) (x : Value) (idx : Nat) (t : Trace) : Result :=
  mapEntryBody w fl style indentLevel key x
    (fun s d t1 => structToMarkdown w fl.ro x s d t1)
    (fun d t1 => sliceToMarkdown w fl.ro x d t1)
    (fun s d t1 => mapToMarkdown w fl.ro x s d t1) idx t

/-- One iteration of the element loop of `sliceToMarkdown` on a dereferenced element, in a
slice whose flag is `fl`. -/
def sliceElem (w : Writer) (fl : Flag) (indentLevel : Nat) (x : Value) (idx : Nat)
    (t : Trace) : Result :=
  sliceElemBody w indentLevel x
    (fun s d t1 => structToMarkdown w fl.ro x s d t1)
    (fun d t1 => sliceToMarkdown w fl.ro x d t1)
    (fun s d t1 => mapToMarkdown w fl.ro x s d t1) idx t

/-- The renderer the `switch` selects for a composite value with flag `fl`, at a style and a
depth (`sliceToMarkdown` takes no style). -/
def renderNested (w : Writer) (fl : Flag) (x : Value) (style : StructMarkdownStyle)
    (indentLevel : Nat) (t : Trace) : Result :=
  match x with
  | .struct _ _ => structToMarkdown w fl x style indentLevel t
  | .slice _ _ _ => sliceToMarkdown w fl x indentLevel t
  | .map _ _ _ => mapToMarkdown w fl x style indentLevel t
  | _ => (t, 0, Status.ok)

/-- The text of the description part of a title line. -/
def descPart (desc : String) : String :=
  if desc ≠ "" then " (" ++ desc ++ ")" else ""

/-- The text of the title line of a struct field in sibling position `idx`. -/
def titleLine (style : StructMarkdownStyle) (indentLevel idx : Nat) (field : StructField) :
    String :=
  styleIndent style indentLevel idx ++ (stylePrefix style idx ++ mdTitle field) ++
    descPart (fieldDesc field)

/-- A failed override call, if there is one among the events `δ` of a call, is the last
event, and the status of the call is the error it returned. -/
def AbortsAtFailure (δ : Trace) (st : Status) : Prop :=
  ∀ pre e post, δ = pre ++ Event.marshal (MarshalResult.fail e) :: post →
    post = [] ∧ st = Status.error e

/-- No override call among the events failed. -/
def Clean (δ : Trace) : Prop :=
  ∀ e, Event.marshal (MarshalResult.fail e) ∉ δ

/-- The trace `t1` extends `t` by events without a failed override call. -/
def Ext (t t1 : Trace) : Prop :=
  ∃ δ, t1 = t ++ δ ∧ Clean δ

/-- A call started at `t` that ends at `t1` with status `st` only added events, and a
failed override call among them is the last one and gives the status. -/
def Good (t t1 : Trace) (st : Status) : Prop :=
  ∃ δ, t1 = t ++ δ ∧ AbortsAtFailure δ st

/-- The three renderers are `Good` on a value, for every sink, flag, style, depth and
trace. -/
def GoodValue (x : Value) : Prop :=
  ∀ (w : Writer) (fl : Flag) (s : StructMarkdownStyle) (d : Nat) (t : Trace),
    Good t (structToMarkdown w fl x s d t).1 (structToMarkdown w fl x s d t).2.2 ∧
    Good t (sliceToMarkdown w fl x d t).1 (sliceToMarkdown w fl x d t).2.2 ∧
    Good t (mapToMarkdown w fl x s d t).1 (mapToMarkdown w fl x s d t).2.2

/-- The trace after the writes that open a composite struct field in sibling position
`idx`: the separator newline when `idx > 0`, the indentation, prefix and title, the
description in parentheses when there is one, and the newline that ends the title line. -/
def openField (w : Writer) (style : StructMarkdownStyle) (indentLevel : Nat)
    (field : StructField) (idx : Nat) (t : Trace) : Trace :=
  put w (putTitle w (if idx > 0 then put w t "\n" else t) (styleIndent style indentLevel idx)
    (stylePrefix style idx) (mdTitle field) (fieldDesc field)) "\n"

/-- The trace after the writes that open a composite map entry in sibling position `idx`:
the separator newline when `idx > 0`, the indentation, the prefix and key, and the newline
that ends the title line. -/
def openEntry (w : Writer) (style : StructMarkdownStyle) (indentLevel : Nat)
    (key : String) (idx : Nat) (t : Trace) : Trace :=
  put w (put w (put w (if idx > 0 then put w t "\n" else t) (styleIndent style indentLevel idx))
    (stylePrefix style idx ++ key)) "\n"

/-- The text of the separator written before a sibling in position `idx`. -/
def sepText (idx : Nat) : String :=
  if idx > 0 then "\n" else ""

/-- A value of scalar shape. -/
def isScalar : Value → Bool
  | .scalar _ _ _ => true
  | _ => false

/-- The `%v` text of a value handled by a `default` branch. -/
def valueText : Value → String
  | .scalar _ text _ => text
  | .ptr _ text _ => text
  | _ => ""

/-- The bullet line of a scalar element at indent level `d`. -/
def bulletLine (d : Nat) (x : Value) : String :=
  spaces (d * 2) ++ "- " ++ valueText x

/-- Lines that each follow a newline. -/
def linesAfter : List String → String
  | [] => ""
  | a :: l => "\n" ++ a ++ linesAfter l

/-- A slice without override that is not empty and whose elements are all scalars. -/
def isScalarSeq : Value → Bool
  | .slice none _ xs => !xs.isEmpty && xs.all isScalar
  | _ => false

/-- The elements of a slice. -/
def sliceElements : Value → List Value
  | .slice _ _ xs => xs
  | _ => []

/-- The lines of a map entry whose value is a slice of scalars, at heading style and indent
level `d`: the heading line of the key and one bullet line for each element. -/
def entryLines (d : Nat) (e : String × Value) : List String :=
  (spaces (d * 2) ++ "# " ++ e.1) :: (sliceElements e.2).map (bulletLine d)

/-! ## Example values, among them those of the test file `encoder_test.go` -/

/-- A Go string as a value. -/
def stringValue (s : String) : Value :=
  Value.scalar none s (s == "")

/-- A Go int as a value, by its decimal text. -/
def intValue (n : Nat) : Value :=
  Value.scalar none (toString n) (n == 0)

/-- The field `Profile` of `CustomUser`. -/
def profileField : StructField :=
  ⟨"Profile", "profile,omitempty", "title=Profile,description=User profile information", false,
    true⟩

/-- The value of `customUser.Profile` after the pointer: a `CustomProfile`, whose type has
the method `MarshalMarkdown`. -/
def customProfile : Value :=
  Value.struct (some (MarshalResult.bytes "Custom marshaler for profile"))
    [(⟨"Age", "age,omitempty", "title=Age,description=User's age", false, true⟩,
        Value.ptr none "0xc000012345" (some (intValue 30))),
     (⟨"Bio", "bio,omitempty", "title=Bio", false, true⟩,
        stringValue "Loves coding and coffee."),
     (⟨"City", "city,omitempty", "", false, true⟩, stringValue "Bangkok")]

/-- The value of `customUser.Profile`: a pointer to `customProfile` (the method has a value
receiver, so the pointer type has it too). -/
def customProfilePtr : Value :=
  Value.ptr (some (MarshalResult.bytes "Custom marshaler for profile")) "&{0xc000012345}"
    (some customProfile)

/-- The field `ID` of `CustomUser`, without its tags. -/
def idField : StructField :=
  ⟨"ID", "", "", false, true⟩

/-- A `CustomProfile` whose `MarshalMarkdown` returns an error. -/
def failingProfile : Value :=
  Value.struct (some (MarshalResult.fail "profile unavailable"))
    [(⟨"Bio", "bio,omitempty", "title=Bio", false, true⟩,
        stringValue "Loves coding and coffee.")]

/-- A user whose second field holds `failingProfile` behind a pointer, between two scalar
fields. -/
def failingUser : Value :=
  Value.struct none
    [(idField, intValue 123),
     (profileField,
        Value.ptr (some (MarshalResult.fail "profile unavailable")) "&{}" (some failingProfile)),
     (⟨"City", "city,omitempty", "", false, true⟩, stringValue "Bangkok")]

/-- A field `Name *string` flagged omit-if-empty. -/
def nameField : StructField :=
  ⟨"Name", "name,omitempty", "", false, true⟩

/-- The nil `*string`. -/
def nilString : Value :=
  Value.ptr none "<nil>" none

/-- The struct with `ID:int=123` and `Name:*string=nil` (omit-if-empty). -/
def idNameStruct : Value :=
  Value.struct none [(idField, intValue 123), (nameField, nilString)]

/-- The struct with the one field `ID:int=123`. -/
def idStruct : Value :=
  Value.struct none [(idField, intValue 123)]

/-- An embedded field `E`, with a title and a description of its own. -/
def embeddedField : StructField :=
  ⟨"E", "", "title=Embedded,description=never shown", true, true⟩

/-- The fields of the embedded struct: the one field `B`. -/
def embeddedFields : List (StructField × Value) :=
  [(⟨"B", "", "", false, true⟩, stringValue "2")]

/-- A struct with the scalar field `A` followed by an embedded struct with the one field
`B`. -/
def embeddingStruct : Value :=
  Value.struct none
    [(⟨"A", "", "", false, true⟩, stringValue "1"),
     (embeddedField, Value.struct none embeddedFields)]

/-- The struct `embeddingStruct` with the embedded field replaced by its own field. -/
def splicedStruct : Value :=
  Value.struct none
    [(⟨"A", "", "", false, true⟩, stringValue "1"),
     (⟨"B", "", "", false, true⟩, stringValue "2")]

/-- The type `Tag` of the test with its four fields. -/
def tagValue (category tag : String) (exps map : Value) : Value :=
  Value.struct none
    [(⟨"Category", "category,omitempty", "title=Category,description=Type of tag", false, true⟩,
        stringValue category),
     (⟨"Tag", "tag,omitempty", "title=Tag,description=Actual tag value", false, true⟩,
        stringValue tag),
     (⟨"Exps", "exps,omitempty", "title=Exps,description=Extend preferences", false, true⟩,
        exps),
     (⟨"Map", "map,omitempty", "title=Map,description=Test for map", false, true⟩, map)]

/-- The first element of `user.Tags`, behind its pointer. -/
def interestTag : Value :=
  Value.ptr none "&{Interest}" (some (tagValue "Interest" "Technology" (Value.slice none true [])
    (Value.slice none false
      [Value.map none false [("key1", stringValue "v1")],
       Value.map none false [("key2", stringValue "v2")]])))

/-- The third element of `user.Tags`, behind its pointer. -/
def skillTag : Value :=
  Value.ptr none "&{Skill}" (some (tagValue "Skill" "Golang"
    (Value.slice none false [stringValue "tag1", stringValue "tag2", stringValue "tag3"])
    (Value.slice none true [])))

/-- The nil `*Tag` in the middle of `user.Tags`. -/
def nilTag : Value :=
  Value.ptr none "<nil>" none

/-- The field `M` of `mapHolder`. -/
def mField : StructField :=
  ⟨"M", "", "", false, true⟩

/-- A map with the one entry `k: v`. -/
def nestedMap : Value :=
  Value.map none false [("k", stringValue "v")]

/-- A struct whose one field `M` holds `nestedMap`. -/
def mapHolder : Value :=
  Value.struct none [(mField, nestedMap)]

/-- The field `ID` of `CustomUser` with its tags. -/
def userIdField : StructField :=
  ⟨"ID", "id", "title=User ID,description=The unique identifier for a user", false, true⟩

/-- The field `Name` of `CustomUser` with its tags. -/
def userNameField : StructField :=
  ⟨"Name", "name,omitempty", "title=Full Name,description=The full name of the user", false,
    true⟩

/-- The value of `customUser.Name`: a pointer to the string `"Alice"`. -/
def aliceName : Value :=
  Value.ptr none "0xc000014070" (some (stringValue "Alice"))

/-- A field `Tag string` without tags: no omit flag, no description. -/
def tagOnlyField : StructField :=
  ⟨"Tag", "", "", false, true⟩

/-- A struct with the single field `Tag:string`. -/
def tagStruct (v : String) : Value :=
  Value.struct none [(tagOnlyField, stringValue v)]

/-- The mapping `{"a": ["x","y"], "b": ["z"]}`, iterated as `a`, `b`. -/
def abMap : Value :=
  Value.map none false
    [("a", Value.slice none false [stringValue "x", stringValue "y"]),
     ("b", Value.slice none false [stringValue "z"])]

/-- The explicit title in the words of the spec: the text after `title=` in the last
comma-separated part of the jsonschema tag that starts with `title=`, and the empty text
when no part does. -/
def explicitTitle (tag : String) : String :=
  match ((stringsSplitComma tag).filter (fun p => stringsHasPrefix p "title=")).getLast? with
  | some p => String.mk (p.data.drop 6)
  | none => ""

/-- The secondary, tag-derived name in the words of the spec: the json tag up to its first
comma. -/
def jsonName (tag : String) : String :=
  String.mk (tag.data.takeWhile (fun c => c ≠ ','))

/-- The field `City` of `Profile`: a json tag and no jsonschema tag. -/
def cityField : StructField :=
  ⟨"City", "city,omitempty", "", false, true⟩

/-- The field `Bio` of `Profile`: a json tag and an explicit title. -/
def bioField : StructField :=
  ⟨"Bio", "bio,omitempty", "title=Biography", false, true⟩

/-- A field whose title is `k`: the exported field `K` with the json tag `k`. -/
def kField : StructField :=
  ⟨"K", "k", "", false, true⟩

/-- The field `Tags` of `User` with its omit-if-empty flag. -/
def tagsField : StructField :=
  ⟨"Tags", "tags,omitempty", "title=Tags,description=List of user tags", false, true⟩

/-- A non-nil slice with no elements, `[]*Tag{}`. -/
def emptySlice : Value :=
  Value.slice none false []

/-- A non-nil map with no entries, `map[string][]string{}`. -/
def emptyMap : Value :=
  Value.map none false []

/-- A value of a scalar type (say `type Level int`) with the method `MarshalMarkdown`: its
`%v` text is `3` and its override returns `**high**`. -/
def levelValue : Value :=
  Value.scalar (some (MarshalResult.bytes "**high**")) "3" false

/-- A value of a scalar type whose `MarshalMarkdown` returns an error. -/
def failingLevel : Value :=
  Value.scalar (some (MarshalResult.fail "no level")) "3" false

/-- A field `Level` without tags. -/
def levelField : StructField :=
  ⟨"Level", "", "", false, true⟩

/-- An unexported field `profile *CustomProfile` without tags. -/
def hiddenProfileField : StructField :=
  ⟨"profile", "", "", false, false⟩

/-- An unexported field `secret string` without tags. -/
def secretField : StructField :=
  ⟨"secret", "", "", false, false⟩

/-- A struct with the one unexported field `secret:string="x"`. -/
def secretOnlyStruct : Value :=
  Value.struct none [(secretField, stringValue "x")]

/-- A struct with the exported field `ID:int=123` and the unexported field
`secret:string="x"`. -/
def secretStruct : Value :=
  Value.struct none [(idField, intValue 123), (secretField, stringValue "x")]

/-- A pointer to `idStruct` whose type has the method `MarshalMarkdown` with a pointer
receiver: the pointer has the override, the struct it points to has none. -/
def overridePtr : Value :=
  Value.ptr (some (MarshalResult.bytes "custom")) "&{123}" (some idStruct)

/-- A sink that rejects every write, such as a closed file. -/
def closedWriter : Writer :=
  fun _ _ => some "file already closed"

/-- A field the loop of `structToMarkdown` does not skip: it is neither omitted by
`shouldOmitField` nor a nil pointer. -/
def emittedField (p : StructField × Value) : Bool :=
  !shouldOmitField p.1 p.2 && !isNilPtr p.2

/-- The field `Email` of `User` with its tags. -/
def emailField : StructField :=
  ⟨"Email", "email,omitempty", "title=Email,description=The email address of the user", false,
    true⟩

/-- The value of `user.Email`: a pointer to a string. -/
def aliceEmail : Value :=
  Value.ptr none "0xc000014080" (some (stringValue "alice@example.com"))

/-- A field value of scalar shape: a scalar, a nil pointer, or a pointer to a scalar. -/
def scalarShaped : Value → Bool
  | .scalar _ _ _ => true
  | .ptr _ _ none => true
  | .ptr _ _ (some (.scalar _ _ _)) => true
  | _ => false

/-- The field and the value text of a scalar field the loop emits; `none` for a field that is
skipped (omitted or nil) or whose value is not a scalar. -/
def emittedScalar (p : StructField × Value) : Option (StructField × String) :=
  if shouldOmitField p.1 p.2 then none
  else
    match derefValue p.2 with
    | some (.scalar _ text _) => some (p.1, text)
    | _ => none

/-- The rendering of a scalar field in sibling position `idx`: the title line, and the value
on the next line at heading style, after `": "` on the title line otherwise. -/
def scalarRendering (style : StructMarkdownStyle) (d idx : Nat) (field : StructField)
    (text : String) : String :=
  titleLine style d idx field ++
    (if style = StructMdTitleStyle then "\n" ++ spaces (d * 2) ++ text else ": " ++ text)

/-- The renderings of emitted scalar fields in sibling positions `idx`, `idx + 1`, ... -/
def renderingsFrom (style : StructMarkdownStyle) (d : Nat) :
    Nat → List (StructField × String) → List String
  | _, [] => []
  | idx, (f, text) :: rest =>
    scalarRendering style d idx f text :: renderingsFrom style d (idx + 1) rest

/-- What the field loop writes for emitted scalar fields from sibling position `idx` on,
with `total` declared fields: before each rendering the separator, after it a newline while
`idx + 1 < total`. -/
def fieldsLayout (total : Nat) (style : StructMarkdownStyle) (d : Nat) :
    Nat → List (StructField × String) → String
  | _, [] => ""
  | idx, (f, text) :: rest =>
    sepText idx ++ scalarRendering style d idx f text ++
      (if idx + 1 < total then "\n" else "") ++ fieldsLayout total style d (idx + 1) rest

/-- The parent `User` of the test reduced to its three scalar fields, `Name` being nil. -/
def scalarUser : Value :=
  Value.struct none [(userIdField, intValue 123), (userNameField, nilString),
    (emailField, aliceEmail)]

/-- A text that contains no newline. -/
def noNewline (s : String) : Bool :=
  decide ('\n' ∉ s.data)

mutual
/-- A value tree without override-capable node whose titles, descriptions, map keys and
value texts contain no newline. -/
def plain : Value → Bool
  | .scalar m text _ => m.isNone && noNewline text
  | .ptr m text none => m.isNone && noNewline text
  | .ptr m text (some e) => m.isNone && noNewline text && plain e
  | .struct m fields => m.isNone && plainFields fields
  | .slice m _ elems => m.isNone && plainElems elems
  | .map m _ entries => m.isNone && plainEntries entries
/-- The fields of a plain struct. -/
def plainFields : List (StructField × Value) → Bool
  | [] => true
  | (f, v) :: rest =>
    noNewline (mdTitle f) && noNewline (fieldDesc f) && plain v && plainFields rest
/-- The elements of a plain slice. -/
def plainElems : List Value → Bool
  | [] => true
  | v :: rest => plain v && plainElems rest
/-- The entries of a plain map. -/
def plainEntries : List (String × Value) → Bool
  | [] => true
  | (k, v) :: rest => noNewline k && plain v && plainEntries rest
end

/-- The lines of a text: its parts between newlines. -/
def linesOf (s : String) : List (List Char) :=
  splitChars '\n' s.data

/-- A text made of pieces, each one a newline or `n` spaces followed by characters other
than the newline. -/
inductive Pieces (n : Nat) : List Char → Prop where
  | nil : Pieces n []
  | newline {s : List Char} : Pieces n s → Pieces n ('\n' :: s)
  | text {s : List Char} (u : List Char) :
      '\n' ∉ u → Pieces n s → Pieces n (List.replicate n ' ' ++ u ++ s)

/-- A text that is `n` spaces followed by characters other than the newline. -/
def IsText (n : Nat) (s : String) : Prop :=
  ∃ u, s.data = List.replicate n ' ' ++ u ∧ '\n' ∉ u

/-- On a buffer the trace `t1` extends the bytes of `t` by pieces indented by `n` spaces. -/
def IndentedRun (n : Nat) (t t1 : Trace) : Prop :=
  ∃ out : String, written t1 = written t ++ out ∧ Pieces n out.data

/-- On a buffer each renderer, at every flag, style, depth `d` and trace, extends the bytes
by pieces indented by `2*d` spaces. -/
def RunValue (x : Value) : Prop :=
  ∀ (fl : Flag) (s : StructMarkdownStyle) (d : Nat) (t : Trace),
    IndentedRun (d * 2) t (structToMarkdown bufferWriter fl x s d t).1 ∧
    IndentedRun (d * 2) t (sliceToMarkdown bufferWriter fl x d t).1 ∧
    IndentedRun (d * 2) t (mapToMarkdown bufferWriter fl x s d t).1

/-- The first `Tag` of the test, a struct with a nested slice of maps. -/
def interestTagValue : Value :=
  tagValue "Interest" "Technology" (Value.slice none true [])
    (Value.slice none false
      [Value.map none false [("key1", stringValue "v1")],
       Value.map none false [("key2", stringValue "v2")]])

/-! ## Basic facts -/

theorem written_append (t1 t2 : Trace) : written (t1 ++ t2) = written t1 ++ written t2 := by
  induction t1 with
  | nil => simp [written]
  | cons e t ih =>
    cases e with
    | write p err =>
      cases err with
      | none => simp [written, ih, String.append_assoc]
      | some e => simp [written, ih]
    | marshal r => simp [written, ih]

theorem put_buffer (t : Trace) (p : String) :
    put bufferWriter t p = t ++ [Event.write p none] := rfl

theorem written_put_buffer (t : Trace) (p : String) :
    written (put bufferWriter t p) = written t ++ p := by
  simp [put_buffer, written_append, written]

theorem written_putTitle_buffer (t : Trace) (indent pre title desc : String) :
    written (putTitle bufferWriter t indent pre title desc) =
      written t ++ indent ++ (pre ++ title) ++ descPart desc := by
  unfold putTitle descPart
  by_cases h : desc = ""
  · simp [h, written_put_buffer]
  · simp [h, written_put_buffer]

theorem structFields_cons {fl : Flag} (w : Writer) (total : Nat) (style : StructMarkdownStyle)
    (d : Nat) (field : StructField) (fieldValue : Value)
    (rest : List (StructField × Value)) (idx : Nat) (t : Trace) :
    structFields w fl total style d ((field, fieldValue) :: rest) idx t =
      if shouldOmitField field fieldValue then structFields w fl total style d rest idx t
      else
        match derefValue fieldValue with
        | none => structFields w fl total style d rest idx t
        | some x =>
          andThen (structField w fl total style d field x idx t)
            (fun idx1 t1 => structFields w fl total style d rest idx1 t1) := by
  cases fieldValue with
  | ptr m text elem => cases elem <;> (rw [structFields]; rfl)
  | _ => rw [structFields] <;> first | rfl | (intros; contradiction)

theorem mapEntries_cons {fl : Flag} (w : Writer) (style : StructMarkdownStyle) (d : Nat)
    (key : String)
    (fieldValue : Value) (rest : List (String × Value)) (idx : Nat) (t : Trace) :
    mapEntries w fl style d ((key, fieldValue) :: rest) idx t =
      match derefValue fieldValue with
      | none => mapEntries w fl style d rest idx t
      | some x =>
        andThen (mapEntry w fl style d key x idx t)
          (fun idx1 t1 => mapEntries w fl style d rest idx1 t1) := by
  cases fieldValue with
  | ptr m text elem => cases elem <;> (rw [mapEntries]; rfl)
  | _ => rw [mapEntries] <;> first | rfl | (intros; contradiction)

theorem sliceElems_cons {fl : Flag} (w : Writer) (d : Nat) (value : Value) (rest : List Value)
    (idx : Nat) (t : Trace) :
    sliceElems w fl d (value :: rest) idx t =
      match derefValue value with
      | none => sliceElems w fl d rest idx t
      | some x =>
        andThen (sliceElem w fl d x idx t) (fun idx1 t1 => sliceElems w fl d rest idx1 t1) := by
  cases value with
  | ptr m text elem => cases elem <;> (rw [sliceElems]; rfl)
  | _ => rw [sliceElems] <;> first | rfl | (intros; contradiction)

theorem structToMarkdown_marshaler {fl : Flag} (w : Writer) (val : Value) (r : MarshalResult)
    (h : val.marshaler? = some r) (style : StructMarkdownStyle) (d : Nat) (t : Trace) :
    structToMarkdown w fl val style d t = overrideResult w fl t r := by
  cases val <;> simp only [Value.marshaler?] at h <;> subst h <;> rw [structToMarkdown]

theorem sliceToMarkdown_marshaler {fl : Flag} (w : Writer) (val : Value) (r : MarshalResult)
    (h : val.marshaler? = some r) (d : Nat) (t : Trace) :
    sliceToMarkdown w fl val d t = overrideResult w fl t r := by
  cases val <;> simp only [Value.marshaler?] at h <;> subst h <;> rw [sliceToMarkdown]

theorem mapToMarkdown_marshaler {fl : Flag} (w : Writer) (val : Value) (r : MarshalResult)
    (h : val.marshaler? = some r) (style : StructMarkdownStyle) (d : Nat) (t : Trace) :
    mapToMarkdown w fl val style d t = overrideResult w fl t r := by
  cases val <;> simp only [Value.marshaler?] at h <;> subst h <;> rw [mapToMarkdown]

theorem overrideResult_readable (w : Writer) (t : Trace) (r : MarshalResult) :
    overrideResult w Flag.readable t r = marshalResult w t r := rfl

theorem field_readable (field : StructField) (h : field.Exported = true) :
    Flag.readable.field field = Flag.readable := by
  simp [Flag.field, h]

theorem marshalResult_bytes (w : Writer) (t : Trace) (b : String)
    (hw : w (t ++ [Event.marshal (MarshalResult.bytes b)]) b = none) :
    marshalResult w t (MarshalResult.bytes b) =
      (t ++ [Event.marshal (MarshalResult.bytes b), Event.write b none], 0, Status.ok) := by
  simp [marshalResult, marshalNode, Write, hw]

theorem marshalResult_fail (w : Writer) (t : Trace) (e : Err) :
    marshalResult w t (MarshalResult.fail e) =
      (t ++ [Event.marshal (MarshalResult.fail e)], 0, Status.error e) := by
  simp [marshalResult, marshalNode]

theorem structToMarkdown_struct {fl : Flag} (w : Writer) (fields : List (StructField × Value))
    (style : StructMarkdownStyle) (d : Nat) (t : Trace) :
    structToMarkdown w fl (Value.struct none fields) style d t =
      structFields w fl fields.length style d fields 0 t := by
  rw [structToMarkdown]

theorem structFields_nil {fl : Flag} (w : Writer) (total : Nat) (style : StructMarkdownStyle)
    (d : Nat)
    (idx : Nat) (t : Trace) :
    structFields w fl total style d [] idx t = (t, idx, Status.ok) := by
  rw [structFields]

theorem structFields_single {fl : Flag} (w : Writer) (style : StructMarkdownStyle)
    (d : Nat) (field : StructField) (fieldValue x : Value) (t : Trace)
    (homit : shouldOmitField field fieldValue = false)
    (hderef : derefValue fieldValue = some x) :
    structToMarkdown w fl (Value.struct none [(field, fieldValue)]) style d t =
      andThen (structField w fl 1 style d field x 0 t) (fun idx1 t1 => (t1, idx1, Status.ok)) := by
  rw [structToMarkdown_struct, structFields_cons]
  simp only [homit, hderef, List.length_singleton, structFields_nil]
  rfl

/-- The field loop on a composite, non-anonymous field: separator, title line, newline, the
nested renderer at list style, then the end of the iteration. -/
theorem structField_composite {fl : Flag} (w : Writer) (total : Nat) (style : StructMarkdownStyle)
    (d : Nat) (field : StructField) (x : Value) (idx : Nat) (t : Trace)
    (hanon : field.Anonymous = false) (hc : composite x = true) :
    structField w fl total style d field x idx t =
      checked (renderNested w (fl.field field) x StructMdListStyle (subIndentLevel style d)
          (put w (putTitle w (if idx > 0 then put w t "\n" else t) (styleIndent style d idx)
            (stylePrefix style idx) (mdTitle field) (fieldDesc field)) "\n"))
        idx (fieldDone w total idx) := by
  cases x <;> simp [composite] at hc <;>
    simp [structField, structFieldBody, hanon, renderNested]

theorem renderNested_marshaler {fl : Flag} (w : Writer) (x : Value) (r : MarshalResult)
    (hc : composite x = true) (h : x.marshaler? = some r) (style : StructMarkdownStyle)
    (d : Nat) (t : Trace) :
    renderNested w fl x style d t = overrideResult w fl t r := by
  cases x <;> simp [composite] at hc <;> simp only [renderNested]
  · exact structToMarkdown_marshaler w _ r h style d t
  · exact sliceToMarkdown_marshaler w _ r h d t
  · exact mapToMarkdown_marshaler w _ r h style d t

/-- C1 (override precedence): the input on which the sentence fails.  In a struct whose one
field is the unexported `profile *CustomProfile`, the title line of the field and a newline
are written, and the nested call of `structToMarkdown` panics in `val.Interface()`: the
override is not called, its bytes are not written and no count is returned. -/
theorem override_unexported_field_counterexample :
    structToMarkdown bufferWriter Flag.readable
        (Value.struct none [(hiddenProfileField, customProfilePtr)]) StructMdTitleStyle 0 [] =
      ([Event.write "" none, Event.write "# profile" none, Event.write "\n" none], 0,
        interfacePanic) ∧
    written (structToMarkdown bufferWriter Flag.readable
        (Value.struct none [(hiddenProfileField, customProfilePtr)]) StructMdTitleStyle 0 []).1 =
      "# profile\n" := by
  decide

/-- C1 (override precedence), amended to values that are not reached through an unexported
field.  For a readable value of struct, slice or map kind whose type implements `Marshaler`
and whose `MarshalMarkdown` returns the bytes `b` with a nil error, each of the three
renderers, at any style and indent level and on any sink that accepts the write, calls the
override, writes exactly `b` in one write and returns count 0 with a nil error, whatever the
fields or elements of the value are.  A readable struct whose only field is exported and
holds such a value (directly or behind a pointer), the field neither embedded nor omitted,
is rendered on a buffer as the title line of the field, a newline and then exactly `b`. -/
theorem override_precedence (w : Writer) (x : Value) (b : String)
    (style : StructMarkdownStyle) (d : Nat) (t : Trace)
    (field : StructField) (fieldValue : Value)
    (hx : x.marshaler? = some (MarshalResult.bytes b))
    (hc : composite x = true)
    (hw : w (t ++ [Event.marshal (MarshalResult.bytes b)]) b = none)
    (hanon : field.Anonymous = false)
    (hexp : field.Exported = true)
    (homit : shouldOmitField field fieldValue = false)
    (hderef : derefValue fieldValue = some x) :
    structToMarkdown w Flag.readable x style d t =
        (t ++ [Event.marshal (MarshalResult.bytes b), Event.write b none], 0, Status.ok) ∧
    sliceToMarkdown w Flag.readable x d t =
        (t ++ [Event.marshal (MarshalResult.bytes b), Event.write b none], 0, Status.ok) ∧
    mapToMarkdown w Flag.readable x style d t =
        (t ++ [Event.marshal (MarshalResult.bytes b), Event.write b none], 0, Status.ok) ∧
    written (structToMarkdown bufferWriter Flag.readable (Value.struct none [(field, fieldValue)])
        style d t).1 = written t ++ titleLine style d 0 field ++ "\n" ++ b ∧
    (structToMarkdown bufferWriter Flag.readable (Value.struct none [(field, fieldValue)])
        style d t).2 = (1, Status.ok) := by
  refine ⟨?_, ?_, ?_, ?_⟩
  · rw [structToMarkdown_marshaler w x _ hx, overrideResult_readable,
      marshalResult_bytes w t b hw]
  · rw [sliceToMarkdown_marshaler w x _ hx, overrideResult_readable,
      marshalResult_bytes w t b hw]
  · rw [mapToMarkdown_marshaler w x _ hx, overrideResult_readable,
      marshalResult_bytes w t b hw]
  · rw [structFields_single bufferWriter style d field fieldValue x t homit hderef,
      structField_composite bufferWriter 1 style d field x 0 t hanon hc,
      field_readable field hexp, renderNested_marshaler bufferWriter x _ hc hx,
      overrideResult_readable, marshalResult_bytes _ _ _ rfl]
    simp [andThen, checked, fieldDone, written_append, written, written_put_buffer,
      written_putTitle_buffer, titleLine, String.append_assoc]

/-- Witness of C1: the field `Profile *CustomProfile` of the test, alone in a struct, renders
at heading style as its title line and the bytes of the override. -/
theorem override_precedence_witness :
    written (structToMarkdown bufferWriter Flag.readable
      (Value.struct none [(profileField, customProfilePtr)]) StructMdTitleStyle 0 []).1 =
        "# Profile (User profile information)\nCustom marshaler for profile" ∧
    structToMarkdown bufferWriter Flag.readable customProfile StructMdListStyle 1 [] =
      ([Event.marshal (MarshalResult.bytes "Custom marshaler for profile"),
        Event.write "Custom marshaler for profile" none], 0, Status.ok) := by
  have h := override_precedence bufferWriter customProfile "Custom marshaler for profile"
    StructMdTitleStyle 0 [] profileField customProfilePtr rfl rfl rfl rfl rfl (by decide) rfl
  have h1 := override_precedence bufferWriter customProfile "Custom marshaler for profile"
    StructMdListStyle 1 [] profileField customProfilePtr rfl rfl rfl rfl rfl (by decide) rfl
  refine ⟨?_, h1.1⟩
  rw [h.2.2.2.1]
  decide

/-! ## A failed override ends the run -/

theorem checked_eq (r : Result) (idx : Nat) (next : Trace → Result) :
    checked r idx next = if r.2.2 = Status.ok then next r.1 else (r.1, idx, r.2.2) := by
  obtain ⟨t, n, st⟩ := r
  cases st <;> simp [checked]

theorem embedded_eq (r : Result) (idx : Nat) :
    embedded r idx = (r.1, if r.2.2 = Status.ok then idx + r.2.1 else idx, r.2.2) := by
  obtain ⟨t, n, st⟩ := r
  cases st <;> simp [embedded]

theorem andThen_eq (r : Result) (next : Nat → Trace → Result) :
    andThen r next = if r.2.2 = Status.ok then next r.2.1 r.1 else r := by
  obtain ⟨t, n, st⟩ := r
  cases st <;> simp [andThen]

theorem clean_nil : Clean [] := by
  intro e h
  simp at h

theorem clean_append {a b : Trace} (ha : Clean a) (hb : Clean b) : Clean (a ++ b) := by
  intro e h
  rcases List.mem_append.1 h with h | h
  · exact ha e h
  · exact hb e h

theorem clean_write (p : String) (err : Option Err) : Clean [Event.write p err] := by
  intro e h
  simp at h

theorem ext_refl (t : Trace) : Ext t t :=
  ⟨[], by simp, clean_nil⟩

theorem ext_trans {a b c : Trace} (h1 : Ext a b) (h2 : Ext b c) : Ext a c := by
  obtain ⟨d1, rfl, c1⟩ := h1
  obtain ⟨d2, rfl, c2⟩ := h2
  exact ⟨d1 ++ d2, by simp, clean_append c1 c2⟩

theorem ext_put (w : Writer) (t : Trace) (p : String) : Ext t (put w t p) :=
  ⟨[Event.write p (w t p)], rfl, clean_write _ _⟩

theorem ext_sep (w : Writer) (t : Trace) (idx : Nat) :
    Ext t (if idx > 0 then put w t "\n" else t) := by
  split
  · exact ext_put w t _
  · exact ext_refl t

theorem ext_putTitle (w : Writer) (t : Trace) (indent pre title desc : String) :
    Ext t (putTitle w t indent pre title desc) := by
  unfold putTitle
  split
  · exact ext_trans (ext_trans (ext_put w t _) (ext_put w _ _)) (ext_put w _ _)
  · exact ext_trans (ext_put w t _) (ext_put w _ _)

theorem abortsAtFailure_of_clean {δ : Trace} (h : Clean δ) (st : Status) :
    AbortsAtFailure δ st := by
  intro pre e post hδ
  exact absurd (by rw [hδ]; simp) (h e)

theorem clean_of_abortsAtFailure {δ : Trace} {st : Status} (h : AbortsAtFailure δ st)
    (hst : ∀ e, st ≠ Status.error e) : Clean δ := by
  intro e he
  obtain ⟨pre, post, hδ⟩ := List.append_of_mem he
  exact hst e (h pre e post hδ).2

theorem abortsAtFailure_append {δ1 δ2 : Trace} {st : Status} (h1 : Clean δ1)
    (h2 : AbortsAtFailure δ2 st) : AbortsAtFailure (δ1 ++ δ2) st := by
  intro pre e post h
  rcases List.append_eq_append_iff.1 h with ⟨a, _, ha⟩ | ⟨c, hc, hc2⟩
  · exact h2 a e post ha
  · cases c with
    | nil => exact h2 [] e post (by simpa using hc2.symm)
    | cons x c =>
      simp only [List.cons_append, List.cons.injEq] at hc2
      exact absurd (by rw [hc, ← hc2.1]; simp) (h1 e)

theorem good_of_ext {t t1 : Trace} (h : Ext t t1) (st : Status) : Good t t1 st := by
  obtain ⟨δ, rfl, c⟩ := h
  exact ⟨δ, rfl, abortsAtFailure_of_clean c st⟩

theorem good_ext_left {t t1 t2 : Trace} {st : Status} (h1 : Ext t t1) (h2 : Good t1 t2 st) :
    Good t t2 st := by
  obtain ⟨d1, rfl, c1⟩ := h1
  obtain ⟨d2, rfl, c2⟩ := h2
  exact ⟨d1 ++ d2, by simp, abortsAtFailure_append c1 c2⟩

theorem ext_of_good {t t1 : Trace} {st : Status} (h : Good t t1 st)
    (hst : ∀ e, st ≠ Status.error e) : Ext t t1 := by
  obtain ⟨δ, rfl, c⟩ := h
  exact ⟨δ, rfl, clean_of_abortsAtFailure c hst⟩

theorem good_marshalResult (w : Writer) (t : Trace) (r : MarshalResult) :
    Good t (marshalResult w t r).1 (marshalResult w t r).2.2 := by
  cases r with
  | fail e =>
    rw [marshalResult_fail]
    refine ⟨[Event.marshal (MarshalResult.fail e)], rfl, ?_⟩
    intro pre e1 post h
    cases pre with
    | nil => simp at h; simp [h.1, h.2]
    | cons x pre => simp at h
  | bytes bs =>
    refine good_of_ext ⟨[Event.marshal (MarshalResult.bytes bs),
      Event.write bs (w (t ++ [Event.marshal (MarshalResult.bytes bs)]) bs)], ?_, ?_⟩ _
    · simp only [marshalResult, marshalNode, Write]
      cases h : w (t ++ [Event.marshal (MarshalResult.bytes bs)]) bs <;> simp
    · intro e h
      simp at h

theorem good_panic (t : Trace) (msg : String) : Good t t (Status.panic msg) :=
  good_of_ext (ext_refl t) _

theorem good_overrideResult (w : Writer) (fl : Flag) (t : Trace) (r : MarshalResult) :
    Good t (overrideResult w fl t r).1 (overrideResult w fl t r).2.2 := by
  unfold overrideResult
  split
  · exact good_panic t _
  · exact good_marshalResult w t r

theorem good_checked {t : Trace} (r : Result) (idx : Nat) (next : Trace → Result)
    (hr : Good t r.1 r.2.2) (hn : ∀ t1, Ext t1 (next t1).1 ∧ (next t1).2.2 = Status.ok) :
    Good t (checked r idx next).1 (checked r idx next).2.2 := by
  rw [checked_eq]
  split
  · rename_i h
    have h1 : Ext t r.1 := ext_of_good hr (by rw [h]; intro e; simp)
    exact good_of_ext (ext_trans h1 (hn r.1).1) _
  · exact hr

theorem good_andThen {t : Trace} (r : Result) (next : Nat → Trace → Result)
    (hr : Good t r.1 r.2.2) (hn : ∀ i t1, Good t1 (next i t1).1 (next i t1).2.2) :
    Good t (andThen r next).1 (andThen r next).2.2 := by
  rw [andThen_eq]
  split
  · rename_i h
    exact good_ext_left (ext_of_good hr (by rw [h]; intro e; simp)) (hn _ _)
  · exact hr

theorem fieldDone_ext (w : Writer) (total idx : Nat) (t : Trace) :
    Ext t (fieldDone w total idx t).1 ∧ (fieldDone w total idx t).2.2 = Status.ok := by
  unfold fieldDone
  split
  · exact ⟨ext_put w t _, rfl⟩
  · exact ⟨ext_refl t, rfl⟩

theorem good_structField {fl : Flag} (w : Writer) (total : Nat) (style : StructMarkdownStyle)
    (d : Nat)
    (field : StructField) (x : Value) (idx : Nat) (t : Trace) (hx : GoodValue x) :
    Good t (structField w fl total style d field x idx t).1
      (structField w fl total style d field x idx t).2.2 := by
  unfold structField structFieldBody
  split
  · rw [embedded_eq]
    exact (hx w _ style d t).1
  · have h0 : Ext t (put w (putTitle w (if idx > 0 then put w t "\n" else t)
        (styleIndent style d idx) (stylePrefix style idx) (mdTitle field) (fieldDesc field))
        "\n") :=
      ext_trans (ext_trans (ext_sep w t idx) (ext_putTitle w _ _ _ _ _)) (ext_put w _ _)
    have h1 : Ext t (putTitle w (if idx > 0 then put w t "\n" else t)
        (styleIndent style d idx) (stylePrefix style idx) (mdTitle field) (fieldDesc field)) :=
      ext_trans (ext_sep w t idx) (ext_putTitle w _ _ _ _ _)
    cases x with
    | struct m fs =>
      exact good_ext_left h0 (good_checked _ _ _ (hx w _ _ _ _).1 (fieldDone_ext w total idx))
    | slice m n es =>
      exact good_ext_left h0 (good_checked _ _ _ (hx w _ style _ _).2.1 (fieldDone_ext w total idx))
    | map m n es =>
      exact good_ext_left h0 (good_checked _ _ _ (hx w _ _ _ _).2.2 (fieldDone_ext w total idx))
    | scalar m text z =>
      simp only
      split
      · exact good_of_ext h1 _
      · split
        · exact good_of_ext
            (ext_trans (ext_trans h1 (ext_put w _ _)) (fieldDone_ext w _ _ _).1) _
        · exact good_of_ext
            (ext_trans (ext_trans h1 (ext_put w _ _)) (fieldDone_ext w _ _ _).1) _
    | ptr m text e =>
      simp only
      split
      · exact good_of_ext h1 _
      · split
        · exact good_of_ext
            (ext_trans (ext_trans h1 (ext_put w _ _)) (fieldDone_ext w _ _ _).1) _
        · exact good_of_ext
            (ext_trans (ext_trans h1 (ext_put w _ _)) (fieldDone_ext w _ _ _).1) _

theorem good_mapEntry {fl : Flag} (w : Writer) (style : StructMarkdownStyle) (d : Nat)
    (key : String) (x : Value) (idx : Nat) (t : Trace) (hx : GoodValue x) :
    Good t (mapEntry w fl style d key x idx t).1 (mapEntry w fl style d key x idx t).2.2 := by
  unfold mapEntry mapEntryBody
  have h0 : Ext t (put w (put w (put w (if idx > 0 then put w t "\n" else t)
      (styleIndent style d idx)) (stylePrefix style idx ++ key)) "\n") :=
    ext_trans (ext_trans (ext_trans (ext_sep w t idx) (ext_put w _ _)) (ext_put w _ _))
      (ext_put w _ _)
  have hn : ∀ t1 : Trace, Ext t1 ((fun t2 => ((t2, idx + 1, Status.ok) : Result)) t1).1 ∧
      ((fun t2 => ((t2, idx + 1, Status.ok) : Result)) t1).2.2 = Status.ok :=
    fun t1 => ⟨ext_refl t1, rfl⟩
  split
  · exact good_panic t _
  · cases x with
    | struct m fs => exact good_ext_left h0 (good_checked _ _ _ (hx w _ _ _ _).1 hn)
    | slice m n es => exact good_ext_left h0 (good_checked _ _ _ (hx w _ style _ _).2.1 hn)
    | map m n es => exact good_ext_left h0 (good_checked _ _ _ (hx w _ _ _ _).2.2 hn)
    | scalar m text z =>
      exact good_of_ext
        (ext_trans (ext_trans (ext_sep w t idx) (ext_put w _ _)) (ext_put w _ _)) _
    | ptr m text e =>
      exact good_of_ext
        (ext_trans (ext_trans (ext_sep w t idx) (ext_put w _ _)) (ext_put w _ _)) _

theorem good_sliceElem {fl : Flag} (w : Writer) (d : Nat) (x : Value) (idx : Nat) (t : Trace)
    (hx : GoodValue x) :
    Good t (sliceElem w fl d x idx t).1 (sliceElem w fl d x idx t).2.2 := by
  unfold sliceElem sliceElemBody
  have h0 : Ext t (if idx > 0 then put w t "\n" else t) := ext_sep w t idx
  have hn : ∀ t1 : Trace, Ext t1 ((fun t2 => ((t2, idx + 1, Status.ok) : Result)) t1).1 ∧
      ((fun t2 => ((t2, idx + 1, Status.ok) : Result)) t1).2.2 = Status.ok :=
    fun t1 => ⟨ext_refl t1, rfl⟩
  cases x with
  | struct m fs => exact good_ext_left h0 (good_checked _ _ _ (hx w _ _ _ _).1 hn)
  | slice m n es =>
    exact good_ext_left h0 (good_checked _ _ _ (hx w _ StructMdListStyle _ _).2.1 hn)
  | map m n es => exact good_ext_left h0 (good_checked _ _ _ (hx w _ _ _ _).2.2 hn)
  | scalar m text z => exact good_of_ext (ext_trans h0 (ext_put w _ _)) _
  | ptr m text e => exact good_of_ext (ext_trans h0 (ext_put w _ _)) _

theorem good_structFields {fl : Flag} (w : Writer) (total : Nat) (style : StructMarkdownStyle)
    (d : Nat)
    (fields : List (StructField × Value))
    (h : ∀ p ∈ fields, ∀ x, derefValue p.2 = some x → GoodValue x) (idx : Nat) (t : Trace) :
    Good t (structFields w fl total style d fields idx t).1
      (structFields w fl total style d fields idx t).2.2 := by
  induction fields generalizing idx t with
  | nil => rw [structFields_nil]; exact good_of_ext (ext_refl t) _
  | cons p rest ih =>
    obtain ⟨field, fieldValue⟩ := p
    have ih1 := ih (fun q hq => h q (List.mem_cons_of_mem _ hq))
    rw [structFields_cons]
    split
    · exact ih1 idx t
    · cases hd : derefValue fieldValue with
      | none => exact ih1 idx t
      | some x =>
        exact good_andThen _ _
          (good_structField w total style d field x idx t
            (h (field, fieldValue) (List.mem_cons_self _ _) x hd))
          (fun i t1 => ih1 i t1)

theorem mapEntries_nil {fl : Flag} (w : Writer) (style : StructMarkdownStyle) (d : Nat)
    (idx : Nat) (t : Trace) :
    mapEntries w fl style d [] idx t = (t, idx, Status.ok) := by
  rw [mapEntries]

theorem sliceElems_nil {fl : Flag} (w : Writer) (d : Nat) (idx : Nat) (t : Trace) :
    sliceElems w fl d [] idx t = (t, idx, Status.ok) := by
  rw [sliceElems]

theorem good_mapEntries {fl : Flag} (w : Writer) (style : StructMarkdownStyle) (d : Nat)
    (entries : List (String × Value))
    (h : ∀ p ∈ entries, ∀ x, derefValue p.2 = some x → GoodValue x) (idx : Nat)
    (t : Trace) :
    Good t (mapEntries w fl style d entries idx t).1
      (mapEntries w fl style d entries idx t).2.2 := by
  induction entries generalizing idx t with
  | nil => rw [mapEntries_nil]; exact good_of_ext (ext_refl t) _
  | cons p rest ih =>
    obtain ⟨key, fieldValue⟩ := p
    have ih1 := ih (fun q hq => h q (List.mem_cons_of_mem _ hq))
    rw [mapEntries_cons]
    cases hd : derefValue fieldValue with
    | none => exact ih1 idx t
    | some x =>
      exact good_andThen _ _
        (good_mapEntry w style d key x idx t
          (h (key, fieldValue) (List.mem_cons_self _ _) x hd))
        (fun i t1 => ih1 i t1)

theorem good_sliceElems {fl : Flag} (w : Writer) (d : Nat) (elems : List Value)
    (h : ∀ p ∈ elems, ∀ x, derefValue p = some x → GoodValue x) (idx : Nat) (t : Trace) :
    Good t (sliceElems w fl d elems idx t).1 (sliceElems w fl d elems idx t).2.2 := by
  induction elems generalizing idx t with
  | nil => rw [sliceElems_nil]; exact good_of_ext (ext_refl t) _
  | cons value rest ih =>
    have ih1 := ih (fun q hq => h q (List.mem_cons_of_mem _ hq))
    rw [sliceElems_cons]
    cases hd : derefValue value with
    | none => exact ih1 idx t
    | some x =>
      exact good_andThen _ _
        (good_sliceElem w d x idx t (h value (List.mem_cons_self _ _) x hd))
        (fun i t1 => ih1 i t1)

theorem sizeOf_derefValue_le {v x : Value} (h : derefValue v = some x) :
    sizeOf x ≤ sizeOf v := by
  cases v with
  | ptr m text e =>
    cases e with
    | none => simp [derefValue] at h
    | some y =>
      simp only [derefValue, Option.some.injEq] at h
      subst h
      simp only [Value.ptr.sizeOf_spec, Option.some.sizeOf_spec]
      omega
  | _ => simp only [derefValue, Option.some.injEq] at h; subst h; exact Nat.le_refl _

theorem sizeOf_snd_lt_of_mem {α : Type} [SizeOf α] {p : α × Value} {l : List (α × Value)}
    (h : p ∈ l) : sizeOf p.2 < sizeOf l := by
  have h1 := List.sizeOf_lt_of_mem h
  obtain ⟨a, v⟩ := p
  simp only [Prod.mk.sizeOf_spec] at h1
  simp only
  omega

theorem goodValue_of_marshaler {v : Value} {r : MarshalResult} (h : v.marshaler? = some r) :
    GoodValue v := by
  intro w fl s d t
  rw [structToMarkdown_marshaler w v r h, sliceToMarkdown_marshaler w v r h,
    mapToMarkdown_marshaler w v r h]
  exact ⟨good_overrideResult w fl t r, good_overrideResult w fl t r,
    good_overrideResult w fl t r⟩

theorem goodValue_all : ∀ (n : Nat) (v : Value), sizeOf v < n → GoodValue v := by
  intro n
  induction n with
  | zero => intro v hv; omega
  | succ n ih =>
    intro v hv
    cases hm : v.marshaler? with
    | some r => exact goodValue_of_marshaler hm
    | none =>
      intro w fl s d t
      cases v with
      | scalar m text z =>
        simp only [Value.marshaler?] at hm; subst hm
        simp only [structToMarkdown, sliceToMarkdown, mapToMarkdown]
        exact ⟨good_panic t _, good_panic t _, good_panic t _⟩
      | struct m fields =>
        simp only [Value.marshaler?] at hm; subst hm
        simp only [structToMarkdown, sliceToMarkdown, mapToMarkdown]
        refine ⟨good_structFields w _ s d fields ?_ 0 t, good_panic t _, good_panic t _⟩
        intro p hp x hd
        apply ih
        have h1 := sizeOf_snd_lt_of_mem hp
        have h2 := sizeOf_derefValue_le hd
        simp only [Value.struct.sizeOf_spec] at hv
        omega
      | slice m isNil elems =>
        simp only [Value.marshaler?] at hm; subst hm
        simp only [structToMarkdown, sliceToMarkdown, mapToMarkdown]
        refine ⟨good_panic t _, good_sliceElems w d elems ?_ 0 t, good_panic t _⟩
        intro p hp x hd
        apply ih
        have h1 := List.sizeOf_lt_of_mem hp
        have h2 := sizeOf_derefValue_le hd
        simp only [Value.slice.sizeOf_spec] at hv
        omega
      | map m isNil entries =>
        simp only [Value.marshaler?] at hm; subst hm
        simp only [structToMarkdown, sliceToMarkdown, mapToMarkdown]
        refine ⟨good_panic t _, good_panic t _, good_mapEntries w s d entries ?_ 0 t⟩
        intro p hp x hd
        apply ih
        have h1 := sizeOf_snd_lt_of_mem hp
        have h2 := sizeOf_derefValue_le hd
        simp only [Value.map.sizeOf_spec] at hv
        omega
      | ptr m text e =>
        simp only [Value.marshaler?] at hm; subst hm
        cases e with
        | none =>
          simp only [structToMarkdown, sliceToMarkdown, mapToMarkdown]
          exact ⟨good_of_ext (ext_refl t) _, good_of_ext (ext_refl t) _,
            good_of_ext (ext_refl t) _⟩
        | some y =>
          simp only [Value.ptr.sizeOf_spec, Option.some.sizeOf_spec] at hv
          cases y with
          | scalar m1 text1 z1 =>
            simp only [structToMarkdown, sliceToMarkdown, mapToMarkdown]
            exact ⟨good_panic t _, good_panic t _, good_panic t _⟩
          | ptr m1 text1 e1 =>
            simp only [structToMarkdown, sliceToMarkdown, mapToMarkdown]
            exact ⟨good_panic t _, good_panic t _, good_panic t _⟩
          | struct m1 fields =>
            simp only [structToMarkdown, sliceToMarkdown, mapToMarkdown]
            refine ⟨good_structFields w _ s d fields ?_ 0 t, good_panic t _, good_panic t _⟩
            intro p hp x hd
            apply ih
            have h1 := sizeOf_snd_lt_of_mem hp
            have h2 := sizeOf_derefValue_le hd
            simp only [Value.struct.sizeOf_spec] at hv
            omega
          | slice m1 isNil elems =>
            simp only [structToMarkdown, sliceToMarkdown, mapToMarkdown]
            refine ⟨good_panic t _, good_sliceElems w d elems ?_ 0 t, good_panic t _⟩
            intro p hp x hd
            apply ih
            have h1 := List.sizeOf_lt_of_mem hp
            have h2 := sizeOf_derefValue_le hd
            simp only [Value.slice.sizeOf_spec] at hv
            omega
          | map m1 isNil entries =>
            simp only [structToMarkdown, sliceToMarkdown, mapToMarkdown]
            refine ⟨good_panic t _, good_panic t _, good_mapEntries w s d entries ?_ 0 t⟩
            intro p hp x hd
            apply ih
            have h1 := sizeOf_snd_lt_of_mem hp
            have h2 := sizeOf_derefValue_le hd
            simp only [Value.map.sizeOf_spec] at hv
            omega

theorem goodValue (v : Value) : GoodValue v :=
  goodValue_all (sizeOf v + 1) v (Nat.lt_succ_self _)

theorem good_encodeKind (w : Writer) (val : Value) (t : Trace) :
    Good t (encodeKind w val t).1 (encodeKind w val t).2 := by
  cases val with
  | scalar m text z => exact good_of_ext (ext_put w t _) _
  | ptr m text e => exact good_of_ext (ext_put w t _) _
  | struct m fs => exact (goodValue _ w Flag.readable StructMdTitleStyle 0 t).1
  | slice m n es => exact (goodValue _ w Flag.readable StructMdTitleStyle 0 t).2.1
  | map m n es => exact (goodValue _ w Flag.readable StructMdTitleStyle 0 t).2.2

theorem good_Encode (w : Writer) (obj : Value) (t : Trace) :
    Good t (Encode w obj t).1 (Encode w obj t).2 := by
  unfold Encode
  cases hm : obj.marshaler? with
  | some r => exact good_marshalResult w t r
  | none =>
    cases obj with
    | ptr m text e =>
      cases e with
      | none => exact good_of_ext (ext_refl t) _
      | some y => exact good_encodeKind w y t
    | scalar m text z => exact good_encodeKind w _ t
    | struct m fs => exact good_encodeKind w _ t
    | slice m n es => exact good_encodeKind w _ t
    | map m n es => exact good_encodeKind w _ t

/-- C2 (override failure aborts the render).  For every sink, input value and starting
trace, `Encode` only adds events to the trace, and if among them a call of `MarshalMarkdown`
returned an error `e`, then that call is the last event of the run (nothing is written after
it), `Encode` returns exactly `e`, and the sink holds what it held before the run followed
by the bytes of the writes accepted before that call. -/
theorem override_failure_aborts (w : Writer) (obj : Value) (t : Trace) :
    ∃ δ, (Encode w obj t).1 = t ++ δ ∧
      ∀ pre e post, δ = pre ++ Event.marshal (MarshalResult.fail e) :: post →
        post = [] ∧ (Encode w obj t).2 = Status.error e ∧
          written (Encode w obj t).1 = written t ++ written pre := by
  obtain ⟨δ, h1, h2⟩ := good_Encode w obj t
  refine ⟨δ, h1, ?_⟩
  intro pre e post h
  obtain ⟨hp, hs⟩ := h2 pre e post h
  refine ⟨hp, hs, ?_⟩
  rw [h1, h, hp]
  simp [written_append, written]

/-- Witness of C2: in `failingUser` the override of the second field fails; `Encode` returns
that error, the call is the last event, and the heading of `ID` and the title line of
`Profile` stay in the buffer. -/
theorem override_failure_aborts_witness :
    (Encode bufferWriter failingUser []).2 = Status.error "profile unavailable" ∧
    written (Encode bufferWriter failingUser []).1 =
      "# ID\n123\n\n# Profile (User profile information)\n" := by
  obtain ⟨δ, h1, h2⟩ := override_failure_aborts bufferWriter failingUser []
  have he : (Encode bufferWriter failingUser []).1 =
      [Event.write "" none, Event.write "# ID" none, Event.write "\n123" none,
        Event.write "\n" none, Event.write "\n" none, Event.write "" none,
        Event.write "# Profile" none, Event.write " (User profile information)" none,
        Event.write "\n" none] ++
      Event.marshal (MarshalResult.fail "profile unavailable") :: [] := by decide
  rw [he, List.nil_append] at h1
  obtain ⟨_, hs, hw⟩ := h2 _ _ _ h1.symm
  refine ⟨hs, ?_⟩
  rw [hw]
  decide

/-! ## Skipped fields and embedded structs -/

theorem structFields_omit_middle {fl : Flag} (w : Writer) (total : Nat)
    (style : StructMarkdownStyle)
    (d : Nat) (pre : List (StructField × Value)) (field : StructField) (fieldValue : Value)
    (post : List (StructField × Value)) (h : shouldOmitField field fieldValue = true)
    (idx : Nat) (t : Trace) :
    structFields w fl total style d (pre ++ (field, fieldValue) :: post) idx t =
      structFields w fl total style d (pre ++ post) idx t := by
  induction pre generalizing idx t with
  | nil => simp only [List.nil_append]; rw [structFields_cons]; simp [h]
  | cons p pre ih =>
    obtain ⟨f, v⟩ := p
    simp only [List.cons_append]
    rw [structFields_cons, structFields_cons]
    simp only [ih]

/-- C3, the claim as stated fails: the struct with `ID:int=123` and the omitted
`Name:*string=nil` renders at heading style, depth 0, as `"# ID\n123\n"`, with a newline
after the value, whereas the one-field struct renders as `"# ID\n123"`. -/
theorem omit_same_bytes_counterexample :
    shouldOmitField nameField nilString = true ∧
    written (structToMarkdown bufferWriter Flag.readable idNameStruct StructMdTitleStyle 0 []).1 =
      "# ID\n123\n" ∧
    written (structToMarkdown bufferWriter Flag.readable
        idStruct StructMdTitleStyle 0 []).1 = "# ID\n123" ∧
    written (structToMarkdown bufferWriter Flag.readable idNameStruct StructMdTitleStyle 0 []).1 ≠
      written (structToMarkdown bufferWriter Flag.readable idStruct StructMdTitleStyle 0 []).1 := by
  decide

/-- C3 as amended.  A field flagged omit-if-empty whose value is the zero value produces no
output and takes no separator slot or count: on every sink, the field loop of
`structToMarkdown` does on the declared fields exactly what it does on the fields without
that one, with the declared number of fields (the omitted one included) still deciding the
newline written after an emitted field. -/
theorem omitted_field_skipped (w : Writer) (fl : Flag) (style : StructMarkdownStyle) (d : Nat)
    (pre : List (StructField × Value)) (field : StructField) (fieldValue : Value)
    (post : List (StructField × Value)) (t : Trace)
    (h : shouldOmitField field fieldValue = true) :
    structToMarkdown w fl (Value.struct none (pre ++ (field, fieldValue) :: post)) style d t =
      structFields w fl ((pre ++ post).length + 1) style d (pre ++ post) 0 t := by
  rw [structToMarkdown_struct,
    structFields_omit_middle w _ style d pre field fieldValue post h]
  simp [Nat.add_assoc]

/-- Witness of C3 as amended: the struct with `ID:int=123` and the omitted `Name`. -/
theorem omitted_field_skipped_witness :
    structToMarkdown bufferWriter Flag.readable idNameStruct StructMdTitleStyle 0 [] =
      structFields bufferWriter Flag.readable
          2 StructMdTitleStyle 0 [(idField, intValue 123)] 0 [] ∧
    written (structFields bufferWriter Flag.readable
        2 StructMdTitleStyle 0 [(idField, intValue 123)] 0 []).1 =
      "# ID\n123\n" :=
  ⟨omitted_field_skipped bufferWriter Flag.readable StructMdTitleStyle 0
    [(idField, intValue 123)] nameField nilString [] [] (by decide), by decide⟩

theorem field_field_anonymous (fl : Flag) (field : StructField)
    (hanon : field.Anonymous = true) (f : StructField) :
    (fl.field field).field f = fl.field f := by
  cases fl <;> cases he : field.Exported <;> simp [Flag.field, hanon, he]

theorem structField_flag_congr {fl1 fl2 : Flag} (w : Writer) (total : Nat)
    (style : StructMarkdownStyle) (d : Nat) (field : StructField) (x : Value) (idx : Nat)
    (t : Trace) (h : fl1.field field = fl2.field field) :
    structField w fl1 total style d field x idx t =
      structField w fl2 total style d field x idx t := by
  unfold structField
  rw [h]

theorem structFields_flag_congr {fl1 fl2 : Flag} (w : Writer) (total : Nat)
    (style : StructMarkdownStyle) (d : Nat) (fields : List (StructField × Value))
    (h : ∀ f, fl1.field f = fl2.field f) (idx : Nat) (t : Trace) :
    structFields w fl1 total style d fields idx t =
      structFields w fl2 total style d fields idx t := by
  induction fields generalizing idx t with
  | nil => rw [structFields_nil, structFields_nil]
  | cons p rest ih =>
    obtain ⟨f, v⟩ := p
    rw [structFields_cons, structFields_cons]
    simp only [ih, structField_flag_congr w total style d f _ _ _ (h f)]

/-- C4, the claim as stated fails: a struct with the field `A` and an embedded struct with
the field `B` renders at heading style as `"# A\n1\n# B\n2"`, whereas the struct with the
fields `A` and `B` renders as `"# A\n1\n\n# B\n2"`. -/
theorem anonymous_flattening_counterexample :
    written (structToMarkdown bufferWriter Flag.readable
        embeddingStruct StructMdTitleStyle 0 []).1 =
      "# A\n1\n# B\n2" ∧
    written (structToMarkdown bufferWriter Flag.readable splicedStruct StructMdTitleStyle 0 []).1 =
      "# A\n1\n\n# B\n2" ∧
    written (structToMarkdown bufferWriter Flag.readable
        embeddingStruct StructMdTitleStyle 0 []).1 ≠
      written (structToMarkdown bufferWriter Flag.readable
          splicedStruct StructMdTitleStyle 0 []).1 := by
  decide

/-- C4 as amended.  For an embedded struct field that is present and not override-capable,
the field loop writes nothing of its own (no separator, no title, no description): it runs
`structToMarkdown` on the embedded value at the same style and indent level, which renders
the fields of the embedded struct as a struct of their own, adds the count of that call to
the running count, and goes on with the next field.  When the embedded field is the only
declared field, the struct renders as the struct of the embedded fields: same events, same
status, and the same count when no error occurs. -/
theorem embedded_struct_nested (w : Writer) (fl : Flag) (total : Nat)
    (style : StructMarkdownStyle) (d : Nat) (field : StructField) (fieldValue : Value)
    (efields rest : List (StructField × Value)) (idx : Nat) (t : Trace)
    (hanon : field.Anonymous = true)
    (homit : shouldOmitField field fieldValue = false)
    (hderef : derefValue fieldValue = some (Value.struct none efields)) :
    structFields w fl total style d ((field, fieldValue) :: rest) idx t =
      andThen (embedded (structFields w fl efields.length style d efields 0 t) idx)
        (fun idx1 t1 => structFields w fl total style d rest idx1 t1) ∧
    (structToMarkdown w fl (Value.struct none [(field, fieldValue)]) style d t).1 =
      (structToMarkdown w fl (Value.struct none efields) style d t).1 ∧
    (structToMarkdown w fl (Value.struct none [(field, fieldValue)]) style d t).2.2 =
      (structToMarkdown w fl (Value.struct none efields) style d t).2.2 ∧
    ((structToMarkdown w fl (Value.struct none efields) style d t).2.2 = Status.ok →
      (structToMarkdown w fl (Value.struct none [(field, fieldValue)]) style d t).2.1 =
        (structToMarkdown w fl (Value.struct none efields) style d t).2.1) := by
  have hbody : ∀ (n i : Nat), structField w fl n style d field (Value.struct none efields) i t =
      embedded (structFields w fl efields.length style d efields 0 t) i := by
    intro n i
    rw [← structFields_flag_congr w efields.length style d efields
      (field_field_anonymous fl field hanon) 0 t]
    simp [structField, structFieldBody, hanon, structToMarkdown_struct]
  refine ⟨?_, ?_, ?_, ?_⟩
  · rw [structFields_cons]
    simp only [homit, hderef, hbody]
    rfl
  all_goals
    rw [structFields_single w style d field fieldValue _ t homit hderef, hbody,
      structToMarkdown_struct, andThen_eq, embedded_eq]
    split <;> simp_all

/-- Witness of C4 as amended: the embedded struct alone in a struct renders as its own
field `B`, and nothing of the title or description of the embedded field is written. -/
theorem embedded_struct_nested_witness :
    written (structToMarkdown bufferWriter Flag.readable
      (Value.struct none [(embeddedField, Value.struct none embeddedFields)])
      StructMdTitleStyle 0 []).1 = "# B\n2" := by
  rw [(embedded_struct_nested bufferWriter Flag.readable 1 StructMdTitleStyle 0 embeddedField
    (Value.struct none embeddedFields) embeddedFields [] 0 [] rfl (by decide) rfl).2.1]
  decide

/-! ## Nil elements of a slice -/

theorem derefValue_of_isNilPtr {x : Value} (h : isNilPtr x = true) : derefValue x = none := by
  cases x with
  | ptr m text e => cases e <;> simp_all [isNilPtr, derefValue]
  | _ => simp [isNilPtr] at h

theorem derefValue_of_not_isNilPtr {x : Value} (h : isNilPtr x = false) :
    ∃ y, derefValue x = some y := by
  cases x with
  | ptr m text e => cases e <;> simp_all [isNilPtr, derefValue]
  | _ => simp [derefValue]

theorem sliceElems_filter {fl : Flag} (w : Writer) (d : Nat) (xs : List Value) (idx : Nat)
    (t : Trace) :
    sliceElems w fl d xs idx t = sliceElems w fl d (xs.filter (fun x => !isNilPtr x)) idx t := by
  induction xs generalizing idx t with
  | nil => rfl
  | cons x xs ih =>
    cases hx : isNilPtr x with
    | true =>
      rw [sliceElems_cons, derefValue_of_isNilPtr hx]
      simp [hx, ih]
    | false =>
      simp only [List.filter_cons, hx, Bool.not_false, if_true]
      rw [sliceElems_cons, sliceElems_cons]
      simp only [← ih]

theorem checked_count (r : Result) (idx : Nat)
    (h : (checked r idx (fun t1 => (t1, idx + 1, Status.ok))).2.2 = Status.ok) :
    (checked r idx (fun t1 => (t1, idx + 1, Status.ok))).2.1 = idx + 1 := by
  rw [checked_eq] at h ⊢
  by_cases hr : r.2.2 = Status.ok
  · simp [hr]
  · simp [hr] at h

theorem sliceElem_count {fl : Flag} (w : Writer) (d : Nat) (x : Value) (idx : Nat) (t : Trace)
    (h : (sliceElem w fl d x idx t).2.2 = Status.ok) :
    (sliceElem w fl d x idx t).2.1 = idx + 1 := by
  unfold sliceElem sliceElemBody at h ⊢
  cases x with
  | scalar m text z => rfl
  | ptr m text e => rfl
  | struct m fs => exact checked_count _ idx h
  | slice m n es => exact checked_count _ idx h
  | map m n es => exact checked_count _ idx h

theorem sliceElems_count {fl : Flag} (w : Writer) (d : Nat) (xs : List Value) (idx : Nat)
    (t : Trace)
    (h : (sliceElems w fl d xs idx t).2.2 = Status.ok) :
    (sliceElems w fl d xs idx t).2.1 = idx + (xs.filter (fun x => !isNilPtr x)).length := by
  induction xs generalizing idx t with
  | nil => simp [sliceElems_nil]
  | cons x xs ih =>
    cases hx : isNilPtr x with
    | true =>
      rw [sliceElems_cons, derefValue_of_isNilPtr hx] at h ⊢
      simp only [List.filter_cons, hx, Bool.not_true]
      exact ih idx t h
    | false =>
      obtain ⟨y, hy⟩ := derefValue_of_not_isNilPtr hx
      rw [sliceElems_cons, hy] at h ⊢
      simp only [andThen_eq] at h ⊢
      by_cases hs : (sliceElem w fl d y idx t).2.2 = Status.ok
      · simp only [hs, if_true] at h ⊢
        rw [ih _ _ h, sliceElem_count w d y idx t hs]
        simp [hx]
        omega
      · simp only [hs, if_false] at h

/-- C5 (nil elements of a slice are skipped).  On every sink and at every indent level,
`sliceToMarkdown` on a slice does exactly what it does on the slice without its nil-pointer
elements: same events (so same bytes), same count, same status.  For a slice without
override, when the call ends without error the count is the number of elements that are not
nil pointers. -/
theorem nil_elements_skipped (w : Writer) (fl : Flag) (m : Option MarshalResult) (isNil : Bool)
    (xs : List Value) (d : Nat) (t : Trace) :
    sliceToMarkdown w fl (Value.slice m isNil xs) d t =
      sliceToMarkdown w fl (Value.slice m isNil (xs.filter (fun x => !isNilPtr x))) d t ∧
    ((sliceToMarkdown w fl (Value.slice none isNil xs) d t).2.2 = Status.ok →
      (sliceToMarkdown w fl (Value.slice none isNil xs) d t).2.1 =
        (xs.filter (fun x => !isNilPtr x)).length) := by
  constructor
  · cases m with
    | some r => simp only [sliceToMarkdown]
    | none =>
      simp only [sliceToMarkdown]
      exact sliceElems_filter w d xs 0 t
  · intro h
    simp only [sliceToMarkdown] at h ⊢
    rw [sliceElems_count w d xs 0 t h]
    simp

/-- Witness of C5: the `Tags` of the test, with a nil between two tags, render as the slice
of the two tags, and the count is 2. -/
theorem nil_elements_skipped_witness :
    sliceToMarkdown bufferWriter Flag.readable
        (Value.slice none false [interestTag, nilTag, skillTag]) 0 [] =
      sliceToMarkdown bufferWriter Flag.readable
          (Value.slice none false [interestTag, skillTag]) 0 [] ∧
    (sliceToMarkdown bufferWriter Flag.readable
        (Value.slice none false [interestTag, nilTag, skillTag])
      0 []).2.1 = 2 :=
  ⟨(nil_elements_skipped bufferWriter Flag.readable none false
      [interestTag, nilTag, skillTag] 0 []).1,
    (nil_elements_skipped bufferWriter Flag.readable none false
      [interestTag, nilTag, skillTag] 0 []).2 (by decide)⟩

/-! ## Style and depth of nested values -/

theorem written_sep_buffer (t : Trace) (idx : Nat) :
    written (if idx > 0 then put bufferWriter t "\n" else t) = written t ++ sepText idx := by
  unfold sepText
  split <;> simp [written_put_buffer]

theorem written_openField_buffer (style : StructMarkdownStyle) (d : Nat) (field : StructField)
    (idx : Nat) (t : Trace) :
    written (openField bufferWriter style d field idx t) =
      written t ++ sepText idx ++ titleLine style d idx field ++ "\n" := by
  simp [openField, written_put_buffer, written_putTitle_buffer, written_sep_buffer, titleLine,
    String.append_assoc]

theorem written_openEntry_buffer (style : StructMarkdownStyle) (d : Nat) (key : String)
    (idx : Nat) (t : Trace) :
    written (openEntry bufferWriter style d key idx t) =
      written t ++ sepText idx ++ styleIndent style d idx ++ (stylePrefix style idx ++ key) ++
        "\n" := by
  simp [openEntry, written_put_buffer, written_sep_buffer, String.append_assoc]

theorem structFields_composite {fl : Flag} (w : Writer) (total : Nat) (style : StructMarkdownStyle)
    (d : Nat) (field : StructField) (fieldValue x : Value)
    (rest : List (StructField × Value)) (idx : Nat) (t : Trace)
    (hanon : field.Anonymous = false)
    (homit : shouldOmitField field fieldValue = false)
    (hderef : derefValue fieldValue = some x) (hc : composite x = true) :
    structFields w fl total style d ((field, fieldValue) :: rest) idx t =
      andThen
        (checked (renderNested w (fl.field field) x StructMdListStyle (subIndentLevel style d)
          (openField w style d field idx t)) idx (fieldDone w total idx))
        (fun idx1 t1 => structFields w fl total style d rest idx1 t1) := by
  rw [structFields_cons]
  simp only [homit, hderef, structField_composite w total style d field x idx t hanon hc]
  rfl

theorem mapEntry_composite (w : Writer) (style : StructMarkdownStyle) (d : Nat)
    (key : String) (x : Value) (idx : Nat) (t : Trace) (hc : composite x = true) :
    mapEntry w Flag.readable style d key x idx t =
      checked (renderNested w Flag.readable x StructMdListStyle (subIndentLevel style d)
        (openEntry w style d key idx t)) idx (fun t2 => (t2, idx + 1, Status.ok)) := by
  cases x <;> simp [composite] at hc <;>
    simp [mapEntry, mapEntryBody, renderNested, openEntry, Flag.isRO, Flag.ro]

theorem mapEntries_composite (w : Writer) (style : StructMarkdownStyle) (d : Nat)
    (key : String) (fieldValue x : Value) (rest : List (String × Value)) (idx : Nat)
    (t : Trace) (hderef : derefValue fieldValue = some x) (hc : composite x = true) :
    mapEntries w Flag.readable style d ((key, fieldValue) :: rest) idx t =
      andThen
        (checked (renderNested w Flag.readable x StructMdListStyle (subIndentLevel style d)
          (openEntry w style d key idx t)) idx (fun t2 => (t2, idx + 1, Status.ok)))
        (fun idx1 t1 => mapEntries w Flag.readable style d rest idx1 t1) := by
  rw [mapEntries_cons]
  simp only [hderef, mapEntry_composite w style d key x idx t hc]

/-- C6, the claim as stated fails: at heading style and depth 0 the map held by the field `M`
is rendered at depth 0, not at depth 1: the bullet line `- k: v` has no indentation, whereas
`mapToMarkdown` at list style and depth 1 writes it behind two spaces. -/
theorem heading_children_depth_counterexample :
    written (structToMarkdown bufferWriter Flag.readable mapHolder StructMdTitleStyle 0 []).1 =
      "# M\n- k: v" ∧
    written (mapToMarkdown bufferWriter Flag.readable nestedMap StructMdListStyle (0 + 1) []).1 =
      "  - k: v" ∧
    written (structToMarkdown bufferWriter Flag.readable mapHolder StructMdTitleStyle 0 []).1 ≠
      "# M\n" ++ written (mapToMarkdown bufferWriter Flag.readable nestedMap
        StructMdListStyle (0 + 1) []).1 := by
  decide

theorem shouldOmitField_of_not_zero (field : StructField) (v : Value) (h : IsZero v = false) :
    shouldOmitField field v = false := by
  unfold shouldOmitField
  split <;> simp [h]

theorem structToMarkdown_single_composite {fl : Flag} (w : Writer)
    (style : StructMarkdownStyle) (d : Nat) (field : StructField) (fieldValue x : Value) (t : Trace)
    (hanon : field.Anonymous = false)
    (homit : shouldOmitField field fieldValue = false)
    (hderef : derefValue fieldValue = some x) (hc : composite x = true) :
    structToMarkdown w fl (Value.struct none [(field, fieldValue)]) style d t =
      checked (renderNested w (fl.field field) x StructMdListStyle (subIndentLevel style d)
        (openField w style d field 0 t)) 0 (fun t2 => (t2, 1, Status.ok)) := by
  rw [structToMarkdown_struct,
    structFields_composite w _ style d field fieldValue x [] 0 t hanon homit hderef hc]
  simp only [checked_eq, andThen_eq, structFields_nil, List.length_singleton]
  split <;> simp_all [fieldDone]

/-- C6 as amended.  At heading style and indent level `d`, the nested content of a composite
field of a struct, or of a composite entry of a map, is rendered at list style at the same
depth `d`: after the separator and the title line, the renderer of the nested value runs
with (list style, `d`) for a struct or a map and with depth `d` for a slice.  On a buffer
the title line is `2*d` spaces, `"# "`, the title and the description in parentheses, and
a nested bullet line starts with `2*d` spaces.  The struct may carry any flag `fl`, and the
nested value then has the flag of the field; the map is a readable one (on a map reached
through an unexported field the loop panics before it writes). -/
theorem heading_children_same_depth (w : Writer) (fl : Flag) (total d : Nat)
    (field : StructField) (key : String) (fieldValue x : Value) (rest : List (StructField × Value))
    (erest : List (String × Value)) (idx : Nat) (t : Trace)
    (m : Option MarshalResult) (text : String) (z : Bool)
    (hanon : field.Anonymous = false)
    (homit : shouldOmitField field fieldValue = false)
    (hderef : derefValue fieldValue = some x) (hc : composite x = true) :
    structFields w fl total StructMdTitleStyle d ((field, fieldValue) :: rest) idx t =
      andThen
        (checked (renderNested w (fl.field field) x StructMdListStyle d
          (openField w StructMdTitleStyle d field idx t)) idx (fieldDone w total idx))
        (fun idx1 t1 => structFields w fl total StructMdTitleStyle d rest idx1 t1) ∧
    mapEntries w Flag.readable StructMdTitleStyle d ((key, fieldValue) :: erest) idx t =
      andThen
        (checked (renderNested w Flag.readable x StructMdListStyle d
          (openEntry w StructMdTitleStyle d key idx t)) idx (fun t2 => (t2, idx + 1, Status.ok)))
        (fun idx1 t1 => mapEntries w Flag.readable StructMdTitleStyle d erest idx1 t1) ∧
    written (openField bufferWriter StructMdTitleStyle d field idx t) =
      written t ++ sepText idx ++ spaces (d * 2) ++ "# " ++ mdTitle field ++
        descPart (fieldDesc field) ++ "\n" ∧
    written (structToMarkdown bufferWriter fl
        (Value.struct none [(field, Value.slice none false [Value.scalar m text z])])
        StructMdTitleStyle d t).1 =
      written t ++ spaces (d * 2) ++ "# " ++ mdTitle field ++ descPart (fieldDesc field) ++
        "\n" ++ spaces (d * 2) ++ "- " ++ text := by
  refine ⟨?_, ?_, ?_, ?_⟩
  · exact structFields_composite w total _ d field fieldValue x rest idx t hanon homit hderef hc
  · exact mapEntries_composite w _ d key fieldValue x erest idx t hderef hc
  · simp [written_openField_buffer, titleLine, styleIndent, stylePrefix, String.append_assoc]
  · rw [structToMarkdown_single_composite bufferWriter _ d field
      (Value.slice none false [Value.scalar m text z])
      (Value.slice none false [Value.scalar m text z]) t hanon
      (shouldOmitField_of_not_zero _ _ rfl) rfl rfl]
    simp [renderNested, sliceToMarkdown, sliceElems_cons, sliceElems_nil, derefValue, sliceElem,
      sliceElemBody, andThen, checked, subIndentLevel, written_put_buffer,
      written_openField_buffer, titleLine, styleIndent, stylePrefix, sepText,
      String.append_assoc]

/-- Witness of C6 as amended: the struct whose field `M` holds a map, at heading style and
depth 1, renders the entry of the map at depth 1 as well. -/
theorem heading_children_same_depth_witness :
    structFields bufferWriter Flag.readable 1 StructMdTitleStyle 1 [(mField, nestedMap)] 0 [] =
      ([Event.write "  " none, Event.write "# M" none, Event.write "\n" none,
        Event.write "  " none, Event.write "- k: v" none], 1, Status.ok) := by
  rw [(heading_children_same_depth bufferWriter Flag.readable 1 1 mField "k" nestedMap nestedMap
    [] [] 0 []
    none "" true rfl (by decide) rfl rfl).1]
  decide

/-- C7 (list and inline-list style).  At list style or inline-list style and indent level
`d`, a composite field of a struct, or a composite entry of a map, is rendered as its title
line, a newline, and then the nested value at list style and depth `d + 1`: the renderer
of the nested value runs with (list style, `d + 1`) for a struct or a map and with depth
`d + 1` for a slice, on the sink as the title line left it.  The struct may carry any flag
`fl`, and the nested value then has the flag of the field; the map is a readable one (on a
map reached through an unexported field the loop panics before it writes). -/
theorem list_children_one_deeper (w : Writer) (fl : Flag) (total d : Nat)
    (style : StructMarkdownStyle) (field : StructField) (key : String) (fieldValue x : Value)
    (rest : List (StructField × Value)) (erest : List (String × Value)) (idx : Nat)
    (t : Trace)
    (hstyle : style = StructMdListStyle ∨ style = StructMdInListStyle)
    (hanon : field.Anonymous = false)
    (homit : shouldOmitField field fieldValue = false)
    (hderef : derefValue fieldValue = some x) (hc : composite x = true) :
    structFields w fl total style d ((field, fieldValue) :: rest) idx t =
      andThen
        (checked (renderNested w (fl.field field) x StructMdListStyle (d + 1)
          (openField w style d field idx t)) idx (fieldDone w total idx))
        (fun idx1 t1 => structFields w fl total style d rest idx1 t1) ∧
    mapEntries w Flag.readable style d ((key, fieldValue) :: erest) idx t =
      andThen
        (checked (renderNested w Flag.readable x StructMdListStyle (d + 1)
          (openEntry w style d key idx t)) idx (fun t2 => (t2, idx + 1, Status.ok)))
        (fun idx1 t1 => mapEntries w Flag.readable style d erest idx1 t1) ∧
    written (openField bufferWriter style d field idx t) =
      written t ++ sepText idx ++ titleLine style d idx field ++ "\n" ∧
    written (openEntry bufferWriter style d key idx t) =
      written t ++ sepText idx ++ styleIndent style d idx ++ (stylePrefix style idx ++ key) ++
        "\n" ∧
    (structToMarkdown w fl (Value.struct none [(field, fieldValue)]) style d t).1 =
      (renderNested w (fl.field field) x StructMdListStyle (d + 1)
        (openField w style d field 0 t)).1 ∧
    (mapToMarkdown w Flag.readable (Value.map none false [(key, fieldValue)]) style d t).1 =
      (renderNested w Flag.readable x StructMdListStyle (d + 1)
        (openEntry w style d key 0 t)).1 := by
  have hsub : subIndentLevel style d = d + 1 := by
    rcases hstyle with h | h <;> subst h <;> rfl
  refine ⟨?_, ?_, ?_, ?_, ?_, ?_⟩
  · rw [← hsub]
    exact structFields_composite w total _ d field fieldValue x rest idx t hanon homit hderef hc
  · rw [← hsub]
    exact mapEntries_composite w _ d key fieldValue x erest idx t hderef hc
  · exact written_openField_buffer style d field idx t
  · exact written_openEntry_buffer style d key idx t
  · rw [structToMarkdown_single_composite w style d field fieldValue x t hanon homit hderef hc,
      hsub, checked_eq]
    split <;> rfl
  · rw [mapToMarkdown, mapEntries_composite w style d key fieldValue x [] 0 t hderef hc, hsub,
      andThen_eq, checked_eq]
    split <;> simp_all [mapEntries_nil]

/-- Witness of C7: the struct whose field `M` holds a map, at list style and depth 1, renders
the entry of the map at depth 2. -/
theorem list_children_one_deeper_witness :
    written (structToMarkdown bufferWriter Flag.readable mapHolder StructMdListStyle 1 []).1 =
      "  - M\n    - k: v" ∧
    written (structToMarkdown bufferWriter Flag.readable mapHolder StructMdInListStyle 1 []).1 =
      "  - M\n    - k: v" := by
  constructor
  · rw [show mapHolder = Value.struct none [(mField, nestedMap)] from rfl,
      (list_children_one_deeper bufferWriter Flag.readable
          1 1 StructMdListStyle mField "k" nestedMap
        nestedMap [] [] 0 [] (Or.inl rfl) rfl (by decide) rfl rfl).2.2.2.2.1]
    decide
  · rw [show mapHolder = Value.struct none [(mField, nestedMap)] from rfl,
      (list_children_one_deeper bufferWriter Flag.readable
          1 1 StructMdInListStyle mField "k" nestedMap
        nestedMap [] [] 0 [] (Or.inr rfl) rfl (by decide) rfl rfl).2.2.2.2.1]
    decide

/-! ## Scalar fields -/

theorem structToMarkdown_single_scalar {fl : Flag} (w : Writer)
    (style : StructMarkdownStyle) (d : Nat)
    (field : StructField) (fieldValue : Value) (m : Option MarshalResult) (text : String)
    (z : Bool) (t : Trace)
    (hanon : field.Anonymous = false)
    (hro : (fl.field field).isRO = false)
    (homit : shouldOmitField field fieldValue = false)
    (hderef : derefValue fieldValue = some (Value.scalar m text z)) :
    structToMarkdown w fl (Value.struct none [(field, fieldValue)]) style d t =
      (put w (putTitle w t (styleIndent style d 0) (stylePrefix style 0) (mdTitle field)
          (fieldDesc field))
        (if style = StructMdTitleStyle then "\n" ++ subIndent style d ++ text else ": " ++ text),
        1, Status.ok) := by
  rw [structFields_single w style d field fieldValue _ t homit hderef]
  by_cases hs : style = StructMdTitleStyle
  · subst hs
    simp [structField, structFieldBody, hanon, hro, andThen, fieldDone]
  · simp [structField, structFieldBody, hanon, hro, andThen, fieldDone, hs]

/-- C10 (scalar field emission): the input on which the sentence fails.  The struct whose one
field is the unexported `secret string` with the value `x` is not rendered as `# secret`, a
newline and `x`: the title is written, then `fieldValue.Interface()` panics, at heading
style and at list style alike. -/
theorem scalar_unexported_field_counterexample :
    structToMarkdown bufferWriter Flag.readable secretOnlyStruct StructMdTitleStyle 0 [] =
      ([Event.write "" none, Event.write "# secret" none], 0, interfacePanic) ∧
    structToMarkdown bufferWriter Flag.readable secretOnlyStruct StructMdListStyle 0 [] =
      ([Event.write "" none, Event.write "- secret" none], 0, interfacePanic) ∧
    written (structToMarkdown bufferWriter Flag.readable secretOnlyStruct
      StructMdTitleStyle 0 []).1 ≠ "# secret\nx" := by
  decide

/-- C10 (scalar field emission), amended to exported fields.  A readable struct with exactly
one field, exported and of scalar shape (held directly or behind a pointer), neither
embedded nor omitted, with resolved title `T`, description `D` and textual value `v`,
rendered on a buffer at indent level `d`, is written at heading style as `2*d` spaces,
`"# "`, `T`, `" (D)"` when `D` is not empty, a newline, `2*d` spaces and `v`; at list style
and at inline-list style as `2*d` spaces, `"- "`, `T`, `" (D)"` when `D` is not empty,
`": "` and `v`.  Nothing follows (no trailing newline), the count is 1 and the error is
nil. -/
theorem scalar_field_emission (d : Nat) (field : StructField) (fieldValue : Value)
    (m : Option MarshalResult) (v : String) (z : Bool) (t : Trace)
    (hanon : field.Anonymous = false)
    (hexp : field.Exported = true)
    (homit : shouldOmitField field fieldValue = false)
    (hderef : derefValue fieldValue = some (Value.scalar m v z)) :
    written (structToMarkdown bufferWriter Flag.readable
        (Value.struct none [(field, fieldValue)]) StructMdTitleStyle d t).1 =
      written t ++ spaces (d * 2) ++ "# " ++ mdTitle field ++ descPart (fieldDesc field) ++
        "\n" ++ spaces (d * 2) ++ v ∧
    written (structToMarkdown bufferWriter Flag.readable
        (Value.struct none [(field, fieldValue)]) StructMdListStyle d t).1 =
      written t ++ spaces (d * 2) ++ "- " ++ mdTitle field ++ descPart (fieldDesc field) ++
        ": " ++ v ∧
    written (structToMarkdown bufferWriter Flag.readable
        (Value.struct none [(field, fieldValue)]) StructMdInListStyle d t).1 =
      written t ++ spaces (d * 2) ++ "- " ++ mdTitle field ++ descPart (fieldDesc field) ++
        ": " ++ v ∧
    ∀ style, (structToMarkdown bufferWriter Flag.readable
        (Value.struct none [(field, fieldValue)]) style d t).2 = (1, Status.ok) := by
  have hro : (Flag.readable.field field).isRO = false := by
    rw [field_readable field hexp]
    rfl
  refine ⟨?_, ?_, ?_, ?_⟩
  · rw [structToMarkdown_single_scalar bufferWriter _ d field fieldValue m v z t hanon hro
      homit hderef]
    simp [written_put_buffer, written_putTitle_buffer, styleIndent, stylePrefix, subIndent,
      String.append_assoc]
  · rw [structToMarkdown_single_scalar bufferWriter _ d field fieldValue m v z t hanon hro
      homit hderef]
    simp [written_put_buffer, written_putTitle_buffer, styleIndent, stylePrefix,
      String.append_assoc]
  · rw [structToMarkdown_single_scalar bufferWriter _ d field fieldValue m v z t hanon hro
      homit hderef]
    simp [written_put_buffer, written_putTitle_buffer, styleIndent, stylePrefix,
      String.append_assoc]
  · intro style
    rw [structToMarkdown_single_scalar bufferWriter _ d field fieldValue m v z t hanon hro
      homit hderef]

/-- Witness of C10: the fields `ID` and `Name` of the test, each alone in a struct. -/
theorem scalar_field_emission_witness :
    written (structToMarkdown bufferWriter Flag.readable
      (Value.struct none [(userIdField, intValue 123)])
      StructMdTitleStyle 0 []).1 = "# User ID (The unique identifier for a user)\n123" ∧
    written (structToMarkdown bufferWriter Flag.readable
      (Value.struct none [(userNameField, aliceName)])
      StructMdListStyle 1 []).1 = "  - Full Name (The full name of the user): Alice" := by
  constructor
  · rw [(scalar_field_emission 0 userIdField (intValue 123) none "123" false [] rfl rfl
      (by decide) rfl).1]
    decide
  · rw [(scalar_field_emission 1 userNameField aliceName none "Alice" false [] rfl rfl
      (by decide) rfl).2.1]
    decide

/-! ## Sequences and separators -/

theorem intercalate_go (l : List String) (acc : String) :
    String.intercalate.go acc "\n" l = acc ++ linesAfter l := by
  induction l generalizing acc with
  | nil => simp [String.intercalate.go, linesAfter]
  | cons a l ih => simp [String.intercalate.go, linesAfter, ih, String.append_assoc]

theorem intercalate_cons (a : String) (l : List String) :
    String.intercalate "\n" (a :: l) = a ++ linesAfter l := by
  simp [String.intercalate, intercalate_go]

theorem linesAfter_append (l1 l2 : List String) :
    linesAfter (l1 ++ l2) = linesAfter l1 ++ linesAfter l2 := by
  induction l1 with
  | nil => simp [linesAfter]
  | cons a l ih => simp [linesAfter, ih, String.append_assoc]

theorem sliceElems_scalars (fl : Flag) (d : Nat) (xs : List Value)
    (h : ∀ x ∈ xs, isScalar x = true) (idx : Nat) (t : Trace) :
    (sliceElems bufferWriter fl d xs idx t).2 = (idx + xs.length, Status.ok) ∧
    written (sliceElems bufferWriter fl d xs idx t).1 =
      written t ++ (if idx > 0 then linesAfter (xs.map (bulletLine d))
        else String.intercalate "\n" (xs.map (bulletLine d))) := by
  induction xs generalizing idx t with
  | nil => simp [sliceElems_nil, linesAfter, String.intercalate]
  | cons x xs ih =>
    have hx := h x (List.mem_cons_self _ _)
    have ih1 := ih (fun y hy => h y (List.mem_cons_of_mem _ hy))
    cases x with
    | scalar m text z =>
      rw [sliceElems_cons]
      simp only [derefValue, sliceElem, sliceElemBody, andThen]
      obtain ⟨h1, h2⟩ := ih1 (idx + 1) (put bufferWriter
        (if idx > 0 then put bufferWriter t "\n" else t) (spaces (d * 2) ++ "- " ++ text))
      refine ⟨by rw [h1]; simp; omega, ?_⟩
      rw [h2]
      by_cases hi : idx > 0
      · simp [hi, written_put_buffer, linesAfter, bulletLine, valueText, String.append_assoc]
      · simp [hi, written_put_buffer, intercalate_cons, bulletLine, valueText,
          String.append_assoc]
    | _ => simp [isScalar] at hx

/-- C8, the claim as stated fails: the sequence of the two structs `{Tag: "a"}` and
`{Tag: "b"}` is encoded as `"- Tag: a\n- Tag: b"`, the two bullets on consecutive lines,
not as `"- Tag: a\n\n- Tag: b"`. -/
theorem sequence_blank_line_counterexample :
    written (Encode bufferWriter (Value.slice none false [tagStruct "a", tagStruct "b"]) []).1 =
      "- Tag: a\n- Tag: b" ∧
    written (Encode bufferWriter (Value.slice none false [tagStruct "a", tagStruct "b"]) []).1 ≠
      "- Tag: a\n\n- Tag: b" := by
  decide

theorem shouldOmitField_tagOnly (v : Value) : shouldOmitField tagOnlyField v = false := by
  have h : stringsContains tagOnlyField.jsonTag "omitempty" = false := by decide
  simp [shouldOmitField, h]

theorem tagStruct_inList (v : String) (t : Trace) :
    structToMarkdown bufferWriter Flag.readable
        (Value.struct none [(tagOnlyField, stringValue v)])
        StructMdInListStyle 0 t =
      (t ++ [Event.write "" none, Event.write "- Tag" none, Event.write (": " ++ v) none], 1,
        Status.ok) := by
  rw [structToMarkdown_single_scalar bufferWriter StructMdInListStyle 0 tagOnlyField
    (stringValue v) none v (v == "") t rfl (by decide) (shouldOmitField_tagOnly _) rfl]
  have h1 : mdTitle tagOnlyField = "Tag" := by decide
  have h2 : fieldDesc tagOnlyField = "" := by decide
  have h3 : styleIndent StructMdInListStyle 0 0 = "" := by decide
  have h4 : stylePrefix StructMdInListStyle 0 ++ "Tag" = "- Tag" := by decide
  simp [putTitle, h1, h2, h3, h4, put_buffer]

/-- C8 as amended.  For all strings `v1`, `v2`, encoding a sequence of two structs, each
with the single field `Tag:string` (no omit flag, no description), produces the two bullets
`- Tag: v1` and `- Tag: v2` separated by a single newline, exactly `"- Tag: v1\n- Tag: v2"`.
More generally `sliceToMarkdown` writes one newline before every emitted element after the
first: on every sink an element in a later position is written as a newline followed by
what the element is in first position, and a slice of scalars is written on a buffer as its
bullet lines joined by single newlines. -/
theorem sequence_single_newline (v1 v2 : String) (w : Writer) (fl : Flag) (d : Nat)
    (x : Value) (idx : Nat) (t : Trace) (xs : List Value) (isNil : Bool)
    (hidx : idx > 0) (hxs : ∀ y ∈ xs, isScalar y = true) :
    written (Encode bufferWriter (Value.slice none false [tagStruct v1, tagStruct v2]) []).1 =
      "- Tag: " ++ v1 ++ "\n- Tag: " ++ v2 ∧
    (sliceElem w fl d x idx t).1 = (sliceElem w fl d x 0 (put w t "\n")).1 ∧
    (sliceElem w fl d x idx t).2.2 = (sliceElem w fl d x 0 (put w t "\n")).2.2 ∧
    written (sliceToMarkdown bufferWriter fl (Value.slice none isNil xs) d t).1 =
      written t ++ String.intercalate "\n" (xs.map (bulletLine d)) := by
  refine ⟨?_, ?_, ?_, ?_⟩
  · have a1 : ∀ s : String, "- Tag" ++ (": " ++ s) = "- Tag: " ++ s := fun s => by
      rw [← String.append_assoc]; rfl
    have a2 : ∀ s : String, "\n" ++ ("- Tag: " ++ s) = "\n- Tag: " ++ s := fun s => by
      rw [← String.append_assoc]; rfl
    simp only [Encode, Value.marshaler?, encodeKind, sliceToMarkdown, sliceElems_cons,
      sliceElems_nil, tagStruct, derefValue, sliceElem, sliceElemBody, Flag.ro,
      tagStruct_inList, checked, andThen]
    simp [put_buffer, written_append, written, String.append_assoc, a1, a2]
  · unfold sliceElem sliceElemBody
    cases x <;> simp [hidx, checked_eq] <;> split <;> rfl
  · unfold sliceElem sliceElemBody
    cases x <;> simp [hidx, checked_eq] <;> split <;> simp_all
  · simp only [sliceToMarkdown]
    rw [(sliceElems_scalars fl d xs hxs 0 t).2]
    simp

/-- Witness of C8 as amended: the `Exps` of the test, three strings, are written as three
bullet lines joined by single newlines. -/
theorem sequence_single_newline_witness :
    written (sliceToMarkdown bufferWriter Flag.readable
      (Value.slice none false [stringValue "tag1", stringValue "tag2", stringValue "tag3"])
      1 []).1 = "  - tag1\n  - tag2\n  - tag3" ∧
    written (Encode bufferWriter
      (Value.slice none false [tagStruct "Technology", tagStruct "Golang"]) []).1 =
      "- Tag: Technology\n- Tag: Golang" := by
  have h := sequence_single_newline "Technology" "Golang" bufferWriter Flag.readable 1
    (stringValue "tag2") 1 [] [stringValue "tag1", stringValue "tag2", stringValue "tag3"] false
    (by decide)
    (by simp [isScalar, stringValue])
  constructor
  · rw [h.2.2.2]
    decide
  · rw [h.1]
    decide

/-! ## A mapping of sequences at heading style -/

theorem mapEntries_scalarSeqs (d : Nat) (entries : List (String × Value))
    (h : ∀ e ∈ entries, isScalarSeq e.2 = true) (idx : Nat) (t : Trace) :
    (mapEntries bufferWriter Flag.readable StructMdTitleStyle d entries idx t).2 =
      (idx + entries.length, Status.ok) ∧
    written (mapEntries bufferWriter Flag.readable StructMdTitleStyle d entries idx t).1 =
      written t ++ (if idx > 0 then linesAfter (entries.flatMap (entryLines d))
        else String.intercalate "\n" (entries.flatMap (entryLines d))) := by
  induction entries generalizing idx t with
  | nil => simp [mapEntries_nil, linesAfter, String.intercalate]
  | cons e rest ih =>
    obtain ⟨key, v⟩ := e
    have hv := h (key, v) (List.mem_cons_self _ _)
    have ih1 := ih (fun y hy => h y (List.mem_cons_of_mem _ hy))
    cases v with
    | slice m isNil xs =>
      cases m with
      | some r => simp [isScalarSeq] at hv
      | none =>
        simp only [isScalarSeq, Bool.and_eq_true, Bool.not_eq_true', List.all_eq_true] at hv
        obtain ⟨hne, hall⟩ := hv
        cases xs with
        | nil => simp at hne
        | cons x xs =>
          obtain ⟨s1, s2⟩ := sliceElems_scalars Flag.readable d (x :: xs) hall 0
            (openEntry bufferWriter StructMdTitleStyle d key idx t)
          rw [mapEntries_composite bufferWriter StructMdTitleStyle d key
            (Value.slice none isNil (x :: xs)) (Value.slice none isNil (x :: xs)) rest idx t
            rfl rfl]
          simp only [renderNested, sliceToMarkdown, subIndentLevel, checked_eq, andThen_eq, s1,
            if_true]
          obtain ⟨h1, h2⟩ := ih1 (idx + 1) (sliceElems bufferWriter Flag.readable d (x :: xs) 0
            (openEntry bufferWriter StructMdTitleStyle d key idx t)).1
          refine ⟨by rw [h1]; simp; omega, ?_⟩
          rw [h2, s2, written_openEntry_buffer, List.flatMap_cons]
          by_cases hi : idx > 0
          · simp [hi, sepText, intercalate_cons, linesAfter, linesAfter_append, entryLines,
              sliceElements, styleIndent, stylePrefix, String.append_assoc]
          · simp [hi, sepText, intercalate_cons, linesAfter, linesAfter_append, entryLines,
              sliceElements, styleIndent, stylePrefix, String.append_assoc]
    | _ => simp [isScalarSeq] at hv

/-- C9 (mapping of sequences at heading style).  For every mapping without override whose
values are non-empty slices of scalars, `Encode` on a buffer writes, for each key in the
iteration order of the mapping, the heading line `"# " + key` followed by one bullet line
`"- " + value` for each element of the slice in order, all these lines joined by single
newlines, with nothing else and no trailing newline, and returns a nil error.  The same
holds for `mapToMarkdown` on a readable map at heading style and any indent level `d`, each
line behind `2*d` spaces. -/
theorem map_of_sequences_heading (isNil : Bool) (entries : List (String × Value))
    (d : Nat) (t : Trace) (h : ∀ e ∈ entries, isScalarSeq e.2 = true) :
    written (Encode bufferWriter (Value.map none isNil entries) []).1 =
      String.intercalate "\n" (entries.flatMap fun e =>
        ("# " ++ e.1) :: (sliceElements e.2).map (fun x => "- " ++ valueText x)) ∧
    (Encode bufferWriter (Value.map none isNil entries) []).2 = Status.ok ∧
    written (mapToMarkdown bufferWriter Flag.readable (Value.map none isNil entries)
        StructMdTitleStyle d t).1 =
      written t ++ String.intercalate "\n" (entries.flatMap (entryLines d)) := by
  have h0 : entryLines 0 = fun e : String × Value =>
      ("# " ++ e.1) :: (sliceElements e.2).map (fun x => "- " ++ valueText x) := by
    funext e
    have hs : spaces 0 = "" := by decide
    simp [entryLines, bulletLine, hs]
  refine ⟨?_, ?_, ?_⟩
  · simp only [Encode, Value.marshaler?, encodeKind, mapToMarkdown]
    rw [(mapEntries_scalarSeqs 0 entries h 0 []).2, h0]
    simp [written]
  · simp only [Encode, Value.marshaler?, encodeKind, mapToMarkdown]
    rw [(mapEntries_scalarSeqs 0 entries h 0 []).1]
  · simp only [mapToMarkdown]
    rw [(mapEntries_scalarSeqs d entries h 0 t).2]
    simp

/-- Witness of C9: the mapping `{"a": ["x","y"], "b": ["z"]}` iterated as `a`, `b` yields
the lines `# a`, `- x`, `- y`, `# b`, `- z`. -/
theorem map_of_sequences_heading_witness :
    written (Encode bufferWriter abMap []).1 = "# a\n- x\n- y\n# b\n- z" := by
  rw [show abMap = Value.map none false
      [("a", Value.slice none false [stringValue "x", stringValue "y"]),
       ("b", Value.slice none false [stringValue "z"])] from rfl,
    (map_of_sequences_heading false _ 0 [] (by simp [isScalarSeq, isScalar, stringValue])).1]
  decide

/-! ## The title of a field -/

theorem parseJSONSchemaParts_fst (parts : List String) (t0 d0 : String) :
    (parseJSONSchemaParts parts (t0, d0)).1 =
      match (parts.filter (fun p => stringsHasPrefix p "title=")).getLast? with
      | some p => String.mk (p.data.drop 6)
      | none => t0 := by
  induction parts generalizing t0 d0 with
  | nil => rfl
  | cons p rest ih =>
    rw [parseJSONSchemaParts]
    by_cases h : stringsHasPrefix p "title=" = true
    · simp only [h, if_true, List.filter_cons]
      rw [ih, List.getLast?_cons]
      cases (List.filter (fun p => stringsHasPrefix p "title=") rest).getLast? with
      | none =>
        simp only [Option.getD_none, stringsTrimPrefix, h, if_true]
        rfl
      | some q => rfl
    · have h' : stringsHasPrefix p "title=" = false := by simpa using h
      simp only [h', List.filter_cons, Bool.false_eq_true, if_false]
      by_cases h2 : stringsHasPrefix p "description=" = true
      · simp only [h2, if_true]
        exact ih _ _
      · simp only [h2, if_false]
        exact ih _ _

theorem parseJSONSchemaTag_title (tag : String) :
    (parseJSONSchemaTag tag).1 = explicitTitle tag :=
  parseJSONSchemaParts_fst (stringsSplitComma tag) "" ""

theorem splitChars_head (l : List Char) :
    ∃ rest, splitChars ',' l = l.takeWhile (fun c => c ≠ ',') :: rest := by
  induction l with
  | nil => exact ⟨[], rfl⟩
  | cons c cs ih =>
    obtain ⟨rest, h⟩ := ih
    by_cases hc : c = ','
    · exact ⟨splitChars ',' cs, by simp [splitChars, hc]⟩
    · exact ⟨rest, by simp [splitChars, hc, h]⟩

theorem parseJSONTag_eq (tag : String) : parseJSONTag tag = jsonName tag := by
  obtain ⟨rest, h⟩ := splitChars_head tag.data
  simp [parseJSONTag, stringsSplitComma, h, jsonName]

theorem prefix_put (w : Writer) (t : Trace) (p : String) : t <+: put w t p :=
  ⟨[Event.write p (w t p)], rfl⟩

theorem prefix_of_good {t t1 : Trace} {st : Status} (h : Good t t1 st) : t <+: t1 := by
  obtain ⟨δ, h1, _⟩ := h
  exact ⟨δ, h1.symm⟩

theorem prefix_fieldDone (w : Writer) (total idx : Nat) (t : Trace) :
    t <+: (fieldDone w total idx t).1 := by
  unfold fieldDone
  split
  · exact prefix_put w t _
  · exact List.prefix_refl t

theorem prefix_checked {t : Trace} (r : Result) (idx : Nat) (next : Trace → Result)
    (hr : t <+: r.1) (hn : ∀ t1, t1 <+: (next t1).1) : t <+: (checked r idx next).1 := by
  rw [checked_eq]
  split
  · exact List.IsPrefix.trans hr (hn _)
  · exact hr

theorem prefix_putTitle (w : Writer) (t : Trace) (indent pre title desc : String) :
    put w (put w t indent) (pre ++ title) <+: putTitle w t indent pre title desc := by
  unfold putTitle
  split
  · exact prefix_put w _ _
  · exact List.prefix_refl _

theorem prefix_structField_title {fl : Flag} (w : Writer) (total : Nat)
    (style : StructMarkdownStyle) (d : Nat) (field : StructField) (x : Value) (idx : Nat)
    (t : Trace)
    (hanon : field.Anonymous = false) :
    put w (put w (if idx > 0 then put w t "\n" else t) (styleIndent style d idx))
      (stylePrefix style idx ++ mdTitle field) <+:
        (structField w fl total style d field x idx t).1 := by
  have hx := goodValue x
  have h1 := prefix_putTitle w (if idx > 0 then put w t "\n" else t) (styleIndent style d idx)
    (stylePrefix style idx) (mdTitle field) (fieldDesc field)
  have h2 := List.IsPrefix.trans h1 (prefix_put w _ "\n")
  unfold structField structFieldBody
  simp only [hanon, Bool.false_eq_true, if_false]
  cases x with
  | struct m fs =>
    exact List.IsPrefix.trans h2
      (prefix_checked _ _ _ (prefix_of_good (hx w _ _ _ _).1) (prefix_fieldDone w total idx))
  | slice m n es =>
    exact List.IsPrefix.trans h2
      (prefix_checked _ _ _ (prefix_of_good (hx w _ style _ _).2.1) (prefix_fieldDone w total idx))
  | map m n es =>
    exact List.IsPrefix.trans h2
      (prefix_checked _ _ _ (prefix_of_good (hx w _ _ _ _).2.2) (prefix_fieldDone w total idx))
  | scalar m text z =>
    simp only
    by_cases hro : (fl.field field).isRO = true
    · rw [if_pos hro]
      exact h1
    · rw [if_neg hro]
      by_cases hs : style = StructMdTitleStyle
      · rw [if_pos hs]
        exact List.IsPrefix.trans (List.IsPrefix.trans h1 (prefix_put w _ _))
          (prefix_fieldDone w _ _ _)
      · rw [if_neg hs]
        exact List.IsPrefix.trans (List.IsPrefix.trans h1 (prefix_put w _ _))
          (prefix_fieldDone w _ _ _)
  | ptr m text e =>
    simp only
    by_cases hro : (fl.field field).isRO = true
    · rw [if_pos hro]
      exact h1
    · rw [if_neg hro]
      by_cases hs : style = StructMdTitleStyle
      · rw [if_pos hs]
        exact List.IsPrefix.trans (List.IsPrefix.trans h1 (prefix_put w _ _))
          (prefix_fieldDone w _ _ _)
      · rw [if_neg hs]
        exact List.IsPrefix.trans (List.IsPrefix.trans h1 (prefix_put w _ _))
          (prefix_fieldDone w _ _ _)

/-- C11 (title fallback).  For a struct field that is not embedded, the title is the
explicit title (the `title=` part of the jsonschema tag) when that is not empty; otherwise
the name derived from the json tag (its part before the first comma) when that is not empty;
otherwise the declared name of the field.  This title is what an iteration of the field loop
writes on the title line: after the separator, the run goes on with the write of the
indentation and the write of the prefix followed by that title, on every sink, at every
style, depth and sibling position and for every value of the field, whatever the flag `fl`
of the struct and whether the field is exported or not. -/
theorem title_fallback (w : Writer) (fl : Flag) (total : Nat) (style : StructMarkdownStyle)
    (d : Nat) (field : StructField) (x : Value) (idx : Nat) (t : Trace)
    (hanon : field.Anonymous = false) :
    (explicitTitle field.jsonSchemaTag ≠ "" →
      mdTitle field = explicitTitle field.jsonSchemaTag) ∧
    (explicitTitle field.jsonSchemaTag = "" → jsonName field.jsonTag ≠ "" →
      mdTitle field = jsonName field.jsonTag) ∧
    (explicitTitle field.jsonSchemaTag = "" → jsonName field.jsonTag = "" →
      mdTitle field = field.Name) ∧
    put w (put w (if idx > 0 then put w t "\n" else t) (styleIndent style d idx))
      (stylePrefix style idx ++ mdTitle field) <+:
        (structField w fl total style d field x idx t).1 := by
  refine ⟨?_, ?_, ?_, prefix_structField_title w total style d field x idx t hanon⟩
  · intro h
    simp [mdTitle, parseJSONSchemaTag_title, h]
  · intro h1 h2
    simp [mdTitle, parseJSONSchemaTag_title, parseJSONTag_eq, h1, h2]
  · intro h1 h2
    simp [mdTitle, parseJSONSchemaTag_title, parseJSONTag_eq, h1, h2]

/-- Witness of C11: `Bio` has an explicit title, `City` only a json tag, and `ID` without
tags falls back to its declared name. -/
theorem title_fallback_witness :
    mdTitle bioField = "Biography" ∧ mdTitle cityField = "city" ∧ mdTitle idField = "ID" := by
  have h1 := title_fallback bufferWriter Flag.readable 1 StructMdTitleStyle 0 bioField
    (stringValue "x") 0 [] rfl
  have h2 := title_fallback bufferWriter Flag.readable 1 StructMdTitleStyle 0 cityField
    (stringValue "x") 0 [] rfl
  have h3 := title_fallback bufferWriter Flag.readable 1 StructMdTitleStyle 0 idField
    (stringValue "x") 0 [] rfl
  refine ⟨?_, ?_, ?_⟩
  · rw [h1.1 (by decide)]; decide
  · rw [h2.2.1 (by decide) (by decide)]; decide
  · rw [h3.2.2.1 (by decide) (by decide)]; decide

/-! ## The map renderer against the struct renderer -/

/-- C12, the code at the failing input: at heading style the map renderer writes the scalar
entry `k: v` as `"# k: v"`, the value on the heading line, whereas the struct renderer
writes the field with title `k` and value `v` as `"# k\nv"`; at list style and at
inline-list style the two write the same bytes. -/
theorem map_heading_scalar_same_line :
    written (mapToMarkdown bufferWriter Flag.readable
        nestedMap StructMdTitleStyle 0 []).1 = "# k: v" ∧
    written (structToMarkdown bufferWriter Flag.readable
        (Value.struct none [(kField, stringValue "v")])
      StructMdTitleStyle 0 []).1 = "# k\nv" ∧
    written (mapToMarkdown bufferWriter Flag.readable nestedMap StructMdListStyle 0 []).1 =
      written (structToMarkdown bufferWriter Flag.readable
          (Value.struct none [(kField, stringValue "v")])
        StructMdListStyle 0 []).1 ∧
    written (mapToMarkdown bufferWriter Flag.readable nestedMap StructMdInListStyle 0 []).1 =
      written (structToMarkdown bufferWriter Flag.readable
          (Value.struct none [(kField, stringValue "v")])
        StructMdInListStyle 0 []).1 := by
  decide

/-! ## The omit-if-empty test -/

/-- C14, the code at the failing input: for the field `Tags` flagged omit-if-empty,
`shouldOmitField` returns false on a non-nil slice with no elements and on a non-nil map
with no entries, although the comment at the call says that empty fields are skipped; the
field is kept and rendered as its title line with nothing under it.  On the nil slice it
returns true and the field is skipped. -/
theorem omit_empty_collection_kept :
    shouldOmitField tagsField emptySlice = false ∧
    shouldOmitField tagsField emptyMap = false ∧
    written (structToMarkdown bufferWriter Flag.readable
      (Value.struct none [(tagsField, emptySlice)])
      StructMdTitleStyle 0 []).1 = "# Tags (List of user tags)\n" ∧
    shouldOmitField tagsField (Value.slice none true []) = true ∧
    written (structToMarkdown bufferWriter Flag.readable
      (Value.struct none [(tagsField, Value.slice none true [])])
      StructMdTitleStyle 0 []).1 = "" := by
  decide

/-! ## Overrides of scalar values -/

/-- C15, the code at the failing input: a scalar value whose type has `MarshalMarkdown`
(text `3`, override `**high**`) is written through its override at the root, but as a
struct field, a slice element or a map entry it is written as its default text `3` and the
override is not called; and a scalar whose override fails makes `Encode` fail at the root
only. -/
theorem scalar_override_ignored_when_nested :
    Encode bufferWriter levelValue [] =
      ([Event.marshal (MarshalResult.bytes "**high**"), Event.write "**high**" none],
        Status.ok) ∧
    Encode bufferWriter (Value.struct none [(levelField, levelValue)]) [] =
      ([Event.write "" none, Event.write "# Level" none, Event.write "\n3" none],
        Status.ok) ∧
    Encode bufferWriter (Value.slice none false [levelValue]) [] =
      ([Event.write "- 3" none], Status.ok) ∧
    Encode bufferWriter (Value.map none false [("k", levelValue)]) [] =
      ([Event.write "" none, Event.write "# k: 3" none], Status.ok) ∧
    Encode bufferWriter failingLevel [] =
      ([Event.marshal (MarshalResult.fail "no level")], Status.error "no level") ∧
    Encode bufferWriter (Value.struct none [(levelField, failingLevel)]) [] =
      ([Event.write "" none, Event.write "# Level" none, Event.write "\n3" none],
        Status.ok) := by
  decide

/-! ## The entry point -/

/-- C16 (entry-point dispatch and pointer transparency): the input on which the sentence
fails.  The struct with the field `ID` has no override, but the type of the pointer to it
has one (a method with a pointer receiver): `Encode` tests the override before it
dereferences, so the pointer is encoded as the bytes of the override and the struct as its
field. -/
theorem pointer_override_counterexample :
    idStruct.marshaler? = none ∧
    Encode bufferWriter overridePtr [] =
      ([Event.marshal (MarshalResult.bytes "custom"), Event.write "custom" none],
        Status.ok) ∧
    written (Encode bufferWriter idStruct []).1 = "# ID\n123" ∧
    written (Encode bufferWriter overridePtr []).1 ≠
      written (Encode bufferWriter idStruct []).1 := by
  decide

/-- C16 (entry-point dispatch and pointer transparency), amended by the condition on the
pointer.  On every sink, for a pointer whose own type has no override: `Encode` of the nil
pointer writes nothing and returns a nil error, and `Encode` of a pointer to a value `v`
without override, of struct, slice, map or scalar shape, does exactly what `Encode` does on
`v`.  A pointer to `v` whose own type has an override is encoded by that override alone,
before any dereference.  `Encode` on such a `v` is `structToMarkdown` at heading style and
depth 0 for a struct, `sliceToMarkdown` at depth 0 for a slice, `mapToMarkdown` at heading
style and depth 0 for a map, and for a scalar one write of its text with a nil error. -/
theorem entry_point_dispatch (w : Writer) (v : Value) (ptext : String) (t : Trace)
    (hv : v.marshaler? = none) (hshape : composite v = true ∨ isScalar v = true) :
    Encode w (Value.ptr none ptext none) t = (t, Status.ok) ∧
    Encode w (Value.ptr none ptext (some v)) t = Encode w v t ∧
    (∀ r, Encode w (Value.ptr (some r) ptext (some v)) t = marshalNode w t r) ∧
    (∀ fields, v = Value.struct none fields →
      Encode w v t = ((structToMarkdown w Flag.readable v StructMdTitleStyle 0 t).1,
        (structToMarkdown w Flag.readable v StructMdTitleStyle 0 t).2.2)) ∧
    (∀ isNil elems, v = Value.slice none isNil elems →
      Encode w v t = ((sliceToMarkdown w Flag.readable v 0 t).1,
        (sliceToMarkdown w Flag.readable v 0 t).2.2)) ∧
    (∀ isNil entries, v = Value.map none isNil entries →
      Encode w v t = ((mapToMarkdown w Flag.readable v StructMdTitleStyle 0 t).1,
        (mapToMarkdown w Flag.readable v StructMdTitleStyle 0 t).2.2)) ∧
    (∀ text z, v = Value.scalar none text z →
      Encode w v t = (t ++ [Event.write text (w t text)], Status.ok) ∧
      written (Encode bufferWriter v t).1 = written t ++ text) := by
  refine ⟨rfl, ?_, fun r => rfl, ?_, ?_, ?_, ?_⟩
  · cases v with
    | ptr m text e => simp [composite, isScalar] at hshape
    | scalar m text z => simp only [Value.marshaler?] at hv; subst hv; rfl
    | struct m fs => simp only [Value.marshaler?] at hv; subst hv; rfl
    | slice m n es => simp only [Value.marshaler?] at hv; subst hv; rfl
    | map m n es => simp only [Value.marshaler?] at hv; subst hv; rfl
  · intro fields h; subst h; rfl
  · intro isNil elems h; subst h; rfl
  · intro isNil entries h; subst h; rfl
  · intro text z h
    subst h
    exact ⟨rfl, by simp [Encode, Value.marshaler?, encodeKind, written_put_buffer]⟩

/-- Witness of C16: a pointer to the struct with the field `ID` is encoded as the struct,
which is rendered by `structToMarkdown` at heading style and depth 0; the pointer with an
override of its own is encoded by the override. -/
theorem entry_point_dispatch_witness :
    Encode bufferWriter (Value.ptr none "&{123}" (some idStruct)) [] =
      Encode bufferWriter idStruct [] ∧
    written (Encode bufferWriter idStruct []).1 = "# ID\n123" ∧
    Encode bufferWriter overridePtr [] =
      marshalNode bufferWriter [] (MarshalResult.bytes "custom") := by
  have h := entry_point_dispatch bufferWriter idStruct "&{123}" [] rfl (Or.inl rfl)
  refine ⟨h.2.1, ?_, h.2.2.1 _⟩
  rw [h.2.2.2.1 _ rfl]
  decide

/-! ## Rejected writes -/

/-- C17, the code at the failing input: on a sink that rejects every write, `Encode` of the
struct with the field `ID:int=123` goes on writing after the first rejected write and
returns a nil error; only a rejected write of the bytes of an override is returned, as for
the `CustomProfile` of the test. -/
theorem rejected_write_not_propagated :
    Encode closedWriter idStruct [] =
      ([Event.write "" (some "file already closed"),
        Event.write "# ID" (some "file already closed"),
        Event.write "\n123" (some "file already closed")], Status.ok) ∧
    Encode closedWriter customProfile [] =
      ([Event.marshal (MarshalResult.bytes "Custom marshaler for profile"),
        Event.write "Custom marshaler for profile" (some "file already closed")],
        Status.error "file already closed") := by
  decide

/-! ## Marshal -/

/-- C20 (`Marshal` never reports an error).  Whenever `Marshal` returns, its error is nil.
It returns on every input on which `Encode` does not panic: when `Encode` on a buffer ends
with a nil error, and also when `Encode` ends with an error `e`, `Marshal` returns the bytes
the buffer holds at that point (the partial output, in the second case) with a nil error. -/
theorem marshal_never_errors (obj : Value) :
    (∀ r, Marshal obj = some r → r.2 = none) ∧
    ((Encode bufferWriter obj []).2 = Status.ok →
      Marshal obj = some (written (Encode bufferWriter obj []).1, none)) ∧
    (∀ e, (Encode bufferWriter obj []).2 = Status.error e →
      Marshal obj = some (written (Encode bufferWriter obj []).1, none)) := by
  unfold Marshal
  refine ⟨?_, ?_, ?_⟩
  · intro r h
    split at h
    · simp at h
    · simp only [Option.some.injEq] at h
      rw [← h]
  · intro h
    split
    · simp_all
    · simp_all
  · intro e h
    split
    · simp_all
    · simp_all

/-- Witness of C20: on `failingUser` the override of `Profile` fails, `Encode` returns that
error, and `Marshal` returns the partial output with a nil error. -/
theorem marshal_never_errors_witness :
    (Encode bufferWriter failingUser []).2 = Status.error "profile unavailable" ∧
    Marshal failingUser =
      some ("# ID\n123\n\n# Profile (User profile information)\n", none) := by
  have he : (Encode bufferWriter failingUser []).2 = Status.error "profile unavailable" := by
    decide
  refine ⟨he, ?_⟩
  rw [(marshal_never_errors failingUser).2.2 _ he]
  decide

/-! ## Sibling position at inline-list style -/

theorem andThen_assoc (r : Result) (f g : Nat → Trace → Result) :
    andThen (andThen r f) g = andThen r (fun i t => andThen (f i t) g) := by
  rw [andThen_eq r f, andThen_eq r]
  split
  · rfl
  · rename_i h
    rw [andThen_eq r g, if_neg h]

theorem structFields_append {fl : Flag} (w : Writer) (total : Nat) (style : StructMarkdownStyle)
    (d : Nat)
    (pre rest : List (StructField × Value)) (idx : Nat) (t : Trace) :
    structFields w fl total style d (pre ++ rest) idx t =
      andThen (structFields w fl total style d pre idx t)
        (fun i t1 => structFields w fl total style d rest i t1) := by
  induction pre generalizing idx t with
  | nil => simp [structFields_nil, andThen]
  | cons p pre ih =>
    obtain ⟨f, v⟩ := p
    simp only [List.cons_append]
    rw [structFields_cons, structFields_cons]
    split
    · exact ih idx t
    · cases derefValue v with
      | none => exact ih idx t
      | some x =>
        simp only [andThen_assoc]
        congr 1
        funext i t1
        exact ih i t1

theorem fieldDone_snd (w : Writer) (total idx : Nat) (t : Trace) :
    (fieldDone w total idx t).2 = (idx + 1, Status.ok) := by
  unfold fieldDone
  split <;> rfl

theorem structField_count {fl : Flag} (w : Writer) (total : Nat) (style : StructMarkdownStyle)
    (d : Nat)
    (field : StructField) (x : Value) (idx : Nat) (t : Trace)
    (hanon : field.Anonymous = false)
    (h : (structField w fl total style d field x idx t).2.2 = Status.ok) :
    (structField w fl total style d field x idx t).2.1 = idx + 1 := by
  have hc : ∀ r : Result, (checked r idx (fieldDone w total idx)).2.2 = Status.ok →
      (checked r idx (fieldDone w total idx)).2.1 = idx + 1 := by
    intro r hr
    rw [checked_eq] at hr ⊢
    by_cases h1 : r.2.2 = Status.ok
    · simp [h1, fieldDone_snd]
    · simp [h1] at hr
  unfold structField structFieldBody at h ⊢
  simp only [hanon, Bool.false_eq_true, if_false] at h ⊢
  cases x with
  | struct m fs => exact hc _ h
  | slice m n es => exact hc _ h
  | map m n es => exact hc _ h
  | scalar m text z =>
    simp only at h ⊢
    by_cases hro : (fl.field field).isRO = true
    · rw [if_pos hro] at h
      simp [interfacePanic] at h
    · rw [if_neg hro]
      by_cases hs : style = StructMdTitleStyle
      · rw [if_pos hs, fieldDone_snd]
      · rw [if_neg hs, fieldDone_snd]
  | ptr m text e =>
    simp only at h ⊢
    by_cases hro : (fl.field field).isRO = true
    · rw [if_pos hro] at h
      simp [interfacePanic] at h
    · rw [if_neg hro]
      by_cases hs : style = StructMdTitleStyle
      · rw [if_pos hs, fieldDone_snd]
      · rw [if_neg hs, fieldDone_snd]

theorem emittedField_of_deref {field : StructField} {v x : Value}
    (homit : shouldOmitField field v = false) (hd : derefValue v = some x) :
    emittedField (field, v) = true := by
  cases v with
  | ptr m text e => cases e <;> simp_all [emittedField, isNilPtr, derefValue]
  | _ => simp [emittedField, isNilPtr, homit]

theorem emittedField_of_deref_none {field : StructField} {v : Value}
    (hd : derefValue v = none) : emittedField (field, v) = false := by
  cases v with
  | ptr m text e => cases e <;> simp_all [emittedField, isNilPtr, derefValue]
  | _ => simp [derefValue] at hd

theorem structFields_count {fl : Flag} (w : Writer) (total : Nat) (style : StructMarkdownStyle)
    (d : Nat)
    (fields : List (StructField × Value)) (hanon : ∀ p ∈ fields, p.1.Anonymous = false)
    (idx : Nat) (t : Trace)
    (h : (structFields w fl total style d fields idx t).2.2 = Status.ok) :
    (structFields w fl total style d fields idx t).2.1 =
      idx + (fields.filter emittedField).length := by
  induction fields generalizing idx t with
  | nil => simp [structFields_nil]
  | cons p rest ih =>
    obtain ⟨f, v⟩ := p
    have ih1 := ih (fun q hq => hanon q (List.mem_cons_of_mem _ hq))
    have hf : f.Anonymous = false := hanon (f, v) (List.mem_cons_self _ _)
    rw [structFields_cons] at h ⊢
    cases ho : shouldOmitField f v with
    | true =>
      simp only [ho, if_true] at h ⊢
      rw [ih1 idx t h]
      simp [emittedField, ho]
    | false =>
      simp only [ho, Bool.false_eq_true, if_false] at h ⊢
      cases hd : derefValue v with
      | none =>
        simp only [hd] at h ⊢
        rw [ih1 idx t h]
        simp [emittedField_of_deref_none hd]
      | some x =>
        simp only [hd, andThen_eq] at h ⊢
        by_cases hs : (structField w fl total style d f x idx t).2.2 = Status.ok
        · simp only [hs, if_true] at h ⊢
          rw [ih1 _ _ h, structField_count w total style d f x idx t hf hs]
          simp [emittedField_of_deref ho hd]
          omega
        · simp only [hs, if_false] at h

theorem prefix_andThen {t : Trace} (r : Result) (next : Nat → Trace → Result)
    (hr : t <+: r.1) (hn : ∀ i t1, t1 <+: (next i t1).1) : t <+: (andThen r next).1 := by
  rw [andThen_eq]
  split
  · exact List.IsPrefix.trans hr (hn _ _)
  · exact hr

theorem prefix_structFields {fl : Flag} (w : Writer) (total : Nat) (style : StructMarkdownStyle)
    (d : Nat)
    (fields : List (StructField × Value)) (idx : Nat) (t : Trace) :
    t <+: (structFields w fl total style d fields idx t).1 :=
  prefix_of_good (good_structFields w total style d fields (fun _ _ x _ => goodValue x) idx t)

theorem spaces_add_two (n : Nat) : spaces n ++ "  " = spaces (n + 2) := by
  apply String.ext
  simp [spaces, List.replicate_add]

/-- C13 (sibling position at inline-list style).  In a struct rendered at inline-list style
at indent level `d`, take a field that is neither embedded nor skipped, after fields `pre`
none of which is embedded, the loop over `pre` ending without error with count `k`.  Then
`k` is the number of fields of `pre` that are emitted (skipped fields, omitted or nil, do
not count), and the run goes on with the title line of the field: when `k = 0` the write of
`2*d` spaces and the write of `"- "` followed by the title, and when `k > 0` a newline,
the write of `2*d + 2` spaces and the write of the title with no bullet.  This holds
whatever the flag `fl` of the struct and whether the field is exported or not. -/
theorem inline_list_sibling_position (w : Writer) (fl : Flag) (total d : Nat)
    (pre post : List (StructField × Value)) (field : StructField) (fieldValue x : Value)
    (t t1 : Trace) (k : Nat)
    (hpre : ∀ p ∈ pre, p.1.Anonymous = false)
    (hanon : field.Anonymous = false)
    (homit : shouldOmitField field fieldValue = false)
    (hderef : derefValue fieldValue = some x)
    (hrun : structFields w fl total StructMdInListStyle d pre 0 t = (t1, k, Status.ok)) :
    k = (pre.filter emittedField).length ∧
    (k = 0 →
      put w (put w t1 (spaces (d * 2))) ("- " ++ mdTitle field) <+:
        (structFields w fl total StructMdInListStyle d (pre ++ (field, fieldValue) :: post)
          0 t).1) ∧
    (k > 0 →
      put w (put w (put w t1 "\n") (spaces (d * 2 + 2))) (mdTitle field) <+:
        (structFields w fl total StructMdInListStyle d (pre ++ (field, fieldValue) :: post)
          0 t).1) := by
  have hk : k = (pre.filter emittedField).length := by
    have h := structFields_count w total StructMdInListStyle d pre hpre 0 t (by rw [hrun])
    rw [hrun] at h
    simpa using h
  have hall : put w (put w (if k > 0 then put w t1 "\n" else t1)
        (styleIndent StructMdInListStyle d k)) (stylePrefix StructMdInListStyle k ++ mdTitle field)
      <+: (structFields w fl total StructMdInListStyle d (pre ++ (field, fieldValue) :: post)
          0 t).1 := by
    rw [structFields_append, hrun]
    simp only [andThen]
    rw [structFields_cons]
    simp only [homit, hderef, Bool.false_eq_true, if_false]
    exact prefix_andThen _ _ (prefix_structField_title w total _ d field x k t1 hanon)
      (fun i t2 => prefix_structFields w total _ d post i t2)
  refine ⟨hk, ?_, ?_⟩
  · intro h0
    subst h0
    simpa [styleIndent, stylePrefix] using hall
  · intro hpos
    have h1 : styleIndent StructMdInListStyle d k = spaces (d * 2 + 2) := by
      simp [styleIndent, hpos, spaces_add_two]
    have h2 : stylePrefix StructMdInListStyle k ++ mdTitle field = mdTitle field := by
      simp [stylePrefix, hpos]
    rw [h1, h2, if_pos hpos] at hall
    exact hall

/-- Witness of C13: in a struct with an omitted `Name`, then `ID` and `Email`, at inline-list
style and depth 1, `ID` takes the bullet behind two spaces and `Email` follows behind four
spaces with no bullet. -/
theorem inline_list_sibling_position_witness :
    written (structToMarkdown bufferWriter Flag.readable
      (Value.struct none [(nameField, nilString), (idField, intValue 123),
        (emailField, aliceEmail)]) StructMdInListStyle 1 []).1 =
      "  - ID: 123\n\n    Email (The email address of the user): alice@example.com\n" ∧
    [Event.write "  " none, Event.write "- ID" none] <+:
      (structFields bufferWriter Flag.readable 3 StructMdInListStyle 1
        ([(nameField, nilString)] ++ (idField, intValue 123) :: [(emailField, aliceEmail)])
        0 []).1 := by
  constructor
  · decide
  · exact (inline_list_sibling_position bufferWriter Flag.readable 3 1 [(nameField, nilString)]
      [(emailField, aliceEmail)] idField (intValue 123) (intValue 123) [] [] 0
      (by simp [nameField]) rfl (by decide) rfl (by decide)).2.1 rfl

/-! ## Separators and the trailing newline of the struct renderer -/

theorem structField_scalar {fl : Flag} (w : Writer) (total : Nat)
    (style : StructMarkdownStyle) (d : Nat)
    (field : StructField) (m : Option MarshalResult) (text : String) (z : Bool) (idx : Nat)
    (t : Trace) (hanon : field.Anonymous = false) (hro : (fl.field field).isRO = false) :
    structField w fl total style d field (Value.scalar m text z) idx t =
      fieldDone w total idx
        (put w (putTitle w (if idx > 0 then put w t "\n" else t) (styleIndent style d idx)
            (stylePrefix style idx) (mdTitle field) (fieldDesc field))
          (if style = StructMdTitleStyle then "\n" ++ subIndent style d ++ text
            else ": " ++ text)) := by
  unfold structField structFieldBody
  simp only [hanon, hro, Bool.false_eq_true, if_false]
  by_cases hs : style = StructMdTitleStyle
  · simp only [if_pos hs]
  · simp only [if_neg hs]

theorem written_structField_scalar {fl : Flag} (total : Nat) (style : StructMarkdownStyle)
    (d : Nat) (field : StructField) (m : Option MarshalResult) (text : String) (z : Bool)
    (idx : Nat) (t : Trace) (hanon : field.Anonymous = false)
    (hro : (fl.field field).isRO = false) :
    written (structField bufferWriter fl total style d field (Value.scalar m text z) idx t).1 =
      written t ++ (sepText idx ++ scalarRendering style d idx field text ++
        (if idx + 1 < total then "\n" else "")) ∧
    (structField bufferWriter fl total style d field (Value.scalar m text z) idx t).2 =
      (idx + 1, Status.ok) := by
  rw [structField_scalar bufferWriter total style d field m text z idx t hanon hro,
    fieldDone_snd]
  refine ⟨?_, rfl⟩
  unfold fieldDone
  by_cases hs : style = StructMdTitleStyle
  · subst hs
    split <;>
      simp [written_put_buffer, written_putTitle_buffer, written_sep_buffer, scalarRendering,
        titleLine, subIndent, String.append_assoc]
  · split <;>
      simp [hs, written_put_buffer, written_putTitle_buffer, written_sep_buffer,
        scalarRendering, titleLine, String.append_assoc]

theorem structFields_scalars {fl : Flag} (total : Nat) (style : StructMarkdownStyle) (d : Nat)
    (fields : List (StructField × Value))
    (hanon : ∀ p ∈ fields, p.1.Anonymous = false)
    (hro : ∀ p ∈ fields, emittedField p = true → (fl.field p.1).isRO = false)
    (hshape : ∀ p ∈ fields, scalarShaped p.2 = true) (idx : Nat) (t : Trace) :
    written (structFields bufferWriter fl total style d fields idx t).1 =
      written t ++ fieldsLayout total style d idx (fields.filterMap emittedScalar) ∧
    (structFields bufferWriter fl total style d fields idx t).2 =
      (idx + (fields.filterMap emittedScalar).length, Status.ok) := by
  induction fields generalizing idx t with
  | nil => simp [structFields_nil, fieldsLayout]
  | cons p rest ih =>
    obtain ⟨f, v⟩ := p
    have ih1 := ih (fun q hq => hanon q (List.mem_cons_of_mem _ hq))
      (fun q hq => hro q (List.mem_cons_of_mem _ hq))
      (fun q hq => hshape q (List.mem_cons_of_mem _ hq))
    have hf : f.Anonymous = false := hanon (f, v) (List.mem_cons_self _ _)
    have hv : scalarShaped v = true := hshape (f, v) (List.mem_cons_self _ _)
    rw [structFields_cons]
    cases ho : shouldOmitField f v with
    | true =>
      have he : emittedScalar (f, v) = none := by simp [emittedScalar, ho]
      simp only [if_true, List.filterMap_cons, he]
      exact ih1 idx t
    | false =>
      simp only [Bool.false_eq_true, if_false]
      have key : ∀ m text z, derefValue v = some (Value.scalar m text z) →
          written (match derefValue v with
            | none => structFields bufferWriter fl total style d rest idx t
            | some x => andThen (structField bufferWriter fl total style d f x idx t)
                (fun idx1 t1 => structFields bufferWriter fl total style d rest idx1 t1)).1 =
            written t ++ fieldsLayout total style d idx
              (List.filterMap emittedScalar ((f, v) :: rest)) ∧
          (match derefValue v with
            | none => structFields bufferWriter fl total style d rest idx t
            | some x => andThen (structField bufferWriter fl total style d f x idx t)
                (fun idx1 t1 => structFields bufferWriter fl total style d rest idx1 t1)).2 =
            (idx + (List.filterMap emittedScalar ((f, v) :: rest)).length, Status.ok) := by
        intro m text z hd
        have he : emittedScalar (f, v) = some (f, text) := by simp [emittedScalar, ho, hd]
        have hr : (fl.field f).isRO = false :=
          hro (f, v) (List.mem_cons_self _ _) (emittedField_of_deref ho hd)
        obtain ⟨s1, s2⟩ := @written_structField_scalar fl total style d f m text z idx t hf hr
        obtain ⟨h1, h2⟩ := ih1 (idx + 1)
          (structField bufferWriter fl total style d f (Value.scalar m text z) idx t).1
        simp only [hd, andThen_eq, s2, if_true, List.filterMap_cons, he]
        refine ⟨?_, ?_⟩
        · rw [h1, s1]
          simp [fieldsLayout, String.append_assoc]
        · rw [h2]
          simp
          omega
      cases v with
      | scalar m text z => exact key m text z rfl
      | ptr m text e =>
        cases e with
        | none =>
          have he : emittedScalar (f, Value.ptr m text none) = none := by
            simp [emittedScalar, derefValue]
          simp only [derefValue, List.filterMap_cons, he]
          exact ih1 idx t
        | some y =>
          cases y with
          | scalar m1 text1 z1 => exact key m1 text1 z1 rfl
          | _ => simp [scalarShaped] at hv
      | _ => simp [scalarShaped] at hv

theorem intercalate_go_any (s : String) (l : List String) (acc b : String) :
    String.intercalate.go acc s (b :: l) = acc ++ s ++ String.intercalate.go b s l := by
  induction l generalizing acc b with
  | nil => simp [String.intercalate.go]
  | cons c l ih =>
    show String.intercalate.go (acc ++ s ++ b) s (c :: l) =
      acc ++ s ++ String.intercalate.go b s (c :: l)
    rw [ih (acc ++ s ++ b) c, ih b c]
    simp [String.append_assoc]

theorem intercalate_cons_of_ne_nil (s a : String) (l : List String) (h : l ≠ []) :
    String.intercalate s (a :: l) = a ++ s ++ String.intercalate s l := by
  cases l with
  | nil => exact absurd rfl h
  | cons b l =>
    simp only [String.intercalate]
    exact intercalate_go_any s l a b

theorem fieldsLayout_eq (total : Nat) (style : StructMarkdownStyle) (d : Nat)
    (e : StructField × String) (es : List (StructField × String)) (idx : Nat)
    (h : idx + (e :: es).length ≤ total) :
    fieldsLayout total style d idx (e :: es) =
      sepText idx ++ String.intercalate "\n\n" (renderingsFrom style d idx (e :: es)) ++
        (if idx + (e :: es).length < total then "\n" else "") := by
  induction es generalizing idx e with
  | nil =>
    obtain ⟨f, text⟩ := e
    simp [fieldsLayout, renderingsFrom, String.intercalate, String.intercalate.go]
  | cons e2 es ih =>
    obtain ⟨f, text⟩ := e
    obtain ⟨f2, text2⟩ := e2
    have h1 : idx + 1 < total := by simp at h; omega
    have h2 : idx + 1 + ((f2, text2) :: es).length ≤ total := by simp at h ⊢; omega
    have h3 : idx + 1 + ((f2, text2) :: es).length =
        idx + ((f, text) :: (f2, text2) :: es).length := by
      simp; omega
    have hs : sepText (idx + 1) = "\n" := by simp [sepText]
    have hnn : ∀ u : String, "\n" ++ ("\n" ++ u) = "\n\n" ++ u := fun u => by
      rw [← String.append_assoc]; rfl
    have hr : renderingsFrom style d idx ((f, text) :: (f2, text2) :: es) =
        scalarRendering style d idx f text ::
          renderingsFrom style d (idx + 1) ((f2, text2) :: es) := rfl
    have hne : renderingsFrom style d (idx + 1) ((f2, text2) :: es) ≠ [] := by
      simp [renderingsFrom]
    rw [fieldsLayout, ih (f2, text2) (idx + 1) h2, h3, hs, hr,
      intercalate_cons_of_ne_nil _ _ _ hne]
    simp [h1, String.append_assoc, hnn]

/-- C18 (separators and trailing newline of the struct renderer): the input on which the
sentence fails.  In the struct with the exported `ID:int=123` and the unexported
`secret:string="x"` both fields are of scalar shape and neither is skipped, yet the second
rendering is not completed: after the title of `secret` the call panics in
`fieldValue.Interface()` and returns nothing. -/
theorem struct_unexported_field_counterexample :
    written (structToMarkdown bufferWriter Flag.readable secretStruct
      StructMdTitleStyle 0 []).1 = "# ID\n123\n\n# secret" ∧
    (structToMarkdown bufferWriter Flag.readable secretStruct StructMdTitleStyle 0 []).2.2 =
      interfacePanic ∧
    written (structToMarkdown bufferWriter Flag.readable secretStruct
      StructMdTitleStyle 0 []).1 ≠ "# ID\n123\n\n# secret\nx" := by
  decide

/-- C18 (separators and trailing newline of the struct renderer), amended to emitted fields
that are exported.  For a readable struct with `n` declared fields, none embedded and all of
scalar shape, of which `k >= 1` are emitted (the others skipped as omitted or nil), the
emitted ones exported, at every style and indent level, `structToMarkdown` writes on a
buffer the renderings of the `k` emitted fields in declaration order, joined by `"\n\n"`,
followed by one `"\n"` exactly when `k < n`, and returns `k` with a nil error. -/
theorem struct_scalar_layout (style : StructMarkdownStyle) (d : Nat)
    (fields : List (StructField × Value)) (t : Trace)
    (hanon : ∀ p ∈ fields, p.1.Anonymous = false)
    (hexp : ∀ p ∈ fields, emittedField p = true → p.1.Exported = true)
    (hshape : ∀ p ∈ fields, scalarShaped p.2 = true)
    (hk : 1 ≤ (fields.filterMap emittedScalar).length) :
    written (structToMarkdown bufferWriter Flag.readable (Value.struct none fields)
        style d t).1 =
      written t ++
        String.intercalate "\n\n" (renderingsFrom style d 0 (fields.filterMap emittedScalar)) ++
        (if (fields.filterMap emittedScalar).length < fields.length then "\n" else "") ∧
    (structToMarkdown bufferWriter Flag.readable (Value.struct none fields) style d t).2 =
      ((fields.filterMap emittedScalar).length, Status.ok) := by
  have hro : ∀ p ∈ fields, emittedField p = true →
      (Flag.readable.field p.1).isRO = false := by
    intro p hp he
    rw [field_readable p.1 (hexp p hp he)]
    rfl
  obtain ⟨h1, h2⟩ := @structFields_scalars Flag.readable fields.length style d fields hanon
    hro hshape 0 t
  rw [structToMarkdown_struct]
  refine ⟨?_, by rw [h2]; simp⟩
  rw [h1]
  have hle := List.length_filterMap_le emittedScalar fields
  cases hes : fields.filterMap emittedScalar with
  | nil => rw [hes] at hk; simp at hk
  | cons e es =>
    rw [hes] at hle
    rw [fieldsLayout_eq fields.length style d e es 0 (by omega)]
    simp [sepText, String.append_assoc]

/-- Witness of C18: the user of the test reduced to `ID`, the nil `Name` and `Email`: two of
the three fields are emitted, a blank line apart, and a newline follows. -/
theorem struct_scalar_layout_witness :
    written (structToMarkdown bufferWriter Flag.readable scalarUser StructMdTitleStyle 0 []).1 =
      "# User ID (The unique identifier for a user)\n123\n\n" ++
      "# Email (The email address of the user)\nalice@example.com\n" ∧
    (structToMarkdown bufferWriter Flag.readable scalarUser StructMdTitleStyle 0 []).2 =
      (2, Status.ok) := by
  have h := struct_scalar_layout StructMdTitleStyle 0
    [(userIdField, intValue 123), (userNameField, nilString), (emailField, aliceEmail)] []
    (by decide) (by decide) (by decide) (by decide)
  constructor
  · rw [show scalarUser = Value.struct none [(userIdField, intValue 123),
      (userNameField, nilString), (emailField, aliceEmail)] from rfl, h.1]
    decide
  · exact h.2.trans (by decide)

/-! ## Indentation -/

theorem pieces_append {n : Nat} {a b : List Char} (ha : Pieces n a) (hb : Pieces n b) :
    Pieces n (a ++ b) := by
  induction ha with
  | nil => simpa using hb
  | newline _ ih => exact Pieces.newline ih
  | text u hu _ ih =>
    rw [List.append_assoc]
    exact Pieces.text u hu ih

theorem pieces_mono {n m : Nat} (hnm : n ≤ m) {s : List Char} (h : Pieces m s) :
    Pieces n s := by
  induction h with
  | nil => exact Pieces.nil
  | newline _ ih => exact Pieces.newline ih
  | text u hu _ ih =>
    have hm : List.replicate m ' ' = List.replicate n ' ' ++ List.replicate (m - n) ' ' := by
      rw [← List.replicate_add]
      congr 1
      omega
    rw [hm, List.append_assoc (List.replicate n ' ')]
    refine Pieces.text (List.replicate (m - n) ' ' ++ u) ?_ ih
    intro hmem
    rcases List.mem_append.1 hmem with h1 | h1
    · have := List.eq_of_mem_replicate h1
      exact absurd this (by decide)
    · exact hu h1

theorem splitChars_ne_nil (sep : Char) (s : List Char) :
    ∃ h tl, splitChars sep s = h :: tl := by
  induction s with
  | nil => exact ⟨[], [], rfl⟩
  | cons c cs ih =>
    obtain ⟨h, tl, e⟩ := ih
    by_cases hc : c = sep
    · exact ⟨[], splitChars sep cs, by simp [splitChars, hc]⟩
    · exact ⟨c :: h, tl, by simp [splitChars, hc, e]⟩

theorem splitChars_append_of_not_mem (sep : Char) (u s h : List Char) (tl : List (List Char))
    (hu : sep ∉ u) (hs : splitChars sep s = h :: tl) :
    splitChars sep (u ++ s) = (u ++ h) :: tl := by
  induction u with
  | nil => simpa using hs
  | cons c u ih =>
    have hc : c ≠ sep := fun e => hu (by simp [e])
    have ih1 := ih (fun hm => hu (List.mem_cons_of_mem _ hm))
    simp [splitChars, hc, ih1]

theorem pieces_lines {n : Nat} {s : List Char} (h : Pieces n s) :
    ∀ l ∈ splitChars '\n' s, l = [] ∨ List.replicate n ' ' <+: l := by
  induction h with
  | nil => intro l hl; simp [splitChars] at hl; exact Or.inl hl
  | newline _ ih =>
    intro l hl
    simp only [splitChars, if_true, List.mem_cons] at hl
    rcases hl with hl | hl
    · exact Or.inl hl
    · exact ih l hl
  | @text s u hu _ ih =>
    intro l hl
    obtain ⟨h, tl, e⟩ := splitChars_ne_nil '\n' s
    have hu2 : '\n' ∉ List.replicate n ' ' ++ u := by
      intro hmem
      rcases List.mem_append.1 hmem with h1 | h1
      · exact absurd (List.eq_of_mem_replicate h1) (by decide)
      · exact hu h1
    rw [splitChars_append_of_not_mem '\n' _ s h tl hu2 e, List.mem_cons] at hl
    rcases hl with hl | hl
    · right
      rw [hl, List.append_assoc]
      exact List.prefix_append _ _
    · exact ih l (by rw [e]; exact List.mem_cons_of_mem _ hl)

theorem noNewline_iff (s : String) : noNewline s = true ↔ '\n' ∉ s.data := by
  simp [noNewline]

theorem noNewline_append {a b : String} (ha : noNewline a = true) (hb : noNewline b = true) :
    noNewline (a ++ b) = true := by
  rw [noNewline_iff] at *
  simp [String.data_append, ha, hb]

theorem isText_spaces (n : Nat) (r : String) (hr : noNewline r = true) :
    IsText n (spaces n ++ r) :=
  ⟨r.data, by simp [spaces], (noNewline_iff r).1 hr⟩

theorem isText_append {n : Nat} {a b : String} (ha : IsText n a) (hb : noNewline b = true) :
    IsText n (a ++ b) := by
  obtain ⟨u, hu, hn⟩ := ha
  refine ⟨u ++ b.data, by simp [String.data_append, hu], ?_⟩
  intro hmem
  rcases List.mem_append.1 hmem with h1 | h1
  · exact hn h1
  · exact (noNewline_iff b).1 hb h1

theorem pieces_of_isText {n : Nat} {s : String} (h : IsText n s) : Pieces n s.data := by
  obtain ⟨u, hu, hn⟩ := h
  rw [hu]
  simpa using Pieces.text u hn Pieces.nil

theorem run_refl (n : Nat) (t : Trace) : IndentedRun n t t :=
  ⟨"", by simp, Pieces.nil⟩

theorem run_trans {n : Nat} {a b c : Trace} (h1 : IndentedRun n a b) (h2 : IndentedRun n b c) :
    IndentedRun n a c := by
  obtain ⟨o1, e1, p1⟩ := h1
  obtain ⟨o2, e2, p2⟩ := h2
  exact ⟨o1 ++ o2, by rw [e2, e1, String.append_assoc], by
    rw [String.data_append]; exact pieces_append p1 p2⟩

theorem run_mono {n m : Nat} (hnm : n ≤ m) {a b : Trace} (h : IndentedRun m a b) :
    IndentedRun n a b := by
  obtain ⟨o, e, p⟩ := h
  exact ⟨o, e, pieces_mono hnm p⟩

theorem run_newline (n : Nat) (t : Trace) : IndentedRun n t (put bufferWriter t "\n") :=
  ⟨"\n", written_put_buffer t "\n", Pieces.newline Pieces.nil⟩

theorem run_text {n : Nat} (t t1 : Trace) (s : String) (h : written t1 = written t ++ s)
    (hs : IsText n s) : IndentedRun n t t1 :=
  ⟨s, h, pieces_of_isText hs⟩

theorem run_sep (n : Nat) (t : Trace) (idx : Nat) :
    IndentedRun n t (if idx > 0 then put bufferWriter t "\n" else t) := by
  split
  · exact run_newline n t
  · exact run_refl n t

theorem run_fieldDone (n total idx : Nat) (t : Trace) :
    IndentedRun n t (fieldDone bufferWriter total idx t).1 := by
  unfold fieldDone
  split
  · exact run_newline n t
  · exact run_refl n t

theorem run_checked {n : Nat} {t : Trace} (r : Result) (idx : Nat) (next : Trace → Result)
    (hr : IndentedRun n t r.1) (hn : ∀ t1, IndentedRun n t1 (next t1).1) :
    IndentedRun n t (checked r idx next).1 := by
  rw [checked_eq]
  split
  · exact run_trans hr (hn _)
  · exact hr

theorem run_andThen {n : Nat} {t : Trace} (r : Result) (next : Nat → Trace → Result)
    (hr : IndentedRun n t r.1) (hn : ∀ i t1, IndentedRun n t1 (next i t1).1) :
    IndentedRun n t (andThen r next).1 := by
  rw [andThen_eq]
  split
  · exact run_trans hr (hn _ _)
  · exact hr

theorem noNewline_stylePrefix (style : StructMarkdownStyle) (idx : Nat) :
    noNewline (stylePrefix style idx) = true := by
  have h1 : noNewline "# " = true := by decide
  have h2 : noNewline "- " = true := by decide
  have h3 : noNewline "" = true := by decide
  cases style
  · exact h1
  · exact h2
  · show noNewline (if idx > 0 then "" else "- ") = true
    split
    · exact h3
    · exact h2

theorem noNewline_descPart (desc : String) (h : noNewline desc = true) :
    noNewline (descPart desc) = true := by
  unfold descPart
  split
  · exact noNewline_append (noNewline_append (by decide) h) (by decide)
  · decide

theorem isText_styleIndent (style : StructMarkdownStyle) (d idx : Nat) (r : String)
    (hr : noNewline r = true) : IsText (d * 2) (styleIndent style d idx ++ r) := by
  cases style
  · exact isText_spaces _ r hr
  · exact isText_spaces _ r hr
  · simp only [styleIndent]
    split
    · rw [String.append_assoc]
      exact isText_spaces _ _ (noNewline_append (by decide) hr)
    · exact isText_spaces _ r hr

theorem isText_titleLine (style : StructMarkdownStyle) (d idx : Nat) (field : StructField)
    (hT : noNewline (mdTitle field) = true) (hD : noNewline (fieldDesc field) = true)
    (r : String) (hr : noNewline r = true) :
    IsText (d * 2) (titleLine style d idx field ++ r) := by
  unfold titleLine
  rw [String.append_assoc, String.append_assoc]
  exact isText_styleIndent style d idx _
    (noNewline_append (noNewline_append (noNewline_stylePrefix style idx) hT)
      (noNewline_append (noNewline_descPart _ hD) hr))

theorem plain_derefValue {v x : Value} (hv : plain v = true) (hd : derefValue v = some x) :
    plain x = true := by
  cases v with
  | ptr m text e =>
    cases e with
    | none => simp [derefValue] at hd
    | some y =>
      simp only [derefValue, Option.some.injEq] at hd
      subst hd
      simp only [plain, Bool.and_eq_true] at hv
      exact hv.2
  | _ => simp only [derefValue, Option.some.injEq] at hd; subst hd; exact hv

theorem plain_text {x : Value} (hx : plain x = true) : noNewline (valueText x) = true := by
  cases x with
  | scalar m text z => simp only [plain, Bool.and_eq_true] at hx; exact hx.2
  | ptr m text e =>
    cases e with
    | none => simp only [plain, Bool.and_eq_true] at hx; exact hx.2
    | some y => simp only [plain, Bool.and_eq_true] at hx; exact hx.1.2
  | struct m fs => exact (by decide : noNewline "" = true)
  | slice m n es => exact (by decide : noNewline "" = true)
  | map m n es => exact (by decide : noNewline "" = true)

theorem run_putTitle (style : StructMarkdownStyle) (d idx : Nat) (field : StructField)
    (t : Trace) (hT : noNewline (mdTitle field) = true)
    (hD : noNewline (fieldDesc field) = true) (r : String) (hr : noNewline r = true) :
    IndentedRun (d * 2) t
      (put bufferWriter (putTitle bufferWriter t (styleIndent style d idx)
        (stylePrefix style idx) (mdTitle field) (fieldDesc field)) r) := by
  refine run_text t _ (titleLine style d idx field ++ r) ?_
    (isText_titleLine style d idx field hT hD r hr)
  simp [written_put_buffer, written_putTitle_buffer, titleLine, String.append_assoc]

theorem run_putTitle_newline (style : StructMarkdownStyle) (d idx : Nat) (field : StructField)
    (t : Trace) (hT : noNewline (mdTitle field) = true)
    (hD : noNewline (fieldDesc field) = true) (r : String) (hr : noNewline r = true) :
    IndentedRun (d * 2) t
      (put bufferWriter (putTitle bufferWriter t (styleIndent style d idx)
        (stylePrefix style idx) (mdTitle field) (fieldDesc field))
        ("\n" ++ spaces (d * 2) ++ r)) := by
  refine ⟨titleLine style d idx field ++ ("\n" ++ (spaces (d * 2) ++ r)), ?_, ?_⟩
  · simp [written_put_buffer, written_putTitle_buffer, titleLine, String.append_assoc]
  · have h1 : Pieces (d * 2) (titleLine style d idx field ++ "").data :=
      pieces_of_isText (isText_titleLine style d idx field hT hD "" (by decide))
    have h2 : Pieces (d * 2) ("\n" ++ (spaces (d * 2) ++ r)).data :=
      Pieces.newline (pieces_of_isText (isText_spaces _ r hr))
    rw [String.data_append]
    simp only [String.append_empty] at h1
    exact pieces_append h1 h2

theorem run_structField {fl : Flag} (total : Nat) (style : StructMarkdownStyle) (d : Nat)
    (field : StructField) (x : Value) (idx : Nat) (t : Trace)
    (hT : noNewline (mdTitle field) = true) (hD : noNewline (fieldDesc field) = true)
    (hx : plain x = true) (hrun : RunValue x) :
    IndentedRun (d * 2) t (structField bufferWriter fl total style d field x idx t).1 := by
  unfold structField structFieldBody
  by_cases hanon : field.Anonymous = true
  · simp only [hanon, if_true]
    rw [embedded_eq]
    exact (hrun _ style d t).1
  · simp only [hanon, Bool.false_eq_true, if_false]
    have hsub : d * 2 ≤ subIndentLevel style d * 2 := by
      cases style <;> simp [subIndentLevel]
    have h0 := run_sep (d * 2) t idx
    have htitle : IndentedRun (d * 2) t
        (putTitle bufferWriter (if idx > 0 then put bufferWriter t "\n" else t)
          (styleIndent style d idx) (stylePrefix style idx) (mdTitle field)
          (fieldDesc field)) := by
      refine run_trans h0 ?_
      refine run_text _ _ (titleLine style d idx field ++ "") ?_
        (isText_titleLine style d idx field hT hD "" (by decide))
      simp [written_putTitle_buffer, titleLine, String.append_assoc]
    have hopen : IndentedRun (d * 2) t
        (put bufferWriter (putTitle bufferWriter (if idx > 0 then put bufferWriter t "\n" else t)
          (styleIndent style d idx) (stylePrefix style idx) (mdTitle field) (fieldDesc field))
          "\n") :=
      run_trans htitle (run_newline _ _)
    have htext := plain_text hx
    cases x with
    | struct m fs =>
      exact run_trans hopen (run_checked _ _ _ (run_mono hsub (hrun _ _ _ _).1)
        (run_fieldDone _ total idx))
    | slice m n es =>
      exact run_trans hopen (run_checked _ _ _ (run_mono hsub (hrun _ style _ _).2.1)
        (run_fieldDone _ total idx))
    | map m n es =>
      exact run_trans hopen (run_checked _ _ _ (run_mono hsub (hrun _ _ _ _).2.2)
        (run_fieldDone _ total idx))
    | scalar m text z =>
      simp only
      by_cases hro : (fl.field field).isRO = true
      · rw [if_pos hro]
        exact htitle
      · rw [if_neg hro]
        by_cases hs : style = StructMdTitleStyle
        · rw [if_pos hs]
          subst hs
          exact run_trans h0 (run_trans
            (run_putTitle_newline _ d idx field _ hT hD text htext) (run_fieldDone _ _ _ _))
        · rw [if_neg hs]
          exact run_trans h0 (run_trans
            (run_putTitle style d idx field _ hT hD (": " ++ text)
              (noNewline_append (by decide) htext))
            (run_fieldDone _ _ _ _))
    | ptr m text e =>
      simp only
      by_cases hro : (fl.field field).isRO = true
      · rw [if_pos hro]
        exact htitle
      · rw [if_neg hro]
        by_cases hs : style = StructMdTitleStyle
        · rw [if_pos hs]
          subst hs
          exact run_trans h0 (run_trans
            (run_putTitle_newline _ d idx field _ hT hD text htext) (run_fieldDone _ _ _ _))
        · rw [if_neg hs]
          exact run_trans h0 (run_trans
            (run_putTitle style d idx field _ hT hD (": " ++ text)
              (noNewline_append (by decide) htext))
            (run_fieldDone _ _ _ _))

theorem run_mapEntry {fl : Flag} (style : StructMarkdownStyle) (d : Nat) (key : String) (x : Value)
    (idx : Nat) (t : Trace) (hK : noNewline key = true) (hx : plain x = true)
    (hrun : RunValue x) :
    IndentedRun (d * 2) t (mapEntry bufferWriter fl style d key x idx t).1 := by
  unfold mapEntry mapEntryBody
  have hsub : d * 2 ≤ subIndentLevel style d * 2 := by
    cases style <;> simp [subIndentLevel]
  have h0 := run_sep (d * 2) t idx
  have hline : ∀ r : String, noNewline r = true →
      IndentedRun (d * 2) (if idx > 0 then put bufferWriter t "\n" else t)
        (put bufferWriter (put bufferWriter (if idx > 0 then put bufferWriter t "\n" else t)
          (styleIndent style d idx)) (stylePrefix style idx ++ key ++ r)) := by
    intro r hr
    refine run_text _ _ (styleIndent style d idx ++ (stylePrefix style idx ++ key ++ r)) ?_
      (isText_styleIndent style d idx _
        (noNewline_append (noNewline_append (noNewline_stylePrefix style idx) hK) hr))
    simp [written_put_buffer, String.append_assoc]
  have hopen : IndentedRun (d * 2) t
      (put bufferWriter (put bufferWriter (put bufferWriter
        (if idx > 0 then put bufferWriter t "\n" else t) (styleIndent style d idx))
        (stylePrefix style idx ++ key)) "\n") := by
    have h1 := hline "" (by decide)
    simp only [String.append_empty] at h1
    exact run_trans h0 (run_trans h1 (run_newline _ _))
  have hn : ∀ t1 : Trace, IndentedRun (d * 2) t1
      ((fun t2 => ((t2, idx + 1, Status.ok) : Result)) t1).1 := fun t1 => run_refl _ t1
  have htext := plain_text hx
  split
  · exact run_refl _ t
  · cases x with
    | struct m fs =>
      exact run_trans hopen (run_checked _ _ _ (run_mono hsub (hrun _ _ _ _).1) hn)
    | slice m n es =>
      exact run_trans hopen (run_checked _ _ _ (run_mono hsub (hrun _ style _ _).2.1) hn)
    | map m n es =>
      exact run_trans hopen (run_checked _ _ _ (run_mono hsub (hrun _ _ _ _).2.2) hn)
    | scalar m text z =>
      have h1 := hline (": " ++ text) (noNewline_append (by decide) htext)
      simp only [← String.append_assoc] at h1
      exact run_trans h0 h1
    | ptr m text e =>
      have h1 := hline (": " ++ text) (noNewline_append (by decide) htext)
      simp only [← String.append_assoc] at h1
      exact run_trans h0 h1

theorem run_sliceElem {fl : Flag} (d : Nat) (x : Value) (idx : Nat) (t : Trace)
    (hx : plain x = true)
    (hrun : RunValue x) :
    IndentedRun (d * 2) t (sliceElem bufferWriter fl d x idx t).1 := by
  unfold sliceElem sliceElemBody
  have h0 := run_sep (d * 2) t idx
  have hn : ∀ t1 : Trace, IndentedRun (d * 2) t1
      ((fun t2 => ((t2, idx + 1, Status.ok) : Result)) t1).1 := fun t1 => run_refl _ t1
  have hline : ∀ text : String, noNewline text = true →
      IndentedRun (d * 2) (if idx > 0 then put bufferWriter t "\n" else t)
        (put bufferWriter (if idx > 0 then put bufferWriter t "\n" else t)
          (spaces (d * 2) ++ "- " ++ text)) := by
    intro text ht
    refine run_text _ _ (spaces (d * 2) ++ ("- " ++ text)) ?_
      (isText_spaces _ _ (noNewline_append (by decide) ht))
    simp [written_put_buffer, String.append_assoc]
  have htext := plain_text hx
  cases x with
  | struct m fs => exact run_trans h0 (run_checked _ _ _ (hrun _ _ _ _).1 hn)
  | slice m n es =>
    exact run_trans h0 (run_checked _ _ _
      (run_mono (by omega) (hrun _ StructMdListStyle (d + 1) _).2.1) hn)
  | map m n es => exact run_trans h0 (run_checked _ _ _ (hrun _ _ _ _).2.2 hn)
  | scalar m text z => exact run_trans h0 (hline text htext)
  | ptr m text e => exact run_trans h0 (hline text htext)

theorem run_structFields {fl : Flag} (total : Nat) (style : StructMarkdownStyle) (d : Nat)
    (fields : List (StructField × Value)) (hp : plainFields fields = true)
    (h : ∀ p ∈ fields, ∀ x, derefValue p.2 = some x → plain x = true → RunValue x)
    (idx : Nat) (t : Trace) :
    IndentedRun (d * 2) t (structFields bufferWriter fl total style d fields idx t).1 := by
  induction fields generalizing idx t with
  | nil => rw [structFields_nil]; exact run_refl _ t
  | cons p rest ih =>
    obtain ⟨field, fieldValue⟩ := p
    simp only [plainFields, Bool.and_eq_true] at hp
    obtain ⟨⟨⟨hT, hD⟩, hv⟩, hrest⟩ := hp
    have ih1 := ih hrest (fun q hq => h q (List.mem_cons_of_mem _ hq))
    rw [structFields_cons]
    split
    · exact ih1 idx t
    · cases hd : derefValue fieldValue with
      | none => exact ih1 idx t
      | some x =>
        have hx := plain_derefValue hv hd
        exact run_andThen _ _
          (run_structField total style d field x idx t hT hD hx
            (h (field, fieldValue) (List.mem_cons_self _ _) x hd hx))
          (fun i t1 => ih1 i t1)

theorem run_mapEntries {fl : Flag} (style : StructMarkdownStyle) (d : Nat)
    (entries : List (String × Value)) (hp : plainEntries entries = true)
    (h : ∀ p ∈ entries, ∀ x, derefValue p.2 = some x → plain x = true → RunValue x)
    (idx : Nat) (t : Trace) :
    IndentedRun (d * 2) t (mapEntries bufferWriter fl style d entries idx t).1 := by
  induction entries generalizing idx t with
  | nil => rw [mapEntries_nil]; exact run_refl _ t
  | cons p rest ih =>
    obtain ⟨key, fieldValue⟩ := p
    simp only [plainEntries, Bool.and_eq_true] at hp
    obtain ⟨⟨hK, hv⟩, hrest⟩ := hp
    have ih1 := ih hrest (fun q hq => h q (List.mem_cons_of_mem _ hq))
    rw [mapEntries_cons]
    cases hd : derefValue fieldValue with
    | none => exact ih1 idx t
    | some x =>
      have hx := plain_derefValue hv hd
      exact run_andThen _ _
        (run_mapEntry style d key x idx t hK hx
          (h (key, fieldValue) (List.mem_cons_self _ _) x hd hx))
        (fun i t1 => ih1 i t1)

theorem run_sliceElems {fl : Flag} (d : Nat) (elems : List Value) (hp : plainElems elems = true)
    (h : ∀ p ∈ elems, ∀ x, derefValue p = some x → plain x = true → RunValue x)
    (idx : Nat) (t : Trace) :
    IndentedRun (d * 2) t (sliceElems bufferWriter fl d elems idx t).1 := by
  induction elems generalizing idx t with
  | nil => rw [sliceElems_nil]; exact run_refl _ t
  | cons value rest ih =>
    simp only [plainElems, Bool.and_eq_true] at hp
    obtain ⟨hv, hrest⟩ := hp
    have ih1 := ih hrest (fun q hq => h q (List.mem_cons_of_mem _ hq))
    rw [sliceElems_cons]
    cases hd : derefValue value with
    | none => exact ih1 idx t
    | some x =>
      have hx := plain_derefValue hv hd
      exact run_andThen _ _
        (run_sliceElem d x idx t hx (h value (List.mem_cons_self _ _) x hd hx))
        (fun i t1 => ih1 i t1)

theorem runValue_all :
    ∀ (n : Nat) (v : Value), sizeOf v < n → plain v = true → RunValue v := by
  intro n
  induction n with
  | zero => intro v hv; omega
  | succ n ih =>
    intro v hv hp fl s d t
    cases v with
    | scalar m text z =>
      simp only [plain, Bool.and_eq_true, Option.isNone_iff_eq_none] at hp
      obtain ⟨hm, _⟩ := hp
      subst hm
      simp only [structToMarkdown, sliceToMarkdown, mapToMarkdown]
      exact ⟨run_refl _ t, run_refl _ t, run_refl _ t⟩
    | struct m fields =>
      simp only [plain, Bool.and_eq_true, Option.isNone_iff_eq_none] at hp
      obtain ⟨hm, hf⟩ := hp
      subst hm
      simp only [structToMarkdown, sliceToMarkdown, mapToMarkdown]
      refine ⟨run_structFields _ s d fields hf ?_ 0 t, run_refl _ t, run_refl _ t⟩
      intro p hp x hd hx
      apply ih _ _ hx
      have h1 := sizeOf_snd_lt_of_mem hp
      have h2 := sizeOf_derefValue_le hd
      simp only [Value.struct.sizeOf_spec] at hv
      omega
    | slice m isNil elems =>
      simp only [plain, Bool.and_eq_true, Option.isNone_iff_eq_none] at hp
      obtain ⟨hm, hf⟩ := hp
      subst hm
      simp only [structToMarkdown, sliceToMarkdown, mapToMarkdown]
      refine ⟨run_refl _ t, run_sliceElems d elems hf ?_ 0 t, run_refl _ t⟩
      intro p hp x hd hx
      apply ih _ _ hx
      have h1 := List.sizeOf_lt_of_mem hp
      have h2 := sizeOf_derefValue_le hd
      simp only [Value.slice.sizeOf_spec] at hv
      omega
    | map m isNil entries =>
      simp only [plain, Bool.and_eq_true, Option.isNone_iff_eq_none] at hp
      obtain ⟨hm, hf⟩ := hp
      subst hm
      simp only [structToMarkdown, sliceToMarkdown, mapToMarkdown]
      refine ⟨run_refl _ t, run_refl _ t, run_mapEntries s d entries hf ?_ 0 t⟩
      intro p hp x hd hx
      apply ih _ _ hx
      have h1 := sizeOf_snd_lt_of_mem hp
      have h2 := sizeOf_derefValue_le hd
      simp only [Value.map.sizeOf_spec] at hv
      omega
    | ptr m text e =>
      cases e with
      | none =>
        simp only [plain, Bool.and_eq_true, Option.isNone_iff_eq_none] at hp
        obtain ⟨hm, _⟩ := hp
        subst hm
        simp only [structToMarkdown, sliceToMarkdown, mapToMarkdown]
        exact ⟨run_refl _ t, run_refl _ t, run_refl _ t⟩
      | some y =>
        simp only [plain, Bool.and_eq_true, Option.isNone_iff_eq_none] at hp
        obtain ⟨⟨hm, _⟩, hy⟩ := hp
        subst hm
        simp only [Value.ptr.sizeOf_spec, Option.some.sizeOf_spec] at hv
        cases y with
        | scalar m1 text1 z1 =>
          simp only [structToMarkdown, sliceToMarkdown, mapToMarkdown]
          exact ⟨run_refl _ t, run_refl _ t, run_refl _ t⟩
        | ptr m1 text1 e1 =>
          simp only [structToMarkdown, sliceToMarkdown, mapToMarkdown]
          exact ⟨run_refl _ t, run_refl _ t, run_refl _ t⟩
        | struct m1 fields =>
          simp only [plain, Bool.and_eq_true] at hy
          simp only [structToMarkdown, sliceToMarkdown, mapToMarkdown]
          refine ⟨run_structFields _ s d fields hy.2 ?_ 0 t, run_refl _ t, run_refl _ t⟩
          intro p hp x hd hx
          apply ih _ _ hx
          have h1 := sizeOf_snd_lt_of_mem hp
          have h2 := sizeOf_derefValue_le hd
          simp only [Value.struct.sizeOf_spec] at hv
          omega
        | slice m1 isNil elems =>
          simp only [plain, Bool.and_eq_true] at hy
          simp only [structToMarkdown, sliceToMarkdown, mapToMarkdown]
          refine ⟨run_refl _ t, run_sliceElems d elems hy.2 ?_ 0 t, run_refl _ t⟩
          intro p hp x hd hx
          apply ih _ _ hx
          have h1 := List.sizeOf_lt_of_mem hp
          have h2 := sizeOf_derefValue_le hd
          simp only [Value.slice.sizeOf_spec] at hv
          omega
        | map m1 isNil entries =>
          simp only [plain, Bool.and_eq_true] at hy
          simp only [structToMarkdown, sliceToMarkdown, mapToMarkdown]
          refine ⟨run_refl _ t, run_refl _ t, run_mapEntries s d entries hy.2 ?_ 0 t⟩
          intro p hp x hd hx
          apply ih _ _ hx
          have h1 := sizeOf_snd_lt_of_mem hp
          have h2 := sizeOf_derefValue_le hd
          simp only [Value.map.sizeOf_spec] at hv
          omega

theorem lines_of_run {n : Nat} {t1 : Trace} (h : IndentedRun n [] t1) :
    ∀ l ∈ linesOf (written t1), l = [] ∨ List.replicate n ' ' <+: l := by
  obtain ⟨out, e, p⟩ := h
  have e1 : written t1 = out := by rw [e]; simp [written]
  rw [e1]
  exact pieces_lines p

/-- C19 (indentation invariant).  For every value tree that has no override-capable node
and whose titles, descriptions, map keys and value texts contain no newline, and for every
style and indent level `d`, every line of what `structToMarkdown`, `mapToMarkdown` or
`sliceToMarkdown`, called at indent level `d`, writes on a buffer is empty or begins with
`2*d` spaces.  This holds whatever the flag `fl` of the value, also for what is written
before a panic on a value reached through an unexported field. -/
theorem indentation_invariant (fl : Flag) (v : Value) (style : StructMarkdownStyle) (d : Nat)
    (hp : plain v = true) :
    (∀ l ∈ linesOf (written (structToMarkdown bufferWriter fl v style d []).1),
      l = [] ∨ List.replicate (2 * d) ' ' <+: l) ∧
    (∀ l ∈ linesOf (written (mapToMarkdown bufferWriter fl v style d []).1),
      l = [] ∨ List.replicate (2 * d) ' ' <+: l) ∧
    (∀ l ∈ linesOf (written (sliceToMarkdown bufferWriter fl v d []).1),
      l = [] ∨ List.replicate (2 * d) ' ' <+: l) := by
  have h := runValue_all (sizeOf v + 1) v (Nat.lt_succ_self _) hp fl style d []
  rw [Nat.mul_comm 2 d]
  exact ⟨lines_of_run h.1, lines_of_run h.2.2, lines_of_run h.2.1⟩

/-- Witness of C19: the first `Tag` of the test, rendered at list style and depth 1, has its
title lines behind two spaces and the entries of its nested maps behind four. -/
theorem indentation_invariant_witness :
    written (structToMarkdown bufferWriter Flag.readable
        interestTagValue StructMdListStyle 1 []).1 =
      "  - Category (Type of tag): Interest\n\n  - Tag (Actual tag value): Technology\n\n" ++
      "  - Map (Test for map)\n    - key1: v1\n    - key2: v2\n" ∧
    ∀ l ∈ linesOf (written (structToMarkdown bufferWriter Flag.readable interestTagValue
        StructMdListStyle 1 []).1), l = [] ∨ List.replicate (2 * 1) ' ' <+: l :=
  ⟨by decide,
    (indentation_invariant Flag.readable interestTagValue StructMdListStyle 1 (by decide)).1⟩

end MdEncoder
